import Mathlib

/-!
# Flappy Pacman: the per-frame simulation core

Shallow embedding of `src/FlappyPacman/main.c` (the extended variant with the
named-player scoreboard) and, in the namespace `Simple`, of
`src/Flappy Pacman/FlappyPacman/main.c` (the simpler variant).

Conventions of the embedding
* `float` values are exact rationals (`ℚ`); `int` values are `Int`.
* The global arrays indexed by a pipe slot are total functions `Nat → α`;
  the scoreboard `players` and the name buffers are lists of their declared
  length, written with `List.set`.
* A function returns `Option`: `none` stands for undefined behaviour of the C
  program (a division by zero in `rand() % m`, or `levels[currentLevel]`
  outside the level table).
* What the C code reads from its environment during one frame is collected in
  `Input`: the key queries of raylib, the values returned by `rand()`, and the
  values of `sinf` at the points where the frame evaluates it.
* Drawing is not modelled; the `color` field of a level is only used there.
-/

namespace FlappyPacman

/-! ## Global configuration -/

def SCREEN_WIDTH : Int := 800
def SCREEN_HEIGHT : Int := 450
def PACMAN_RADIUS : ℚ := 20
def JUMP_STRENGTH : ℚ := -6
/-- The macro `PACMAN_X_POS` expands to `SCREEN_WIDTH / 4.0f`. -/
def PACMAN_X_POS : ℚ := (SCREEN_WIDTH : ℚ) / 4
def PIPE_WIDTH : Int := 70
def MAX_PIPES : Nat := 100
def MAX_LEVELS : Int := 2
def MAX_PLAYERS : Int := 10

/-! ## Data structures -/

inductive GameState where
  | STATE_INPUT
  | STATE_TITLE
  | STATE_PLAYING
  | STATE_LEVEL_DONE
  | STATE_GAMEOVER
  | STATE_VICTORY
  deriving DecidableEq

open GameState

structure LevelData where
  pipeCount : Int
  speed : ℚ
  gapSize : ℚ
  gravity : ℚ
  deriving DecidableEq

structure PlayerData where
  name : List Nat
  score : Int
  active : Bool
  deriving DecidableEq

/-- The raylib `Rectangle`: top-left corner, width and height. -/
structure Rectangle where
  x : ℚ
  y : ℚ
  width : ℚ
  height : ℚ
  deriving DecidableEq

/-- All global variables of the program. -/
@[ext]
structure Game where
  players : List PlayerData
  playerCount : Int
  currentState : GameState
  currentLevel : Int
  tempName : List Nat
  letterCount : Int
  currentSessionScore : Int
  levelStartScore : Int
  pacmanY : ℚ
  pacmanVelocityY : ℚ
  currentMouthAngle : ℚ
  animationTime : ℚ
  pipeX : Nat → ℚ
  pipeGapY : Nat → ℚ
  initialPipeGapY : Nat → ℚ
  pipePassed : Nat → Bool
  orbCollected : Nat → Bool
  orbRelY : Nat → ℚ

/-- What one frame reads from the environment.
`chars` is the queue behind `GetCharPressed`, `rand k` is the value returned by
the `k`-th call of `rand()` in the frame, `sinOsc i` is the value of
`sinf(time * 3.0f + i)` in iteration `i` of the pipe loop, `sinAnim` is
`sinf(animationTime)`, `frameTime` is `GetFrameTime()`. -/
structure Input where
  space : Bool
  enter : Bool
  backspace : Bool
  chars : List Int
  frameTime : ℚ
  sinAnim : ℚ
  sinOsc : Nat → ℚ
  rand : Nat → Int

/-! ## Setup functions -/

/-- The level table written by `SetupLevels`. -/
def SetupLevels : List LevelData :=
  [ { pipeCount := 5, speed := 3, gapSize := 160, gravity := 2 / 5 },
    { pipeCount := 10, speed := 7 / 2, gapSize := 150, gravity := 9 / 20 } ]

/-- The global `levels` after `main` has called `SetupLevels`. -/
def levels : List LevelData := SetupLevels

/-- The lookup `levels[k]`; `none` outside the table. -/
def levelAt (k : Int) : Option LevelData :=
  if 0 ≤ k then levels[k.toNat]? else none

/-- The C conversion `(int)q` of a float: truncation toward zero. In C the
conversion is defined only when the truncated value is an `int`; the theorems
of the claims apply it to gap sizes in `[0, 2^31)`. -/
def cTrunc (q : ℚ) : Int := if 0 ≤ q then ⌊q⌋ else ⌈q⌉

/-- The C expression `a % b` on `int`; `none` when `b` is zero. -/
def cMod (a b : Int) : Option Int := if b = 0 then none else some (Int.tmod a b)

/-- The upper bound `maxGap` of the gap draw, after the safety check. -/
def maxGapOf (cur : LevelData) : Int :=
  let minGap : Int := 50
  let maxGap : Int := SCREEN_HEIGHT - 50 - cTrunc cur.gapSize
  if maxGap < minGap then minGap + 10 else maxGap

/-- The modulus `maxGap - minGap` of `rand() % (maxGap - minGap)`. -/
def gapModulus (cur : LevelData) : Int := maxGapOf cur - 50

/-- The local `safeRange` of the orb logic, with `padding = 20`. -/
def safeRangeOf (cur : LevelData) : Int :=
  let padding : Int := 20
  cTrunc cur.gapSize - padding * 2

/-- One iteration of the loop of `ResetEntityPositions`, for slot `i`.
The second component counts the calls of `rand()` made so far. The `int`
values are stored as they are: in C the store into a `float` is exact for
integers up to `2^24`, and slot `i` is an element of the arrays for
`i < MAX_PIPES`; the theorems of the claims apply the reset to level specs
with `gapSize ≤ 350` and at most `MAX_PIPES` slots, where both hold. -/
def resetSlot (cur : LevelData) (rand : Nat → Int) (i : Nat) (st : Game × Nat) :
    Option (Game × Nat) := do
  let s := st.1
  let k := st.2
  let s1 : Game := { s with pipeX := Function.update s.pipeX i ((SCREEN_WIDTH + 300 + (i : Int) * 300 : Int) : ℚ) }
  let minGap : Int := 50
  let r ← cMod (rand k) (maxGapOf cur - minGap)
  let randomY : ℚ := ((minGap + r : Int) : ℚ)
  let s2 : Game := { s1 with pipeGapY := Function.update s1.pipeGapY i randomY,
                             initialPipeGapY := Function.update s1.initialPipeGapY i randomY,
                             orbCollected := Function.update s1.orbCollected i false }
  let padding : Int := 20
  let safeRange : Int := safeRangeOf cur
  if safeRange > 0 then
    let r2 ← cMod (rand (k + 1)) safeRange
    let s3 : Game := { s2 with orbRelY := Function.update s2.orbRelY i ((padding + r2 : Int) : ℚ) }
    pure ({ s3 with pipePassed := Function.update s3.pipePassed i false }, k + 2)
  else
    let s3 : Game := { s2 with orbRelY := Function.update s2.orbRelY i (cur.gapSize / 2) }
    pure ({ s3 with pipePassed := Function.update s3.pipePassed i false }, k + 1)

/-- The body of `ResetEntityPositions` once `cur = levels[currentLevel]` has been read. -/
def resetWith (cur : LevelData) (rand : Nat → Int) (s : Game) : Option Game := do
  let s0 : Game := { s with pacmanY := (SCREEN_HEIGHT : ℚ) / 2, pacmanVelocityY := 0, animationTime := 0 }
  let st ← (List.range cur.pipeCount.toNat).foldlM (fun st i => resetSlot cur rand i st) (s0, 0)
  pure st.1

def ResetEntityPositions (rand : Nat → Int) (s : Game) : Option Game := do
  let cur ← levelAt s.currentLevel
  resetWith cur rand s

/-! ## Update logic -/

/-- The body of the `while (key > 0)` loop of `UpdateInput` for one key. -/
def typeKey (key : Int) (s : Game) : Game :=
  if key ≥ 32 ∧ key ≤ 125 ∧ s.letterCount < 15 then
    { s with tempName := (s.tempName.set s.letterCount.toNat key.toNat).set (s.letterCount.toNat + 1) 0,
             letterCount := s.letterCount + 1 }
  else s

/-- The `while (key > 0)` loop: keys are taken from the queue until it is
empty (`GetCharPressed` returns 0) or a key is not positive. -/
def typeLoop : List Int → Game → Game
  | [], s => s
  | key :: rest, s => if key > 0 then typeLoop rest (typeKey key s) else s

/-- The `IsKeyPressed(KEY_BACKSPACE)` block of `UpdateInput`. -/
def backspaceKey (s : Game) : Game :=
  let lc : Int := if s.letterCount - 1 < 0 then 0 else s.letterCount - 1
  { s with letterCount := lc, tempName := s.tempName.set lc.toNat 0 }

def UpdateInput (inp : Input) (s : Game) : Option Game :=
  let s1 := typeLoop inp.chars s
  let s2 := if inp.backspace then backspaceKey s1 else s1
  if inp.enter ∧ s2.letterCount > 0 then
    ResetEntityPositions inp.rand
      { s2 with currentState := STATE_TITLE, currentSessionScore := 0, levelStartScore := 0,
                currentLevel := 0 }
  else some s2

/-- The libc `strcpy(dst, src)` on buffers: the bytes of `src` up to and
including its first NUL overwrite the start of `dst`. -/
def strcpy (dst src : List Nat) : List Nat :=
  let body := src.takeWhile (fun c => c ≠ 0)
  body ++ 0 :: dst.drop (body.length + 1)

/-- Step 1 of the victory logic: add the player to the scoreboard. -/
def addPlayer (s : Game) : Game :=
  if s.playerCount < MAX_PLAYERS then
    let n := s.playerCount.toNat
    let old := s.players.getD n ⟨[], 0, false⟩
    { s with players := s.players.set n
               { name := strcpy old.name s.tempName, score := s.currentSessionScore, active := true },
             playerCount := s.playerCount + 1 }
  else s

/-- The body of the inner loop of the bubble sort: compare `players[j]` with
`players[j+1]` and swap the two structs when the first score is smaller. -/
def swapStep (ps : List PlayerData) (j : Nat) : List PlayerData :=
  match ps[j]?, ps[j + 1]? with
  | some a, some b => if a.score < b.score then (ps.set j b).set (j + 1) a else ps
  | _, _ => ps

/-- The inner loop `for (j = 0; j < playerCount - i - 1; j++)`. -/
def sortInner (n : Int) (ps : List PlayerData) (i : Nat) : List PlayerData :=
  (List.range (n - (i : Int) - 1).toNat).foldl swapStep ps

/-- Step 2 of the victory logic: the two nested loops of the bubble sort,
`for (i = 0; i < playerCount - 1; i++)`. -/
def sortScoreboard (n : Int) (ps : List PlayerData) : List PlayerData :=
  (List.range (n - 1).toNat).foldl (sortInner n) ps

/-- The `STATE_LEVEL_DONE` branch of the space-bar block. -/
def levelDoneSpace (inp : Input) (s : Game) : Option Game :=
  let s1 : Game := { s with currentLevel := s.currentLevel + 1 }
  if s1.currentLevel ≥ MAX_LEVELS then
    let s2 : Game := { s1 with currentState := STATE_VICTORY }
    let s3 := addPlayer s2
    some { s3 with players := sortScoreboard s3.playerCount s3.players }
  else
    ResetEntityPositions inp.rand
      { s1 with currentState := STATE_TITLE, levelStartScore := s1.currentSessionScore }

/-- The block `if (IsKeyPressed(KEY_SPACE)) { ... }` of `UpdateGame`. -/
def spaceBlock (inp : Input) (s : Game) : Option Game :=
  match s.currentState with
  | STATE_TITLE => some { s with currentState := STATE_PLAYING, pacmanVelocityY := JUMP_STRENGTH }
  | STATE_LEVEL_DONE => levelDoneSpace inp s
  | STATE_GAMEOVER =>
      ResetEntityPositions inp.rand
        { s with currentSessionScore := s.levelStartScore, currentState := STATE_TITLE }
  | STATE_VICTORY => some { s with currentState := STATE_INPUT, letterCount := 0,
                                   tempName := s.tempName.set 0 0 }
  | _ => some s

/-- The raylib function `CheckCollisionRecs`: two axis-aligned rectangles
overlap (strict inequalities on both axes). -/
def CheckCollisionRecs (rec1 rec2 : Rectangle) : Bool :=
  decide ((rec1.x < rec2.x + rec2.width ∧ rec1.x + rec1.width > rec2.x) ∧
    (rec1.y < rec2.y + rec2.height ∧ rec1.y + rec1.height > rec2.y))

/-- The rectangle `topPipe` of slot `i`. -/
def topPipe (s : Game) (i : Nat) : Rectangle :=
  { x := s.pipeX i, y := 0, width := (PIPE_WIDTH : ℚ), height := s.pipeGapY i }

/-- The rectangle `botPipe` of slot `i`. -/
def botPipe (cur : LevelData) (s : Game) (i : Nat) : Rectangle :=
  { x := s.pipeX i, y := s.pipeGapY i + cur.gapSize, width := (PIPE_WIDTH : ℚ),
    height := (SCREEN_HEIGHT : ℚ) }

/-- The bottom pipe rectangle that `DrawGame` draws for slot `i`: its locals
`bottomY` and `bottomHeight`, and the arguments of the call
`DrawRectangle(pipeX[i], bottomY, PIPE_WIDTH, bottomHeight, cur.color)` as
they are before their conversion to `int`. -/
def drawnBotPipe (cur : LevelData) (s : Game) (i : Nat) : Rectangle :=
  let bottomY : ℚ := s.pipeGapY i + cur.gapSize
  let bottomHeight : ℚ := (SCREEN_HEIGHT : ℚ) - bottomY
  { x := s.pipeX i, y := bottomY, width := (PIPE_WIDTH : ℚ), height := bottomHeight }

/-- The rectangle `player`: the bounding square of the avatar inset by 5. -/
def playerRect (s : Game) : Rectangle :=
  { x := PACMAN_X_POS - PACMAN_RADIUS + 5, y := s.pacmanY - PACMAN_RADIUS + 5,
    width := PACMAN_RADIUS * 2 - 10, height := PACMAN_RADIUS * 2 - 10 }

/-- The rectangle `orbHitbox` of slot `i` (`PIPE_WIDTH / 2` is an `int` division). -/
def orbHitbox (s : Game) (i : Nat) : Rectangle :=
  { x := s.pipeX i + ((PIPE_WIDTH / 2 : Int) : ℚ) - 5, y := s.pipeGapY i + s.orbRelY i - 5,
    width := 10, height := 10 }

/-- Scroll step and, on level index 1, the sine wave of slot `i`. -/
def movePipe (cur : LevelData) (inp : Input) (i : Nat) (s : Game) : Game :=
  let s1 : Game := { s with pipeX := Function.update s.pipeX i (s.pipeX i - cur.speed) }
  if s1.currentLevel = 1 then
    { s1 with pipeGapY := Function.update s1.pipeGapY i (s1.initialPipeGapY i + inp.sinOsc i * 50) }
  else s1

/-- The collision test of slot `i` against the two pipe rectangles. -/
def hitPipe (cur : LevelData) (i : Nat) (s : Game) : Game :=
  if CheckCollisionRecs (topPipe s i) (playerRect s) || CheckCollisionRecs (botPipe cur s i) (playerRect s) then
    { s with currentState := STATE_GAMEOVER }
  else s

/-- The orb collection block of slot `i`. -/
def collectOrb (i : Nat) (s : Game) : Game :=
  if !s.orbCollected i then
    if CheckCollisionRecs (playerRect s) (orbHitbox s i) then
      { s with orbCollected := Function.update s.orbCollected i true,
               currentSessionScore := s.currentSessionScore + 5 }
    else s
  else s

/-- The score update block of slot `i` (passing a pipe). -/
def passPipe (i : Nat) (s : Game) : Game :=
  if !s.pipePassed i && decide (s.pipeX i + (PIPE_WIDTH : ℚ) < PACMAN_X_POS) then
    { s with pipePassed := Function.update s.pipePassed i true,
             currentSessionScore := s.currentSessionScore + 1 }
  else s

/-- One iteration of the pipe loop of `UpdateGame`; the second component is
the local variable `pipesClearedCount`. -/
def pipeStep (cur : LevelData) (inp : Input) (st : Game × Int) (i : Nat) : Game × Int :=
  let s := passPipe i (collectOrb i (hitPipe cur i (movePipe cur inp i st.1)))
  (s, if s.pipePassed i then st.2 + 1 else st.2)

/-- The pipe loop `for (int i = 0; i < cur.pipeCount; i++)`. -/
def pipeLoop (cur : LevelData) (inp : Input) (s : Game) : Game × Int :=
  (List.range cur.pipeCount.toNat).foldl (pipeStep cur inp) (s, 0)

/-- Step 1 of the playing part: gravity, jump, position, animation. -/
def updatePlayer (cur : LevelData) (inp : Input) (s : Game) : Game :=
  let v1 := s.pacmanVelocityY + cur.gravity
  let v2 := if inp.space then JUMP_STRENGTH else v1
  let t := s.animationTime + inp.frameTime * 10
  { s with pacmanVelocityY := v2, pacmanY := s.pacmanY + v2, animationTime := t,
           currentMouthAngle := 25 + 20 * inp.sinAnim }

/-- The condition of the bounds collision. -/
def outOfBounds (s : Game) : Bool :=
  decide (s.pacmanY - PACMAN_RADIUS ≤ 0 ∨ s.pacmanY + PACMAN_RADIUS ≥ (SCREEN_HEIGHT : ℚ))

/-- The bounds collision block. -/
def boundsCheck (s : Game) : Game :=
  if outOfBounds s then { s with currentState := STATE_GAMEOVER } else s

/-- The part of `UpdateGame` that runs when the state is `STATE_PLAYING`,
once `cur = levels[currentLevel]` has been read. -/
def playWith (cur : LevelData) (inp : Input) (s : Game) : Game :=
  let st := pipeLoop cur inp (boundsCheck (updatePlayer cur inp s))
  if st.2 ≥ cur.pipeCount then { st.1 with currentState := STATE_LEVEL_DONE } else st.1

/-- The part of `UpdateGame` after `if (currentState != STATE_PLAYING) return;`. -/
def playFrame (inp : Input) (s : Game) : Option Game := do
  let cur ← levelAt s.currentLevel
  pure (playWith cur inp s)

def UpdateGame (inp : Input) (s : Game) : Option Game :=
  if s.currentState = STATE_INPUT then UpdateInput inp s
  else do
    let s1 ← if inp.space then spaceBlock inp s else some s
    if s1.currentState ≠ STATE_PLAYING then pure s1 else playFrame inp s1

/-- The globals when the frame loop of `main` starts: static storage is
zero-initialised, `tempName` is the empty string, `currentMouthAngle` is 45,
and `main` has marked all ten scoreboard entries inactive. -/
def initGame : Game :=
  { players := List.replicate 10 ⟨List.replicate 16 0, 0, false⟩,
    playerCount := 0,
    currentState := STATE_INPUT,
    currentLevel := 0,
    tempName := List.replicate 16 0,
    letterCount := 0,
    currentSessionScore := 0,
    levelStartScore := 0,
    pacmanY := 0,
    pacmanVelocityY := 0,
    currentMouthAngle := 45,
    animationTime := 0,
    pipeX := fun _ => 0,
    pipeGapY := fun _ => 0,
    initialPipeGapY := fun _ => 0,
    pipePassed := fun _ => false,
    orbCollected := fun _ => false,
    orbRelY := fun _ => 0 }

/-- The states the frame loop can reach: any number of calls of `UpdateGame`,
each with an arbitrary input snapshot. -/
inductive Reachable : Game → Prop where
  | init : Reachable initGame
  | step {s s1 : Game} (inp : Input) : Reachable s → UpdateGame inp s = some s1 → Reachable s1

/-! ## Closed forms and predicates used by the statements -/

/-- Number of calls of `rand()` made by one iteration of the reset loop. -/
def randsPerSlot (cur : LevelData) : Nat := if safeRangeOf cur > 0 then 2 else 1

/-- The value the reset loop draws for `pipeGapY[i]`. -/
def genGapY (cur : LevelData) (rand : Nat → Int) (i : Nat) : ℚ :=
  ((50 + Int.tmod (rand (randsPerSlot cur * i)) (maxGapOf cur - 50) : Int) : ℚ)

/-- The value the reset loop stores in `orbRelY[i]`. -/
def genOrbRelY (cur : LevelData) (rand : Nat → Int) (i : Nat) : ℚ :=
  if safeRangeOf cur > 0 then
    ((20 + Int.tmod (rand (randsPerSlot cur * i + 1)) (safeRangeOf cur) : Int) : ℚ)
  else cur.gapSize / 2

/-- The globals after `n` iterations of the reset loop, in closed form. -/
def resetResult (cur : LevelData) (rand : Nat → Int) (n : Nat) (s : Game) : Game :=
  { s with
    pacmanY := (SCREEN_HEIGHT : ℚ) / 2,
    pacmanVelocityY := 0,
    animationTime := 0,
    pipeX := fun j => if j < n then ((SCREEN_WIDTH + 300 + (j : Int) * 300 : Int) : ℚ) else s.pipeX j,
    pipeGapY := fun j => if j < n then genGapY cur rand j else s.pipeGapY j,
    initialPipeGapY := fun j => if j < n then genGapY cur rand j else s.initialPipeGapY j,
    orbCollected := fun j => if j < n then false else s.orbCollected j,
    orbRelY := fun j => if j < n then genOrbRelY cur rand j else s.orbRelY j,
    pipePassed := fun j => if j < n then false else s.pipePassed j }


/-- Number of indices below `n` at which `f` is true. -/
def countTrue (f : Nat → Bool) (n : Nat) : Nat := (List.range n).countP f

/-- The collision test of iteration `i` of the pipe loop, run on state `s`. -/
def hitNow (cur : LevelData) (inp : Input) (s : Game) (i : Nat) : Bool :=
  let s1 := movePipe cur inp i s
  CheckCollisionRecs (topPipe s1 i) (playerRect s1) || CheckCollisionRecs (botPipe cur s1 i) (playerRect s1)

/-- The orb of slot `i` is collected by iteration `i` of the pipe loop, run on state `s`. -/
def orbNow (cur : LevelData) (inp : Input) (s : Game) (i : Nat) : Bool :=
  let s1 := movePipe cur inp i s
  !s1.orbCollected i && CheckCollisionRecs (playerRect s1) (orbHitbox s1 i)

/-- Slot `i` is marked passed by iteration `i` of the pipe loop, run on state `s`. -/
def passNow (cur : LevelData) (inp : Input) (s : Game) (i : Nat) : Bool :=
  let s1 := movePipe cur inp i s
  !s1.pipePassed i && decide (s1.pipeX i + (PIPE_WIDTH : ℚ) < PACMAN_X_POS)

/-- The score added by iteration `i` of the pipe loop, run on state `s`. -/
def slotGain (cur : LevelData) (inp : Input) (s : Game) (i : Nat) : Int :=
  (if orbNow cur inp s i then 5 else 0) + (if passNow cur inp s i then 1 else 0)

/-- The globals after `n` iterations of the pipe loop started in `s`, in closed form. -/
def pipeLoopResult (cur : LevelData) (inp : Input) (n : Nat) (s : Game) : Game :=
  { s with
    pipeX := fun j => if j < n then s.pipeX j - cur.speed else s.pipeX j,
    pipeGapY := fun j => if j < n then (movePipe cur inp j s).pipeGapY j else s.pipeGapY j,
    orbCollected := fun j => if j < n then (s.orbCollected j || orbNow cur inp s j) else s.orbCollected j,
    pipePassed := fun j => if j < n then (s.pipePassed j || passNow cur inp s j) else s.pipePassed j,
    currentSessionScore := s.currentSessionScore + ((List.range n).map (slotGain cur inp s)).sum,
    currentState := if (List.range n).any (hitNow cur inp s) then STATE_GAMEOVER else s.currentState }

/-- The player hitbox overlaps the top or the bottom pipe rectangle of slot
`i` in a frame started in state `s`: the test of iteration `i`, after the
avatar integration and the scroll step of the slot. -/
def slotHit (cur : LevelData) (inp : Input) (s : Game) (i : Nat) : Bool :=
  hitNow cur inp (updatePlayer cur inp s) i

/-- The bounds condition of a frame started in state `s`, after the avatar integration. -/
def boundsHit (cur : LevelData) (inp : Input) (s : Game) : Bool :=
  outOfBounds (updatePlayer cur inp s)

/-- An input snapshot with no key pressed. -/
def idleInput : Input :=
  { space := false, enter := false, backspace := false, chars := [], frameTime := 1 / 60,
    sinAnim := 0, sinOsc := fun _ => 0, rand := fun _ => 0 }

/-- The order of the scoreboard: `a` may stand before `b`. -/
def scoreGE (a b : PlayerData) : Prop := b.score ≤ a.score

instance scoreGE_decidable : DecidableRel scoreGE := fun a b => Int.decLe b.score a.score

/-- The entries of `l` with score `k`, in their order in `l`. -/
def withScore (k : Int) (l : List PlayerData) : List PlayerData :=
  l.filter (fun p => decide (p.score = k))

/-- The scoreboard: the first `playerCount` entries of `players`. -/
def board (s : Game) : List PlayerData := s.players.take s.playerCount.toNat

/-- The state is one of the four states in which a level is loaded. -/
def inLevel (s : Game) : Prop :=
  s.currentState = STATE_TITLE ∨ s.currentState = STATE_PLAYING ∨
    s.currentState = STATE_LEVEL_DONE ∨ s.currentState = STATE_GAMEOVER

/-- Number of passed slots of the current level `cur`. -/
def passedCount (cur : LevelData) (s : Game) : Nat := countTrue s.pipePassed cur.pipeCount.toNat

/-- Number of collected orbs of the current level `cur`. -/
def collectedCount (cur : LevelData) (s : Game) : Nat := countTrue s.orbCollected cur.pipeCount.toNat

/-- The invariant of the frame loop. -/
structure Invariant (s : Game) : Prop where
  board_len : s.players.length = 10
  count_nonneg : 0 ≤ s.playerCount
  count_le : s.playerCount ≤ 10
  sorted : (board s).Sorted scoreGE
  level_range : inLevel s → s.currentLevel = 0 ∨ s.currentLevel = 1
  score_eq : inLevel s → ∀ cur, levelAt s.currentLevel = some cur →
    s.currentSessionScore = s.levelStartScore + passedCount cur s + 5 * collectedCount cur s
  title_fresh : s.currentState = STATE_TITLE → ∀ cur, levelAt s.currentLevel = some cur →
    ∀ i : Nat, (i : Int) < cur.pipeCount → s.pipePassed i = false ∧ s.orbCollected i = false
  level0_start : inLevel s → s.currentLevel = 0 → s.levelStartScore = 0
  done_all : s.currentState = STATE_LEVEL_DONE → ∀ cur, levelAt s.currentLevel = some cur →
    (passedCount cur s : Int) = cur.pipeCount
  pass_iff : inLevel s → ∀ cur, levelAt s.currentLevel = some cur →
    ∀ i : Nat, (i : Int) < cur.pipeCount →
      (s.pipePassed i = true ↔ s.pipeX i + (PIPE_WIDTH : ℚ) < PACMAN_X_POS)

/-- A frame of a level attempt: a frame that does not regenerate the field. -/
def attemptFrame (inp : Input) (s : Game) : Prop :=
  s.currentState = STATE_TITLE ∨ s.currentState = STATE_PLAYING ∨
    ((s.currentState = STATE_GAMEOVER ∨ s.currentState = STATE_LEVEL_DONE) ∧ inp.space = false)

/-- The state `t` is reached from `s` by frames of one level attempt. -/
inductive Attempt : Game → Game → Prop where
  | refl (s : Game) : Attempt s s
  | step {s t u : Game} (inp : Input) :
      Attempt s t → attemptFrame inp t → UpdateGame inp t = some u → Attempt s u

/-- The C string held by a buffer: the bytes before the first NUL. -/
def cstr (b : List Nat) : List Nat := b.takeWhile (fun c => c ≠ 0)

/-- The entry that step 1 of the victory logic writes at index `playerCount`. -/
def newEntry (s : Game) : PlayerData :=
  { name := strcpy (s.players.getD s.playerCount.toNat ⟨[], 0, false⟩).name s.tempName,
    score := s.currentSessionScore, active := true }

/-- An input snapshot with only SPACE pressed. -/
def spaceInput : Input := { idleInput with space := true }

/-- A scoreboard entry whose name is the one-letter string with code `c`. -/
def entry (c : Nat) (score : Int) : PlayerData := ⟨c :: List.replicate 15 0, score, true⟩

/-- A scoreboard entry as `main` initialises it. -/
def emptyEntry : PlayerData := ⟨List.replicate 16 0, 0, false⟩

/-- Player "A" has cleared the last level with 80 points (snapshot 30, all ten
slots passed, eight orbs); the scoreboard holds B 80, C 50, D 30. -/
def clearedState : Game :=
  { initGame with
    players := [entry 66 80, entry 67 50, entry 68 30] ++ List.replicate 7 emptyEntry,
    playerCount := 3,
    currentState := STATE_LEVEL_DONE,
    currentLevel := 1,
    tempName := 65 :: List.replicate 15 0,
    letterCount := 1,
    currentSessionScore := 80,
    levelStartScore := 30,
    pipePassed := fun i => decide (i < 10),
    orbCollected := fun i => decide (i < 8) }

/-- As `clearedState`, with a full scoreboard whose best score is 60. -/
def fullBoardState : Game :=
  { clearedState with
    players := [entry 66 60, entry 67 55, entry 68 50, entry 69 45, entry 70 40, entry 71 35,
      entry 72 30, entry 73 25, entry 74 20, entry 75 15],
    playerCount := 10 }

/-- The victory screen of player "A" after a run with 15 points. -/
def victoryState : Game :=
  { initGame with
    players := entry 65 15 :: List.replicate 9 emptyEntry,
    playerCount := 1,
    currentState := STATE_VICTORY,
    currentLevel := 2,
    tempName := 65 :: List.replicate 15 0,
    letterCount := 1,
    currentSessionScore := 15,
    levelStartScore := 5,
    pipePassed := fun i => decide (i < 10) }

/-- An input snapshot that types "A" and presses ENTER. -/
def nameInput : Input := { idleInput with chars := [65], enter := true }

/-- The title screen of level 0 after `nameInput`: every gap at 50, every orb offset 20. -/
def demoTitle : Game :=
  { initGame with
    currentState := STATE_TITLE,
    tempName := 65 :: List.replicate 15 0,
    letterCount := 1,
    pacmanY := 225,
    pipeX := fun i => if i < 5 then 1100 + 300 * (i : ℚ) else 0,
    pipeGapY := fun i => if i < 5 then 50 else 0,
    initialPipeGapY := fun i => if i < 5 then 50 else 0,
    orbRelY := fun i => if i < 5 then 20 else 0 }

/-- The state after the frame that starts level 0 and `k` more frames, SPACE
pressed in each: the avatar climbs by 6 per frame and reaches the ceiling in
the frame that leads to `climb 34`. -/
def climb (k : Nat) : Game :=
  { demoTitle with
    currentState := if k < 34 then STATE_PLAYING else STATE_GAMEOVER,
    pacmanY := 219 - 6 * (k : ℚ),
    pacmanVelocityY := -6,
    animationTime := ((k : ℚ) + 1) / 6,
    currentMouthAngle := 25,
    pipeX := fun i => if i < 5 then 1100 + 300 * (i : ℚ) - 3 * ((k : ℚ) + 1) else 0 }

/-- Frames since the last jump in the state after `t` frames of the demo flight. -/
def flightPhase (t : Nat) : Nat :=
  if t < 10 then t - 1 else if t ≤ 722 then (t - 10) % 31 else t - 692

/-- The avatar position before the last jump of the demo flight. -/
def flightBase (t : Nat) : ℚ := if t < 10 then 225 else 927 / 5

/-- SPACE is pressed in frame `f` of the demo flight: in frame 1, and every 31 frames from
frame 10 to frame 692. -/
def flightJump (f : Nat) : Bool := decide (f = 1 ∨ (10 ≤ f ∧ f ≤ 692 ∧ (f - 10) % 31 = 0))

/-- The input snapshot of frame `f` of the demo flight. -/
def flightInput (f : Nat) : Input := { idleInput with space := flightJump f }

/-- The state after `t` frames of the demo flight on level 0, `1 ≤ t ≤ 723`:
the avatar oscillates inside the gaps, the pipes have scrolled by `3 * t`, and
slot `i` is passed once `1100 + 300 * i - 3 * t + 70 < 200`. -/
def flight (t : Nat) : Game :=
  { demoTitle with
    currentState := STATE_PLAYING,
    pacmanY := flightBase t + ((flightPhase t : ℚ) + 1) * ((flightPhase t : ℚ) / 5 - 6),
    pacmanVelocityY := -6 + 2 * (flightPhase t : ℚ) / 5,
    animationTime := (t : ℚ) / 6,
    currentMouthAngle := 25,
    currentSessionScore := (countTrue (fun i => decide (970 + 300 * i < 3 * t)) 5 : Int),
    pipeX := fun i => if i < 5 then 1100 + 300 * (i : ℚ) - 3 * (t : ℚ) else 0,
    pipePassed := fun i => decide (i < 5 ∧ 970 + 300 * i < 3 * t) }

/-- The name-editing part of `UpdateInput`: the typing loop, then the backspace block. -/
def nameEdit (inp : Input) (s : Game) : Game :=
  if inp.backspace then backspaceKey (typeLoop inp.chars s) else typeLoop inp.chars s

/-- The invariant of the name buffer and of the names on the scoreboard. -/
structure NameInv (s : Game) : Prop where
  buf_len : s.tempName.length = 16
  lc_nonneg : 0 ≤ s.letterCount
  lc_le : s.letterCount ≤ 15
  nul : s.tempName[s.letterCount.toNat]? = some 0
  printable : ∀ i : Nat, (i : Int) < s.letterCount →
    ∃ c, s.tempName[i]? = some c ∧ 32 ≤ c ∧ c ≤ 125
  names_len : ∀ p ∈ s.players, p.name.length = 16

/-- `Glide s k t`: the state `t` is reached from `s` by `k` consecutive frames
in `STATE_PLAYING`, none of them with SPACE pressed. -/
inductive Glide : Game → Nat → Game → Prop where
  | refl (s : Game) : Glide s 0 s
  | step {s t u : Game} {k : Nat} (inp : Input) :
      Glide s k t → t.currentState = STATE_PLAYING → inp.space = false →
      UpdateGame inp t = some u → Glide s (k + 1) u

/-- The hitbox is vertically inside the gap of slot `i` in a frame started in
`s`: after the avatar integration and the scroll step of the slot,
`pacmanY - 15 ≥ pipeGapY[i]` and `pacmanY + 15 ≤ pipeGapY[i] + gapSize`. -/
def insideGap (cur : LevelData) (inp : Input) (s : Game) (i : Nat) : Prop :=
  (movePipe cur inp i (updatePlayer cur inp s)).pipeGapY i ≤ (updatePlayer cur inp s).pacmanY - 15 ∧
  (updatePlayer cur inp s).pacmanY + 15 ≤
    (movePipe cur inp i (updatePlayer cur inp s)).pipeGapY i + cur.gapSize

/-- The lookup `LevelData cur = levels[currentLevel]` at the top of `DrawGame`,
made in every state. -/
def drawCur (s : Game) : Option LevelData := levelAt s.currentLevel

/-- One iteration of the frame loop of `main` as a total function: the state
is kept when the frame is undefined. -/
def next (inp : Input) (s : Game) : Game := (UpdateGame inp s).getD s

/-- The state after frame 724 of the demo flight, flown with no key pressed: level 0 is cleared. -/
def cleared0 : Game := next idleInput (flight 723)

/-- The state after SPACE on `cleared0`, `rand()` returning 0: the title screen of level 1. -/
def level1Title : Game := next spaceInput cleared0

/-- The pilot of the demo trip through level 1: SPACE is pressed whenever the
avatar would otherwise end the frame below 180; no other key is pressed and
the sine wave of the pipes is at 0. -/
def pilot (s : Game) : Input :=
  { idleInput with space := decide (180 < s.pacmanY + s.pacmanVelocityY + 9 / 20) }

/-- The demo trip through level 1: the state `t` frames after the title screen. -/
def trip : Nat → Game
  | 0 => level1Title
  | t + 1 => next (pilot (trip t)) (trip t)

/-- The state after SPACE on the cleared level 1. -/
def tripEnd : Game := next spaceInput (trip 1049)

/-- The state after SPACE on `tripEnd`. -/
def tripInput : Game := next spaceInput tripEnd

/-- The avatar of the demo trip after `t` frames: at rest on the title screen,
then six frames of climbing by 6, then inside the band that the pilot keeps. -/
def Envelope (t : Nat) (y v : ℚ) : Prop :=
  if t = 0 then y = 225 ∧ v = 0
  else (t ≤ 6 ∧ y = 225 - 6 * (t : ℚ) ∧ v = -6) ∨
    (y ≤ 183 ∧ -6 ≤ v ∧ v ≤ 33 / 5 ∧ v * (v + 9 / 20) ≤ 9 / 10 * (y - 129))

/-- The state of the demo trip after `t` frames. -/
def tripState (t : Nat) : GameState :=
  if t = 0 then STATE_TITLE else if t ≤ 1048 then STATE_PLAYING else STATE_LEVEL_DONE

/-- What the proof tracks of the demo trip after `t` frames. -/
def TripInv (t : Nat) (s : Game) : Prop :=
  s.currentLevel = 1 ∧ s.currentState = tripState t ∧
  (∀ i : Nat, i < 10 → s.pipeX i = 1100 + 300 * (i : ℚ) - 7 / 2 * (t : ℚ) ∧
    s.initialPipeGapY i = 50) ∧
  (t ≤ 1048 → s.pipePassed 9 = false) ∧ Envelope t s.pacmanY s.pacmanVelocityY

/-! ## The simpler variant

Shallow embedding of `src/Flappy Pacman/FlappyPacman/main.c`, with the
conventions of the extended variant. The macros `SCREEN_WIDTH`,
`SCREEN_HEIGHT`, `PACMAN_RADIUS`, `PACMAN_X_POS`, `PIPE_WIDTH`, `MAX_PIPES` and
`MAX_LEVELS`, the raylib `Rectangle` with `CheckCollisionRecs`, and the input
snapshot `Input` are those of the extended variant; the level table is a
global that the frame loop writes, so it is a field of the state. -/

namespace Simple

def JUMP_STRENGTH : ℚ := -5

structure LevelData where
  pipeCount : Int
  score : Int
  speed : ℚ
  gapSize : ℚ
  gravity : ℚ
  deriving DecidableEq

/-- All global variables of the simpler variant. -/
@[ext]
structure Game where
  levels : List LevelData
  currentLevel : Int
  gameStarted : Bool
  gameOver : Bool
  levelComplete : Bool
  gameVictory : Bool
  pacmanY : ℚ
  pacmanVelocityY : ℚ
  currentMouthAngle : ℚ
  animationTime : ℚ
  pipeX : Nat → ℚ
  pipeGapY : Nat → ℚ
  initialPipeGapY : Nat → ℚ
  pipePassed : Nat → Bool
  orbCollected : Nat → Bool
  orbRelY : Nat → ℚ
  currentScore : Int
  totalScore : Int

/-- The table `levels` when the frame loop starts: the two elements of
`LevelData levels[MAX_LEVELS]` as `SetupLevels` assigns them. The third group
of assignments of `SetupLevels` names `levels[2]`, which is not an element of
the table, and is left out here. -/
def levelTable : List LevelData :=
  [ { pipeCount := 5, score := 0, speed := 3, gapSize := 160, gravity := 2 / 5 },
    { pipeCount := 10, score := 0, speed := 7 / 2, gapSize := 160, gravity := 9 / 20 } ]

/-- The lookup `levels[k]`; `none` outside the table. -/
def levelAt (tbl : List LevelData) (k : Int) : Option LevelData :=
  if 0 ≤ k then tbl[k.toNat]? else none

/-- The assignment `levels[k].score = f (levels[k].score)`. It is used where
`levels[k]` has been read before in the same frame, so that `k` is inside the
table; outside the table it writes nothing. -/
def setScore (k : Int) (f : Int → Int) (tbl : List LevelData) : List LevelData :=
  match levelAt tbl k with
  | some l => tbl.set k.toNat { l with score := f l.score }
  | none => tbl

/-- The value of `levels[k].score`, 0 outside the table. -/
def scoreAt (tbl : List LevelData) (k : Int) : Int :=
  match levelAt tbl k with
  | some l => l.score
  | none => 0

def maxGapOf (cur : LevelData) : Int :=
  let minGap : Int := 50
  let maxGap : Int := SCREEN_HEIGHT - 50 - cTrunc cur.gapSize
  if maxGap < minGap then minGap + 10 else maxGap

def safeRangeOf (cur : LevelData) : Int :=
  let padding : Int := 20
  cTrunc cur.gapSize - padding * 2

/-- One iteration of the loop of `ResetEntityPositions`, for slot `i`.
The second component counts the calls of `rand()` made so far. The `int`
values are stored as they are: in C the store into a `float` is exact for
integers up to `2^24`, and slot `i` is an element of the arrays for
`i < MAX_PIPES`; the theorems of the claims apply the reset to level specs
with `gapSize ≤ 350` and at most `MAX_PIPES` slots, where both hold. -/
def resetSlot (cur : LevelData) (rand : Nat → Int) (i : Nat) (st : Game × Nat) :
    Option (Game × Nat) := do
  let s := st.1
  let k := st.2
  let s1 : Game := { s with pipeX := Function.update s.pipeX i ((SCREEN_WIDTH + 300 + (i : Int) * 300 : Int) : ℚ) }
  let minGap : Int := 50
  let r ← cMod (rand k) (maxGapOf cur - minGap)
  let randomY : ℚ := ((minGap + r : Int) : ℚ)
  let s2 : Game := { s1 with pipeGapY := Function.update s1.pipeGapY i randomY,
                             initialPipeGapY := Function.update s1.initialPipeGapY i randomY,
                             orbCollected := Function.update s1.orbCollected i false }
  let padding : Int := 20
  let safeRange : Int := safeRangeOf cur
  if safeRange > 0 then
    let r2 ← cMod (rand (k + 1)) safeRange
    let s3 : Game := { s2 with orbRelY := Function.update s2.orbRelY i ((padding + r2 : Int) : ℚ) }
    pure ({ s3 with pipePassed := Function.update s3.pipePassed i false }, k + 2)
  else
    let s3 : Game := { s2 with orbRelY := Function.update s2.orbRelY i (cur.gapSize / 2) }
    pure ({ s3 with pipePassed := Function.update s3.pipePassed i false }, k + 1)

/-- The body of `ResetEntityPositions` once `cur = levels[currentLevel]` has been read. -/
def resetWith (cur : LevelData) (rand : Nat → Int) (s : Game) : Option Game := do
  let s0 : Game := { s with pacmanY := (SCREEN_HEIGHT : ℚ) / 2, pacmanVelocityY := 0, animationTime := 0 }
  let st ← (List.range cur.pipeCount.toNat).foldlM (fun st i => resetSlot cur rand i st) (s0, 0)
  pure st.1

def ResetEntityPositions (rand : Nat → Int) (s : Game) : Option Game := do
  let cur ← levelAt s.levels s.currentLevel
  resetWith cur rand s

def ChangeState (rand : Nat → Int) (newLevelIndex : Int) (s : Game) : Option Game :=
  if newLevelIndex ≥ MAX_LEVELS then some { s with gameVictory := true }
  else
    ResetEntityPositions rand
      { s with currentLevel := newLevelIndex, gameStarted := false, gameOver := false,
               levelComplete := false }

def topPipe (s : Game) (i : Nat) : Rectangle :=
  { x := s.pipeX i, y := 0, width := (PIPE_WIDTH : ℚ), height := s.pipeGapY i }

def botPipe (cur : LevelData) (s : Game) (i : Nat) : Rectangle :=
  { x := s.pipeX i, y := s.pipeGapY i + cur.gapSize, width := (PIPE_WIDTH : ℚ),
    height := (SCREEN_HEIGHT : ℚ) }

def playerRect (s : Game) : Rectangle :=
  { x := PACMAN_X_POS - PACMAN_RADIUS + 5, y := s.pacmanY - PACMAN_RADIUS + 5,
    width := PACMAN_RADIUS * 2 - 10, height := PACMAN_RADIUS * 2 - 10 }

def orbHitbox (s : Game) (i : Nat) : Rectangle :=
  { x := s.pipeX i + ((PIPE_WIDTH / 2 : Int) : ℚ) - 5, y := s.pipeGapY i + s.orbRelY i - 5,
    width := 10, height := 10 }

/-- Scroll step and, on level index 1, the sine wave of slot `i` (`amplitude = 50`). -/
def movePipe (cur : LevelData) (inp : Input) (i : Nat) (s : Game) : Game :=
  let s1 : Game := { s with pipeX := Function.update s.pipeX i (s.pipeX i - cur.speed) }
  if s1.currentLevel = 1 then
    { s1 with pipeGapY := Function.update s1.pipeGapY i (s1.initialPipeGapY i + inp.sinOsc i * 50) }
  else s1

/-- The collision check of slot `i`. -/
def hitPipe (cur : LevelData) (i : Nat) (s : Game) : Game :=
  if CheckCollisionRecs (topPipe s i) (playerRect s) || CheckCollisionRecs (botPipe cur s i) (playerRect s) then
    { s with gameOver := true }
  else s

/-- The orb collision block of slot `i`. -/
def collectOrb (i : Nat) (s : Game) : Game :=
  if !s.orbCollected i then
    if CheckCollisionRecs (playerRect s) (orbHitbox s i) then
      { s with orbCollected := Function.update s.orbCollected i true,
               levels := setScore s.currentLevel (fun x => x + 5) s.levels,
               currentScore := s.currentScore + 5 }
    else s
  else s

/-- The pipes-cleared check of slot `i`. -/
def passPipe (i : Nat) (s : Game) : Game :=
  if !s.pipePassed i && decide (s.pipeX i + (PIPE_WIDTH : ℚ) < PACMAN_X_POS) then
    { s with pipePassed := Function.update s.pipePassed i true,
             levels := setScore s.currentLevel (fun x => x + 1) s.levels,
             currentScore := s.currentScore + 1 }
  else s

/-- One iteration of the pipe loop of `UpdateGame`; the second component is
the local variable `pipesCleared`. -/
def pipeStep (cur : LevelData) (inp : Input) (st : Game × Int) (i : Nat) : Game × Int :=
  let s := passPipe i (collectOrb i (hitPipe cur i (movePipe cur inp i st.1)))
  (s, if s.pipePassed i then st.2 + 1 else st.2)

def pipeLoop (cur : LevelData) (inp : Input) (s : Game) : Game × Int :=
  (List.range cur.pipeCount.toNat).foldl (pipeStep cur inp) (s, 0)

def updatePlayer (cur : LevelData) (inp : Input) (s : Game) : Game :=
  let v1 := s.pacmanVelocityY + cur.gravity
  let v2 := if inp.space then JUMP_STRENGTH else v1
  let t := s.animationTime + inp.frameTime * 10
  { s with pacmanVelocityY := v2, pacmanY := s.pacmanY + v2, animationTime := t,
           currentMouthAngle := 25 + 20 * inp.sinAnim }

def outOfBounds (s : Game) : Bool :=
  decide (s.pacmanY - PACMAN_RADIUS ≤ 0 ∨ s.pacmanY + PACMAN_RADIUS ≥ (SCREEN_HEIGHT : ℚ))

/-- The floor and ceiling collision block. -/
def boundsCheck (s : Game) : Game :=
  if outOfBounds s then { s with gameOver := true } else s

/-- The body of `UpdateGame` after its first line, once the copy
`cur = levels[currentLevel]` has been taken. -/
def playWith (cur : LevelData) (inp : Input) (s : Game) : Game :=
  let st := pipeLoop cur inp (boundsCheck (updatePlayer cur inp s))
  if st.2 ≥ cur.pipeCount then
    { st.1 with levelComplete := true,
                totalScore := st.1.totalScore + scoreAt st.1.levels st.1.currentLevel }
  else st.1

def UpdateGame (inp : Input) (s : Game) : Option Game :=
  if !s.gameStarted || s.gameOver || s.levelComplete || s.gameVictory then some s
  else do
    let cur ← levelAt s.levels s.currentLevel
    pure (playWith cur inp s)

/-- The block `if (IsKeyPressed(KEY_SPACE)) { ... }` of the loop of `main`. -/
def spaceBlock (inp : Input) (s : Game) : Option Game :=
  if !s.gameStarted && !s.gameOver && !s.levelComplete && !s.gameVictory then
    some { s with gameStarted := true, pacmanVelocityY := JUMP_STRENGTH }
  else if s.gameOver then do
    let s1 ← ChangeState inp.rand s.currentLevel s
    let s2 : Game := { s1 with currentScore := s1.totalScore }
    pure { s2 with levels := setScore s2.currentLevel (fun _ => 0) s2.levels }
  else if s.gameVictory then do
    let s1 ← ChangeState inp.rand (s.currentLevel + 1) s
    pure { s1 with totalScore := s1.totalScore + (s1.currentScore + s1.totalScore) }
  else if s.levelComplete then do
    let s1 ← ChangeState inp.rand (s.currentLevel + 1) s
    pure { s1 with totalScore := s1.totalScore + (s1.currentScore - s1.totalScore) }
  else some s

/-- One iteration of the loop of `main`: input handling, then `UpdateGame`. -/
def mainFrame (inp : Input) (s : Game) : Option Game := do
  let s1 ← if inp.space then spaceBlock inp s else some s
  UpdateGame inp s1

/-- The globals before `main` calls `ChangeState(0)`: static storage is
zero-initialised, `currentMouthAngle` is 45, the level table is set up. -/
def zeroGame : Game :=
  { levels := levelTable,
    currentLevel := 0,
    gameStarted := false,
    gameOver := false,
    levelComplete := false,
    gameVictory := false,
    pacmanY := 0,
    pacmanVelocityY := 0,
    currentMouthAngle := 45,
    animationTime := 0,
    pipeX := fun _ => 0,
    pipeGapY := fun _ => 0,
    initialPipeGapY := fun _ => 0,
    pipePassed := fun _ => false,
    orbCollected := fun _ => false,
    orbRelY := fun _ => 0,
    currentScore := 0,
    totalScore := 0 }

/-- The states the frame loop of the simpler variant can reach: `main` calls
`ChangeState(0)`, with any values of `rand()`, and then runs any number of
iterations of its loop. -/
inductive Reachable : Game → Prop where
  | init {s : Game} (rand : Nat → Int) : ChangeState rand 0 zeroGame = some s → Reachable s
  | step {s s1 : Game} (inp : Input) : Reachable s → mainFrame inp s = some s1 → Reachable s1

/-- Number of calls of `rand()` made by one iteration of the reset loop. -/
def randsPerSlot (cur : LevelData) : Nat := if safeRangeOf cur > 0 then 2 else 1

/-- The value the reset loop draws for `pipeGapY[i]`. -/
def genGapY (cur : LevelData) (rand : Nat → Int) (i : Nat) : ℚ :=
  ((50 + Int.tmod (rand (randsPerSlot cur * i)) (maxGapOf cur - 50) : Int) : ℚ)

/-- The value the reset loop stores in `orbRelY[i]`. -/
def genOrbRelY (cur : LevelData) (rand : Nat → Int) (i : Nat) : ℚ :=
  if safeRangeOf cur > 0 then
    ((20 + Int.tmod (rand (randsPerSlot cur * i + 1)) (safeRangeOf cur) : Int) : ℚ)
  else cur.gapSize / 2

/-- The globals after `n` iterations of the reset loop, in closed form. -/
def resetResult (cur : LevelData) (rand : Nat → Int) (n : Nat) (s : Game) : Game :=
  { s with
    pacmanY := (SCREEN_HEIGHT : ℚ) / 2,
    pacmanVelocityY := 0,
    animationTime := 0,
    pipeX := fun j => if j < n then ((SCREEN_WIDTH + 300 + (j : Int) * 300 : Int) : ℚ) else s.pipeX j,
    pipeGapY := fun j => if j < n then genGapY cur rand j else s.pipeGapY j,
    initialPipeGapY := fun j => if j < n then genGapY cur rand j else s.initialPipeGapY j,
    orbCollected := fun j => if j < n then false else s.orbCollected j,
    orbRelY := fun j => if j < n then genOrbRelY cur rand j else s.orbRelY j,
    pipePassed := fun j => if j < n then false else s.pipePassed j }

/-- The collision check of iteration `i` of the pipe loop, run on state `s`. -/
def hitNow (cur : LevelData) (inp : Input) (s : Game) (i : Nat) : Bool :=
  let s1 := movePipe cur inp i s
  CheckCollisionRecs (topPipe s1 i) (playerRect s1) || CheckCollisionRecs (botPipe cur s1 i) (playerRect s1)

/-- The orb of slot `i` is collected by iteration `i` of the pipe loop, run on state `s`. -/
def orbNow (cur : LevelData) (inp : Input) (s : Game) (i : Nat) : Bool :=
  let s1 := movePipe cur inp i s
  !s1.orbCollected i && CheckCollisionRecs (playerRect s1) (orbHitbox s1 i)

/-- Slot `i` is marked passed by iteration `i` of the pipe loop, run on state `s`. -/
def passNow (cur : LevelData) (inp : Input) (s : Game) (i : Nat) : Bool :=
  let s1 := movePipe cur inp i s
  !s1.pipePassed i && decide (s1.pipeX i + (PIPE_WIDTH : ℚ) < PACMAN_X_POS)

/-- The points added by iteration `i` of the pipe loop, run on state `s`. -/
def slotGain (cur : LevelData) (inp : Input) (s : Game) (i : Nat) : Int :=
  (if orbNow cur inp s i then 5 else 0) + (if passNow cur inp s i then 1 else 0)

/-- The globals after `n` iterations of the pipe loop started in `s`, in closed form. -/
def pipeLoopResult (cur : LevelData) (inp : Input) (n : Nat) (s : Game) : Game :=
  { s with
    pipeX := fun j => if j < n then s.pipeX j - cur.speed else s.pipeX j,
    pipeGapY := fun j => if j < n then (movePipe cur inp j s).pipeGapY j else s.pipeGapY j,
    orbCollected := fun j => if j < n then (s.orbCollected j || orbNow cur inp s j) else s.orbCollected j,
    pipePassed := fun j => if j < n then (s.pipePassed j || passNow cur inp s j) else s.pipePassed j,
    currentScore := s.currentScore + ((List.range n).map (slotGain cur inp s)).sum,
    levels := setScore s.currentLevel
      (fun x => x + ((List.range n).map (slotGain cur inp s)).sum) s.levels,
    gameOver := s.gameOver || (List.range n).any (hitNow cur inp s) }

/-- The globals that `ResetEntityPositions` never writes. -/
def ledger (s : Game) : List LevelData × Int × Bool × Bool × Bool × Bool × Int × Int :=
  (s.levels, s.currentLevel, s.gameStarted, s.gameOver, s.levelComplete, s.gameVictory,
    s.currentScore, s.totalScore)

/-- One iteration of the loop of `main` as a total function: the state is
kept when the iteration is undefined. -/
def step (inp : Input) (s : Game) : Game := (mainFrame inp s).getD s

/-- The state when the loop of `main` starts, `rand()` returning 0: level 0
is loaded, every gap at 50, every orb offset 20. -/
def title0 : Game := (ChangeState (fun _ => 0) 0 zeroGame).getD zeroGame

/-- SPACE is pressed in frame `f` of the demo flight of the simpler variant:
in frames 1 and 7, and every 26 frames from frame 18 to frame 694. -/
def hopJump (f : Nat) : Bool := decide (f = 1 ∨ f = 7 ∨ (18 ≤ f ∧ f ≤ 694 ∧ (f - 18) % 26 = 0))

/-- The input snapshot of frame `f` of the demo flight. -/
def hopInput (f : Nat) : Input := { idleInput with space := hopJump f }

/-- The demo flight of the simpler variant: the state after `t` frames. -/
def hop : Nat → Game
  | 0 => title0
  | t + 1 => step (hopInput (t + 1)) (hop t)

/-- Frames since the last jump after `t` frames of the demo flight. -/
def hopPhase (t : Nat) : Nat :=
  if t < 7 then t - 1 else if t < 18 then t - 7 else if t ≤ 719 then (t - 18) % 26 else t - 694

/-- The avatar position before the last jump of the demo flight. -/
def hopBase (t : Nat) : ℚ := if t < 7 then 225 else if t < 18 then 201 else 168

/-- The avatar position after `t` frames of the demo flight, `1 ≤ t ≤ 724`. -/
def hopY (t : Nat) : ℚ := hopBase t + ((hopPhase t : ℚ) + 1) * ((hopPhase t : ℚ) / 5 - 5)

/-- The avatar velocity after `t` frames of the demo flight, `1 ≤ t ≤ 724`. -/
def hopV (t : Nat) : ℚ := -5 + 2 * (hopPhase t : ℚ) / 5

/-- What the proof tracks of the demo flight after `t` frames, `t ≤ 724`. -/
def HopInv (t : Nat) (s : Game) : Prop :=
  s.currentLevel = 0 ∧ s.gameStarted = decide (1 ≤ t) ∧ s.gameOver = decide (724 ≤ t) ∧
  s.levelComplete = decide (724 ≤ t) ∧ s.gameVictory = false ∧
  levelAt s.levels 0 = some ⟨5, s.currentScore, 3, 160, 2 / 5⟩ ∧
  s.totalScore = (if 724 ≤ t then s.currentScore else 0) ∧
  s.currentScore = (countTrue s.pipePassed 5 : Int) ∧
  (∀ i : Nat, i < 5 → s.pipeX i = 1100 + 300 * (i : ℚ) - 3 * (t : ℚ) ∧ s.pipeGapY i = 50 ∧
    s.orbRelY i = 20) ∧
  (t ≤ 723 → s.pipePassed 4 = false) ∧ (724 ≤ t → ∀ i : Nat, i < 5 → s.pipePassed i = true) ∧
  s.pacmanY = (if t = 0 then 225 else hopY t) ∧
  s.pacmanVelocityY = (if t = 0 then 0 else hopV t)

/-- The fields of a level that the frame loop never writes. -/
def params (l : LevelData) : Int × ℚ × ℚ × ℚ := (l.pipeCount, l.speed, l.gapSize, l.gravity)

/-- The demo flight with SPACE pressed in frame 724: the avatar jumps instead
of falling on, and level 0 is cleared without a crash. -/
def hopWin : Game := step spaceInput (hop 723)

/-- SPACE on the cleared level 0, `rand()` returning 0: level index 1 is loaded. -/
def title1 : Game := step spaceInput hopWin

/-- The pilot of the demo lap through level index 1: SPACE is pressed whenever
the avatar would otherwise end the frame below 180; the sine wave of the pipes
is at 0. -/
def lapPilot (s : Game) : Input :=
  { idleInput with space := decide (180 < s.pacmanY + s.pacmanVelocityY + 9 / 20) }

/-- The demo lap through level index 1: the state `t` frames after `title1`. -/
def lap : Nat → Game
  | 0 => title1
  | t + 1 => step (lapPilot (lap t)) (lap t)

/-- The victory screen of the demo run: SPACE on the cleared level index 1. -/
def wonGame : Game := step spaceInput (lap 1049)

/-- The avatar of the demo lap after `t` frames: at rest before the first
frame, then nine frames of climbing by 5, then inside the band that the pilot
keeps. -/
def Cruise (t : Nat) (y v : ℚ) : Prop :=
  if t = 0 then y = 225 ∧ v = 0
  else (t ≤ 9 ∧ y = 225 - 5 * (t : ℚ) ∧ v = -5) ∨
    (y ≤ 183 ∧ -5 ≤ v ∧ v ≤ 33 / 5 ∧ v * (v + 9 / 20) ≤ 9 / 10 * (y - 129))

/-- What the proof tracks of the demo lap after `t` frames, `t ≤ 1049`. -/
def LapInv (t : Nat) (s : Game) : Prop :=
  s.currentLevel = 1 ∧ s.gameStarted = decide (1 ≤ t) ∧ s.gameOver = false ∧
  s.levelComplete = decide (1049 ≤ t) ∧ s.gameVictory = false ∧
  s.levels.map params = levelTable.map params ∧
  (∀ i : Nat, i < 10 → s.pipeX i = 1100 + 300 * (i : ℚ) - 7 / 2 * (t : ℚ) ∧ s.pipeGapY i = 50 ∧
    s.initialPipeGapY i = 50) ∧
  (t ≤ 1048 → s.pipePassed 9 = false) ∧ Cruise t s.pacmanY s.pacmanVelocityY

/-- The assignment `levels[k].field = value` on the array
`LevelData levels[MAX_LEVELS]`, the table being `tbl` and `f` the update of
the field: `none` when `k` is not an index of the array. -/
def writeLevel (k : Nat) (f : LevelData → LevelData) (tbl : List LevelData) :
    Option (List LevelData) :=
  match tbl[k]? with
  | some l => some (tbl.set k (f l))
  | none => none

/-- The array `levels` before `SetupLevels` runs: `MAX_LEVELS` elements of
zero-initialised static storage. -/
def zeroTable : List LevelData := List.replicate MAX_LEVELS.toNat ⟨0, 0, 0, 0, 0⟩

/-- The assignments of `SetupLevels` in program order, each with the index it
names and the field it writes. The field `color` is not part of the
embedding: an assignment to it changes no field here, but names its index
like the others. -/
def setupWrites : List (Nat × (LevelData → LevelData)) :=
  [ (0, fun l => { l with score := 0 }),
    (0, fun l => { l with pipeCount := 5 }),
    (0, fun l => { l with speed := 3 }),
    (0, fun l => { l with gapSize := 160 }),
    (0, fun l => { l with gravity := 2 / 5 }),
    (0, fun l => l),
    (1, fun l => { l with score := 0 }),
    (1, fun l => { l with pipeCount := 10 }),
    (1, fun l => { l with speed := 7 / 2 }),
    (1, fun l => { l with gapSize := 160 }),
    (1, fun l => { l with gravity := 9 / 20 }),
    (1, fun l => l),
    (2, fun l => { l with score := 0 }),
    (2, fun l => { l with pipeCount := 20 }),
    (2, fun l => { l with speed := 5 }),
    (2, fun l => { l with gapSize := 120 }),
    (2, fun l => { l with gravity := 1 / 2 }),
    (2, fun l => l) ]

/-- The first `n` assignments of `SetupLevels`, run on the table `tbl`. -/
def setupPrefix (n : Nat) (tbl : List LevelData) : Option (List LevelData) :=
  (setupWrites.take n).foldlM (fun t w => writeLevel w.1 w.2 t) tbl

/-- The function `SetupLevels`, run on the table `tbl`: all its assignments in order. -/
def SetupLevels (tbl : List LevelData) : Option (List LevelData) :=
  setupWrites.foldlM (fun t w => writeLevel w.1 w.2 t) tbl

end Simple

end FlappyPacman

namespace FlappyPacman
open GameState

/-! ## The reset loop in closed form -/

theorem update_ite_lt {α : Type} (n : Nat) (A B : Nat → α) (v : α) (hv : v = A n) :
    Function.update (fun j => if j < n then A j else B j) n v
      = fun j => if j < n + 1 then A j else B j := by
  funext j
  by_cases h : j = n
  · subst h; simp [hv]
  · have h2 : (j < n + 1) ↔ (j < n) := by omega
    simp [Function.update, h, h2]

theorem resetSlot_resetResult (cur : LevelData) (rand : Nat → Int) (n : Nat) (s : Game)
    (hm : maxGapOf cur - 50 ≠ 0) :
    resetSlot cur rand n (resetResult cur rand n s, randsPerSlot cur * n)
      = some (resetResult cur rand (n + 1) s, randsPerSlot cur * (n + 1)) := by
  by_cases hs : safeRangeOf cur > 0
  · have hs0 : safeRangeOf cur ≠ 0 := by omega
    have hc : randsPerSlot cur = 2 := by simp [randsPerSlot, hs]
    simp only [resetSlot, cMod, hm, hs0, hs, if_true, if_false, Option.bind_eq_bind, Option.some_bind,
      Option.pure_def, bind_pure_comp, Option.some.injEq, Prod.mk.injEq, hc]
    refine ⟨?_, by ring⟩
    apply Game.ext <;> simp only [resetResult]
    all_goals first
      | rfl
      | (apply update_ite_lt; simp [genGapY, genOrbRelY, hc, hs])
  · have hc : randsPerSlot cur = 1 := by simp [randsPerSlot, hs]
    simp only [resetSlot, cMod, hm, hs, if_true, if_false, Option.bind_eq_bind, Option.some_bind,
      Option.pure_def, bind_pure_comp, Option.some.injEq, Prod.mk.injEq, hc]
    refine ⟨?_, by ring⟩
    apply Game.ext <;> simp only [resetResult]
    all_goals first
      | rfl
      | (apply update_ite_lt; simp [genGapY, genOrbRelY, hc, hs])

theorem resetLoop_eq (cur : LevelData) (rand : Nat → Int) (s : Game) (hm : maxGapOf cur - 50 ≠ 0)
    (n : Nat) :
    (List.range n).foldlM (fun st i => resetSlot cur rand i st) (resetResult cur rand 0 s, 0)
      = some (resetResult cur rand n s, randsPerSlot cur * n) := by
  induction n with
  | zero => simp
  | succ n ih =>
    rw [List.range_succ, List.foldlM_append, ih]
    simp [resetSlot_resetResult cur rand n s hm]

/-- The reset, once the level has been read, in closed form. -/
theorem resetWith_eq (cur : LevelData) (rand : Nat → Int) (s : Game) (hm : maxGapOf cur - 50 ≠ 0) :
    resetWith cur rand s = some (resetResult cur rand cur.pipeCount.toNat s) := by
  have h0 : ({ s with pacmanY := (SCREEN_HEIGHT : ℚ) / 2, pacmanVelocityY := 0, animationTime := 0 } : Game)
      = resetResult cur rand 0 s := by
    apply Game.ext <;> simp [resetResult]
  simp only [resetWith, h0, resetLoop_eq cur rand s hm]
  rfl

theorem levelAt_zero : levelAt 0 = some ⟨5, 3, 160, 2 / 5⟩ := rfl

theorem levelAt_one : levelAt 1 = some ⟨10, 7 / 2, 150, 9 / 20⟩ := rfl

theorem cTrunc_natCast (n : Nat) : cTrunc (n : ℚ) = n := by
  simp [cTrunc]

theorem cTrunc_160 : cTrunc 160 = 160 := cTrunc_natCast 160

theorem cTrunc_150 : cTrunc 150 = 150 := cTrunc_natCast 150

theorem cTrunc_350 : cTrunc 350 = 350 := cTrunc_natCast 350

theorem tmod_bounds (a m : Int) (ha : 0 ≤ a) (hm : 0 < m) : 0 ≤ Int.tmod a m ∧ Int.tmod a m < m :=
  ⟨Int.tmod_nonneg _ ha, Int.tmod_lt_of_pos _ hm⟩

/-- What the reset loop leaves in the slots below `pipeCount`, for a level
whose two moduli are positive. -/
theorem resetResult_slot (cur : LevelData) (rand : Nat → Int) (n : Nat) (s : Game)
    (hr : ∀ k, 0 ≤ rand k) (hm : 0 < maxGapOf cur - 50) (hs : 0 < safeRangeOf cur) (i : Nat)
    (hi : i < n) :
    (50 ≤ (resetResult cur rand n s).pipeGapY i ∧
      (resetResult cur rand n s).pipeGapY i < ((maxGapOf cur : Int) : ℚ)) ∧
    (20 ≤ (resetResult cur rand n s).orbRelY i ∧
      (resetResult cur rand n s).orbRelY i < ((safeRangeOf cur + 20 : Int) : ℚ)) ∧
    (resetResult cur rand n s).initialPipeGapY i = (resetResult cur rand n s).pipeGapY i ∧
    (resetResult cur rand n s).pipeX i = 800 + 300 + 300 * (i : ℚ) ∧
    (resetResult cur rand n s).pipePassed i = false ∧
    (resetResult cur rand n s).orbCollected i = false := by
  have h1 := tmod_bounds (rand (randsPerSlot cur * i)) (maxGapOf cur - 50) (hr _) hm
  have h2 := tmod_bounds (rand (randsPerSlot cur * i + 1)) (safeRangeOf cur) (hr _) hs
  simp only [resetResult, hi, if_true, genGapY, genOrbRelY, hs, gt_iff_lt]
  refine ⟨⟨?_, ?_⟩, ⟨?_, ?_⟩, trivial, ?_, trivial, trivial⟩
  · exact_mod_cast (by omega : (50 : Int) ≤ 50 + Int.tmod (rand (randsPerSlot cur * i)) (maxGapOf cur - 50))
  · exact_mod_cast (by omega : 50 + Int.tmod (rand (randsPerSlot cur * i)) (maxGapOf cur - 50) < maxGapOf cur)
  · exact_mod_cast (by omega : (20 : Int) ≤ 20 + Int.tmod (rand (randsPerSlot cur * i + 1)) (safeRangeOf cur))
  · exact_mod_cast (by omega :
      20 + Int.tmod (rand (randsPerSlot cur * i + 1)) (safeRangeOf cur) < safeRangeOf cur + 20)
  · simp [SCREEN_WIDTH]; ring

/-! ## The pipe loop in closed form -/

theorem countTrue_succ (f : Nat → Bool) (n : Nat) :
    countTrue f (n + 1) = countTrue f n + if f n then 1 else 0 := by
  simp only [countTrue, List.range_succ, List.countP_append, List.countP_cons, List.countP_nil]
  simp

theorem countTrue_congr (f g : Nat → Bool) (n : Nat) (h : ∀ i, i < n → f i = g i) :
    countTrue f n = countTrue g n := by
  induction n with
  | zero => rfl
  | succ n ih =>
    rw [countTrue_succ, countTrue_succ, ih (fun i hi => h i (Nat.lt_succ_of_lt hi)), h n (Nat.lt_succ_self n)]

theorem movePipe_eq (cur : LevelData) (inp : Input) (i : Nat) (s : Game) :
    movePipe cur inp i s = { s with
      pipeX := Function.update s.pipeX i (s.pipeX i - cur.speed),
      pipeGapY := if s.currentLevel = 1 then
          Function.update s.pipeGapY i (s.initialPipeGapY i + inp.sinOsc i * 50)
        else s.pipeGapY } := by
  simp only [movePipe]
  split <;> rfl

theorem hitPipe_eq (cur : LevelData) (i : Nat) (s : Game) :
    hitPipe cur i s = { s with
      currentState := if CheckCollisionRecs (topPipe s i) (playerRect s) ||
          CheckCollisionRecs (botPipe cur s i) (playerRect s) then STATE_GAMEOVER
        else s.currentState } := by
  simp only [hitPipe]
  split <;> rfl

theorem collectOrb_eq (i : Nat) (s : Game) :
    collectOrb i s = { s with
      orbCollected := if (!s.orbCollected i && CheckCollisionRecs (playerRect s) (orbHitbox s i)) then
          Function.update s.orbCollected i true else s.orbCollected,
      currentSessionScore := s.currentSessionScore +
        if (!s.orbCollected i && CheckCollisionRecs (playerRect s) (orbHitbox s i)) then 5 else 0 } := by
  simp only [collectOrb]
  by_cases h1 : s.orbCollected i <;> by_cases h2 : CheckCollisionRecs (playerRect s) (orbHitbox s i) <;>
    simp [h1, h2]

theorem passPipe_eq (i : Nat) (s : Game) :
    passPipe i s = { s with
      pipePassed := if (!s.pipePassed i && decide (s.pipeX i + (PIPE_WIDTH : ℚ) < PACMAN_X_POS)) then
          Function.update s.pipePassed i true else s.pipePassed,
      currentSessionScore := s.currentSessionScore +
        if (!s.pipePassed i && decide (s.pipeX i + (PIPE_WIDTH : ℚ) < PACMAN_X_POS)) then 1 else 0 } := by
  simp only [passPipe]
  split <;> simp

/-- One iteration of the pipe loop as a single update of the globals. -/
theorem pipeStep_fst (cur : LevelData) (inp : Input) (s : Game) (c : Int) (i : Nat) :
    (pipeStep cur inp (s, c) i).1 = { s with
      pipeX := Function.update s.pipeX i (s.pipeX i - cur.speed),
      pipeGapY := Function.update s.pipeGapY i ((movePipe cur inp i s).pipeGapY i),
      currentState := if hitNow cur inp s i then STATE_GAMEOVER else s.currentState,
      orbCollected := if orbNow cur inp s i then Function.update s.orbCollected i true
        else s.orbCollected,
      pipePassed := if passNow cur inp s i then Function.update s.pipePassed i true
        else s.pipePassed,
      currentSessionScore := s.currentSessionScore + slotGain cur inp s i } := by
  simp only [pipeStep, passPipe_eq, collectOrb_eq, hitPipe_eq, hitNow, orbNow, passNow, slotGain,
    playerRect, orbHitbox, topPipe, botPipe]
  simp only [movePipe_eq]
  apply Game.ext <;> simp only []
  · exact Int.add_assoc _ _ _
  · split <;> simp

/-- Iteration `i` of the pipe loop reads only slot `i`, the level index and
the avatar position. -/
theorem slot_local (cur : LevelData) (inp : Input) (s t : Game) (i : Nat)
    (h1 : t.pipeX i = s.pipeX i) (h2 : t.pipeGapY i = s.pipeGapY i)
    (h3 : t.initialPipeGapY i = s.initialPipeGapY i) (h4 : t.currentLevel = s.currentLevel)
    (h5 : t.pacmanY = s.pacmanY) (h6 : t.orbRelY i = s.orbRelY i)
    (h7 : t.orbCollected i = s.orbCollected i) (h8 : t.pipePassed i = s.pipePassed i) :
    hitNow cur inp t i = hitNow cur inp s i ∧ orbNow cur inp t i = orbNow cur inp s i ∧
    passNow cur inp t i = passNow cur inp s i ∧ slotGain cur inp t i = slotGain cur inp s i ∧
    (movePipe cur inp i t).pipeGapY i = (movePipe cur inp i s).pipeGapY i := by
  have hg : (movePipe cur inp i t).pipeGapY i = (movePipe cur inp i s).pipeGapY i := by
    simp only [movePipe_eq, h4]
    split <;> simp [h2, h3]
  have hx : (movePipe cur inp i t).pipeX i = (movePipe cur inp i s).pipeX i := by
    simp [movePipe_eq, h1]
  have hy : (movePipe cur inp i t).pacmanY = (movePipe cur inp i s).pacmanY := by
    simp [movePipe_eq, h5]
  have ho : (movePipe cur inp i t).orbRelY i = (movePipe cur inp i s).orbRelY i := by
    simp [movePipe_eq, h6]
  have hc : (movePipe cur inp i t).orbCollected i = (movePipe cur inp i s).orbCollected i := by
    simp [movePipe_eq, h7]
  have hp : (movePipe cur inp i t).pipePassed i = (movePipe cur inp i s).pipePassed i := by
    simp [movePipe_eq, h8]
  have e1 : hitNow cur inp t i = hitNow cur inp s i := by
    simp only [hitNow, topPipe, botPipe, playerRect, hg, hx, hy]
  have e2 : orbNow cur inp t i = orbNow cur inp s i := by
    simp only [orbNow, orbHitbox, playerRect, hg, hx, hy, ho, hc]
  have e3 : passNow cur inp t i = passNow cur inp s i := by
    simp only [passNow, hx, hp]
  exact ⟨e1, e2, e3, by simp only [slotGain, e2, e3], hg⟩

theorem ite_update_or (n : Nat) (B p : Nat → Bool) :
    (if p n = true then Function.update (fun j => if j < n then (B j || p j) else B j) n true
      else fun j => if j < n then (B j || p j) else B j)
      = fun j => if j < n + 1 then (B j || p j) else B j := by
  funext j
  by_cases hj : j = n
  · subst hj
    by_cases hp : p j = true <;> simp [hp]
  · have h2 : (j < n + 1) ↔ (j < n) := by omega
    by_cases hp : p n = true <;> simp [hp, Function.update, hj, h2]

theorem pipeStep_pipeLoopResult (cur : LevelData) (inp : Input) (s : Game) (n : Nat) (c : Int) :
    (pipeStep cur inp (pipeLoopResult cur inp n s, c) n).1 = pipeLoopResult cur inp (n + 1) s := by
  obtain ⟨e1, e2, e3, e4, e5⟩ := slot_local cur inp s (pipeLoopResult cur inp n s) n
    (by simp [pipeLoopResult]) (by simp [pipeLoopResult]) (by simp [pipeLoopResult])
    (by simp [pipeLoopResult]) (by simp [pipeLoopResult]) (by simp [pipeLoopResult])
    (by simp [pipeLoopResult]) (by simp [pipeLoopResult])
  rw [pipeStep_fst, e1, e2, e3, e4, e5]
  apply Game.ext <;> simp only [pipeLoopResult]
  · by_cases h1 : hitNow cur inp s n = true <;> simp [List.range_succ, h1]
  · simp [List.range_succ, Int.add_assoc]
  · exact update_ite_lt n _ _ _ (by simp)
  · exact update_ite_lt n _ _ _ rfl
  · exact ite_update_or n s.pipePassed (passNow cur inp s)
  · exact ite_update_or n s.orbCollected (orbNow cur inp s)

theorem pipeStep_snd (cur : LevelData) (inp : Input) (st : Game × Int) (i : Nat) :
    (pipeStep cur inp st i).2 =
      st.2 + if (pipeStep cur inp st i).1.pipePassed i = true then 1 else 0 := by
  simp only [pipeStep]
  split <;> simp

/-- The pipe loop in closed form; the counter `pipesClearedCount` is the
number of slots below `n` that are passed after the loop. -/
theorem pipeLoop_range (cur : LevelData) (inp : Input) (s : Game) (n : Nat) :
    (List.range n).foldl (pipeStep cur inp) (s, 0)
      = (pipeLoopResult cur inp n s, (countTrue (pipeLoopResult cur inp n s).pipePassed n : Int)) := by
  induction n with
  | zero =>
    have h0 : pipeLoopResult cur inp 0 s = s := by
      apply Game.ext <;> simp [pipeLoopResult]
    simp [h0, countTrue]
  | succ n ih =>
    rw [List.range_succ, List.foldl_append, ih, List.foldl_cons, List.foldl_nil]
    refine Prod.ext (pipeStep_pipeLoopResult cur inp s n _) ?_
    rw [pipeStep_snd, pipeStep_pipeLoopResult, countTrue_succ]
    have hc : countTrue (pipeLoopResult cur inp (n + 1) s).pipePassed n
        = countTrue (pipeLoopResult cur inp n s).pipePassed n := by
      apply countTrue_congr
      intro i hi
      simp [pipeLoopResult, hi, Nat.lt_succ_of_lt hi]
    simp only [hc]
    split <;> simp

theorem pipeLoop_eq (cur : LevelData) (inp : Input) (s : Game) :
    pipeLoop cur inp s = (pipeLoopResult cur inp cur.pipeCount.toNat s,
      (countTrue (pipeLoopResult cur inp cur.pipeCount.toNat s).pipePassed cur.pipeCount.toNat : Int)) :=
  pipeLoop_range cur inp s cur.pipeCount.toNat

/-! ## The bubble sort of the scoreboard -/

theorem swapStep_cons (x : PlayerData) (l : List PlayerData) (j : Nat) :
    swapStep (x :: l) (j + 1) = x :: swapStep l j := by
  simp only [swapStep, List.getElem?_cons_succ]
  split
  · split <;> simp
  · rfl

theorem swapStep_zero (a b : PlayerData) (t : List PlayerData) :
    swapStep (a :: b :: t) 0 = if a.score < b.score then b :: a :: t else a :: b :: t := by
  simp [swapStep]

theorem swapStep_short (l : List PlayerData) (j : Nat) (h : l.length ≤ j + 1) :
    swapStep l j = l := by
  have : l[j + 1]? = none := List.getElem?_eq_none (by omega)
  simp only [swapStep, this]
  split
  · simp_all
  · rfl

theorem foldl_swapStep_cons (x : PlayerData) (js : List Nat) (l : List PlayerData) :
    (js.map Nat.succ).foldl swapStep (x :: l) = x :: js.foldl swapStep l := by
  induction js generalizing l with
  | nil => rfl
  | cons j js ih => simp only [List.map_cons, List.foldl_cons, Nat.succ_eq_add_one, swapStep_cons]; exact ih _

theorem pass_succ (m : Nat) (a b : PlayerData) (t : List PlayerData) :
    (List.range (m + 1)).foldl swapStep (a :: b :: t) =
      if a.score < b.score then b :: (List.range m).foldl swapStep (a :: t)
      else a :: (List.range m).foldl swapStep (b :: t) := by
  rw [List.range_succ_eq_map, List.foldl_cons, swapStep_zero]
  split <;> exact foldl_swapStep_cons _ _ _

theorem swapStep_length (l : List PlayerData) (j : Nat) : (swapStep l j).length = l.length := by
  simp only [swapStep]
  split
  · split <;> simp
  · rfl

theorem foldl_swapStep_length (js : List Nat) (l : List PlayerData) :
    (js.foldl swapStep l).length = l.length := by
  induction js generalizing l with
  | nil => rfl
  | cons j js ih => rw [List.foldl_cons, ih, swapStep_length]

theorem foldl_swapStep_short (js : List Nat) (l : List PlayerData) (h : l.length ≤ 1) :
    js.foldl swapStep l = l := by
  induction js with
  | nil => rfl
  | cons j js ih => rw [List.foldl_cons, swapStep_short l j (by omega)]; exact ih

theorem withScore_swap (k : Int) (a b : PlayerData) (t : List PlayerData) (h : a.score < b.score) :
    withScore k (b :: a :: t) = withScore k (a :: b :: t) := by
  simp only [withScore, List.filter_cons]
  by_cases ha : a.score = k <;> by_cases hb : b.score = k <;> simp [ha, hb]
  omega

theorem withScore_cons (k : Int) (a : PlayerData) (t : List PlayerData) :
    withScore k (a :: t) = (if a.score = k then [a] else []) ++ withScore k t := by
  simp only [withScore, List.filter_cons]
  by_cases ha : a.score = k <;> simp [ha]

theorem withScore_append (k : Int) (l r : List PlayerData) :
    withScore k (l ++ r) = withScore k l ++ withScore k r := by
  simp [withScore]

/-- One pass of the inner loop keeps, for every score, the entries with that
score in their order. -/
theorem withScore_pass (k : Int) (m : Nat) (l : List PlayerData) :
    withScore k ((List.range m).foldl swapStep l) = withScore k l := by
  induction m generalizing l with
  | zero => rfl
  | succ m ih =>
    match l with
    | [] => rw [foldl_swapStep_short _ _ (by simp)]
    | [a] => rw [foldl_swapStep_short _ _ (by simp)]
    | a :: b :: t =>
      rw [pass_succ]
      split
      · rename_i h
        rw [withScore_cons, ih, ← withScore_cons, withScore_swap k a b t h]
      · rw [withScore_cons, ih, ← withScore_cons]

theorem mem_of_withScore_eq (l1 l2 : List PlayerData) (h : ∀ k, withScore k l1 = withScore k l2)
    (x : PlayerData) (hx : x ∈ l1) : x ∈ l2 := by
  have h1 : x ∈ withScore x.score l1 := by simp [withScore, hx]
  rw [h] at h1
  simp only [withScore, List.mem_filter] at h1
  exact h1.1

/-- A pass over `m + 1` entries ends with an entry of least score. -/
theorem pass_min_last (m : Nat) (l : List PlayerData) (hl : l.length = m + 1) :
    ∃ pre x, (List.range m).foldl swapStep l = pre ++ [x] ∧ ∀ y ∈ l, x.score ≤ y.score := by
  induction m generalizing l with
  | zero =>
    match l, hl with
    | [a], _ => exact ⟨[], a, rfl, by simp⟩
  | succ m ih =>
    match l, hl with
    | a :: b :: t, hl =>
      rw [pass_succ]
      split
      · rename_i h
        obtain ⟨pre, x, he, hmin⟩ := ih (a :: t) (by simpa using hl)
        refine ⟨b :: pre, x, by rw [he]; rfl, ?_⟩
        intro y hy
        have hxa := hmin a (by simp)
        rcases List.mem_cons.1 hy with rfl | hy
        · exact hxa
        · rcases List.mem_cons.1 hy with rfl | hy
          · omega
          · exact hmin y (by simp [hy])
      · rename_i h
        obtain ⟨pre, x, he, hmin⟩ := ih (b :: t) (by simpa using hl)
        refine ⟨a :: pre, x, by rw [he]; rfl, ?_⟩
        intro y hy
        have hxb := hmin b (by simp)
        rcases List.mem_cons.1 hy with rfl | hy
        · omega
        · exact hmin y hy

/-- A pass over `m + 1` entries does not touch the entries behind them. -/
theorem pass_append (m : Nat) (l r : List PlayerData) (hl : l.length = m + 1) :
    (List.range m).foldl swapStep (l ++ r) = (List.range m).foldl swapStep l ++ r := by
  induction m generalizing l with
  | zero => rfl
  | succ m ih =>
    match l, hl with
    | a :: b :: t, hl =>
      rw [List.cons_append, List.cons_append, pass_succ, pass_succ]
      split
      · rw [← List.cons_append, ih (a :: t) (by simpa using hl)]; rfl
      · rw [← List.cons_append, ih (b :: t) (by simpa using hl)]; rfl

theorem foldl_range_induction {σ : Type} (P : Nat → σ → Prop) (f : σ → Nat → σ) (N : Nat) (s : σ)
    (h0 : P 0 s) (hstep : ∀ j st, j < N → P j st → P (j + 1) (f st j)) :
    P N ((List.range N).foldl f s) := by
  induction N with
  | zero => exact h0
  | succ N ih =>
    rw [List.range_succ, List.foldl_append]
    exact hstep N _ (Nat.lt_succ_self N) (ih (fun j st hj h => hstep j st (Nat.lt_succ_of_lt hj) h))

theorem sortInner_nat (k : Nat) (ps : List PlayerData) (i : Nat) :
    sortInner (k : Int) ps i = (List.range (k - i - 1)).foldl swapStep ps := by
  have h : ((k : Int) - (i : Int) - 1).toNat = k - i - 1 := by omega
  simp only [sortInner, h]

/-- The two loops of the bubble sort on the first `k` entries: the result is
sorted by descending score, keeps for every score the entries with that score
in their order, and leaves the entries from index `k` on untouched. -/
theorem sortScoreboard_spec (k : Nat) (ps : List PlayerData) (hk : k ≤ ps.length) :
    ∃ l, sortScoreboard (k : Int) ps = l ++ ps.drop k ∧ l.length = k ∧ l.Sorted scoreGE ∧
      ∀ key, withScore key l = withScore key (ps.take k) := by
  match k, hk with
  | 0, _ => exact ⟨[], by simp [sortScoreboard], rfl, List.sorted_nil, by simp [withScore]⟩
  | k + 1, hk =>
    have hN : (((k + 1 : Nat) : Int) - 1).toNat = k := by omega
    have key := foldl_range_induction
      (fun j st => ∃ front back, st = front ++ (back ++ ps.drop (k + 1)) ∧ front.length = k + 1 - j ∧
        back.length = j ∧ back.Sorted scoreGE ∧ (∀ x ∈ front, ∀ y ∈ back, y.score ≤ x.score) ∧
        ∀ key, withScore key (front ++ back) = withScore key (ps.take (k + 1)))
      (sortInner ((k + 1 : Nat) : Int)) k ps
      ⟨ps.take (k + 1), [], by simp, by simp [hk], rfl, List.sorted_nil, by simp, by simp⟩
      (by
        rintro j st hj ⟨front, back, rfl, hlen, hblen, hsorted, hfb, hw⟩
        rw [sortInner_nat, pass_append _ front _ (by omega)]
        obtain ⟨pre, x, he, hmin⟩ := pass_min_last (k + 1 - j - 1) front (by omega)
        have hwf := fun key => withScore_pass key (k + 1 - j - 1) front
        rw [he] at hwf
        have hmem : ∀ z, z ∈ pre ++ [x] → z ∈ front := mem_of_withScore_eq _ _ hwf
        refine ⟨pre, x :: back, by rw [he]; simp, ?_, by simp [hblen], ?_, ?_, ?_⟩
        · have := congrArg List.length he
          rw [foldl_swapStep_length] at this
          simp at this
          omega
        · refine List.sorted_cons.2 ⟨?_, hsorted⟩
          intro y hy
          exact hfb x (hmem x (by simp)) y hy
        · intro z hz y hy
          rcases List.mem_cons.1 hy with rfl | hy
          · exact hmin z (hmem z (by simp [hz]))
          · exact hfb z (hmem z (by simp [hz])) y hy
        · intro key
          rw [← hw key, withScore_append, withScore_append, ← hwf key, withScore_append,
            withScore_cons key x back, withScore_cons key x []]
          simp [withScore])
    obtain ⟨front, back, he, hlen, hblen, hsorted, hfb, hw⟩ := key
    refine ⟨front ++ back, ?_, by simp [hlen, hblen]; omega, ?_, hw⟩
    · simp only [sortScoreboard, hN, he, List.append_assoc]
    · have h1 : front.length = 1 := by omega
      obtain ⟨a, rfl⟩ := List.length_eq_one.1 h1
      exact List.sorted_cons.2 ⟨fun y hy => hfb a (by simp) y hy, hsorted⟩

theorem withScore_orderedInsert (k : Int) (a : PlayerData) (l : List PlayerData) :
    withScore k (l.orderedInsert scoreGE a) = withScore k (a :: l) := by
  induction l with
  | nil => rfl
  | cons b l ih =>
    by_cases h : scoreGE a b
    · rw [List.orderedInsert_of_le scoreGE l h]
    · have he : (b :: l).orderedInsert scoreGE a = b :: l.orderedInsert scoreGE a := by
        simp [List.orderedInsert, h]
      rw [he, withScore_cons, ih, ← withScore_cons]
      exact withScore_swap k a b l (by simpa [scoreGE] using h)

theorem withScore_insertionSort (k : Int) (l : List PlayerData) :
    withScore k (l.insertionSort scoreGE) = withScore k l := by
  induction l with
  | nil => rfl
  | cons a l ih =>
    rw [List.insertionSort, withScore_orderedInsert, withScore_cons, ih, ← withScore_cons]

theorem scoreGE_total : IsTotal PlayerData scoreGE := ⟨fun a b => by simp only [scoreGE]; omega⟩

theorem scoreGE_trans : IsTrans PlayerData scoreGE :=
  ⟨fun a b c h1 h2 => by simp only [scoreGE] at *; omega⟩

theorem sorted_insertionSort_scoreGE (l : List PlayerData) : (l.insertionSort scoreGE).Sorted scoreGE := by
  haveI := scoreGE_total
  haveI := scoreGE_trans
  exact List.sorted_insertionSort scoreGE l

/-- Two lists sorted by descending score that hold, for every score, the same
entries in the same order are equal. -/
theorem sorted_withScore_unique (l1 l2 : List PlayerData) (h1 : l1.Sorted scoreGE)
    (h2 : l2.Sorted scoreGE) (h : ∀ k, withScore k l1 = withScore k l2) : l1 = l2 := by
  induction l1 generalizing l2 with
  | nil =>
    match l2 with
    | [] => rfl
    | b :: t =>
      have := h b.score
      simp [withScore] at this
  | cons a t1 ih =>
    match l2 with
    | [] =>
      have := h a.score
      simp [withScore] at this
    | b :: t2 =>
      have hab : scoreGE a b := by
        have hb : b ∈ a :: t1 := mem_of_withScore_eq _ _ (fun k => (h k).symm) b (by simp)
        rcases List.mem_cons.1 hb with rfl | hb
        · simp [scoreGE]
        · exact List.rel_of_sorted_cons h1 b hb
      have hba : scoreGE b a := by
        have ha : a ∈ b :: t2 := mem_of_withScore_eq _ _ h a (by simp)
        rcases List.mem_cons.1 ha with rfl | ha
        · simp [scoreGE]
        · exact List.rel_of_sorted_cons h2 a ha
      have hs : a.score = b.score := by simp only [scoreGE] at hab hba; omega
      have h0 := h a.score
      rw [withScore_cons, withScore_cons, if_pos rfl, if_pos hs.symm] at h0
      simp only [List.singleton_append, List.cons.injEq] at h0
      obtain ⟨rfl, h0⟩ := h0
      congr 1
      refine ih t2 (List.Sorted.of_cons h1) (List.Sorted.of_cons h2) (fun k => ?_)
      have hk := h k
      rw [withScore_cons, withScore_cons] at hk
      exact List.append_cancel_left hk

/-- The bubble sort of `UpdateGame` on the first `k` entries is the stable
insertion sort by descending score of those entries. -/
theorem sortScoreboard_eq_insertionSort (k : Nat) (ps : List PlayerData) (hk : k ≤ ps.length) :
    sortScoreboard (k : Int) ps = (ps.take k).insertionSort scoreGE ++ ps.drop k := by
  obtain ⟨l, he, _, hs, hw⟩ := sortScoreboard_spec k ps hk
  rw [he]
  congr 1
  exact sorted_withScore_unique _ _ hs (sorted_insertionSort_scoreGE _)
    (fun key => by rw [hw, withScore_insertionSort])

/-! ## The invariant of the frame loop -/

theorem countTrue_le (f : Nat → Bool) (n : Nat) : countTrue f n ≤ n := by
  induction n with
  | zero => simp [countTrue]
  | succ n ih => rw [countTrue_succ]; split <;> omega

theorem countTrue_eq_zero (f : Nat → Bool) (n : Nat) (h : ∀ i, i < n → f i = false) :
    countTrue f n = 0 := by
  induction n with
  | zero => rfl
  | succ n ih =>
    rw [countTrue_succ, ih (fun i hi => h i (Nat.lt_succ_of_lt hi)), h n (Nat.lt_succ_self n)]
    simp

theorem countTrue_eq_self (f : Nat → Bool) (n : Nat) (h : countTrue f n = n) (i : Nat) (hi : i < n) :
    f i = true := by
  induction n with
  | zero => omega
  | succ n ih =>
    rw [countTrue_succ] at h
    have hle := countTrue_le f n
    by_cases hn : f n = true
    · rw [if_pos hn] at h
      rcases Nat.lt_succ_iff_lt_or_eq.1 hi with h1 | h1
      · exact ih (by omega) h1
      · rw [h1]; exact hn
    · rw [if_neg hn] at h
      omega

theorem countTrue_or (B p : Nat → Bool) (n : Nat) (h : ∀ i, i < n → p i = true → B i = false) :
    countTrue (fun j => B j || p j) n = countTrue B n + countTrue p n := by
  induction n with
  | zero => rfl
  | succ n ih =>
    rw [countTrue_succ, countTrue_succ, countTrue_succ, ih (fun i hi => h i (Nat.lt_succ_of_lt hi))]
    have hn := h n (Nat.lt_succ_self n)
    by_cases hp : p n = true
    · simp [hp, hn hp]
      omega
    · by_cases hB : B n = true <;> simp [hp, hB]
      omega

theorem sum_slotGain (cur : LevelData) (inp : Input) (s : Game) (n : Nat) :
    ((List.range n).map (slotGain cur inp s)).sum
      = 5 * (countTrue (orbNow cur inp s) n : Int) + (countTrue (passNow cur inp s) n : Int) := by
  induction n with
  | zero => rfl
  | succ n ih =>
    rw [List.range_succ, List.map_append, List.sum_append, ih, countTrue_succ, countTrue_succ]
    simp only [List.map_cons, List.map_nil, List.sum_cons, List.sum_nil, slotGain]
    by_cases h1 : orbNow cur inp s n = true <;> by_cases h2 : passNow cur inp s n = true <;>
      simp [h1, h2] <;> omega

theorem passNow_fresh (cur : LevelData) (inp : Input) (s : Game) (i : Nat)
    (h : passNow cur inp s i = true) : s.pipePassed i = false := by
  simp only [passNow, movePipe_eq, Bool.and_eq_true, Bool.not_eq_true'] at h
  exact h.1

theorem orbNow_fresh (cur : LevelData) (inp : Input) (s : Game) (i : Nat)
    (h : orbNow cur inp s i = true) : s.orbCollected i = false := by
  simp only [orbNow, movePipe_eq, Bool.and_eq_true, Bool.not_eq_true'] at h
  exact h.1

/-- The score after the pipe loop: every slot newly passed adds 1 and every
orb newly collected adds 5. -/
theorem pipeLoopResult_score (cur : LevelData) (inp : Input) (s : Game) (n : Nat) :
    (pipeLoopResult cur inp n s).currentSessionScore
        - countTrue (pipeLoopResult cur inp n s).pipePassed n
        - 5 * countTrue (pipeLoopResult cur inp n s).orbCollected n
      = s.currentSessionScore - countTrue s.pipePassed n - 5 * countTrue s.orbCollected n := by
  have h1 : countTrue (pipeLoopResult cur inp n s).pipePassed n
      = countTrue s.pipePassed n + countTrue (passNow cur inp s) n := by
    rw [← countTrue_or _ _ _ (fun i _ h => passNow_fresh cur inp s i h)]
    exact countTrue_congr _ _ _ (fun i hi => by simp [pipeLoopResult, hi])
  have h2 : countTrue (pipeLoopResult cur inp n s).orbCollected n
      = countTrue s.orbCollected n + countTrue (orbNow cur inp s) n := by
    rw [← countTrue_or _ _ _ (fun i _ h => orbNow_fresh cur inp s i h)]
    exact countTrue_congr _ _ _ (fun i hi => by simp [pipeLoopResult, hi])
  rw [h1, h2]
  simp only [pipeLoopResult, sum_slotGain]
  push_cast
  ring

theorem boundsCheck_eq (s : Game) :
    boundsCheck s = { s with
      currentState := if outOfBounds s then STATE_GAMEOVER else s.currentState } := by
  simp only [boundsCheck]
  split <;> rfl

/-- The playing part of a frame as a single update of the globals, where `R`
is the closed form of the pipe loop. -/
theorem playWith_eq (cur : LevelData) (inp : Input) (s : Game) :
    playWith cur inp s =
      { pipeLoopResult cur inp cur.pipeCount.toNat (boundsCheck (updatePlayer cur inp s)) with
        currentState :=
          if (countTrue (pipeLoopResult cur inp cur.pipeCount.toNat
                (boundsCheck (updatePlayer cur inp s))).pipePassed cur.pipeCount.toNat : Int)
              ≥ cur.pipeCount then STATE_LEVEL_DONE
          else (pipeLoopResult cur inp cur.pipeCount.toNat
                (boundsCheck (updatePlayer cur inp s))).currentState } := by
  simp only [playWith, pipeLoop_eq]
  split <;> rfl

/-- The globals a playing frame never writes. -/
theorem playWith_fixed (cur : LevelData) (inp : Input) (s : Game) :
    (playWith cur inp s).players = s.players ∧ (playWith cur inp s).playerCount = s.playerCount ∧
    (playWith cur inp s).currentLevel = s.currentLevel ∧
    (playWith cur inp s).levelStartScore = s.levelStartScore ∧
    (playWith cur inp s).tempName = s.tempName ∧ (playWith cur inp s).letterCount = s.letterCount ∧
    (playWith cur inp s).initialPipeGapY = s.initialPipeGapY ∧
    (playWith cur inp s).orbRelY = s.orbRelY := by
  simp [playWith_eq, pipeLoopResult, boundsCheck_eq, updatePlayer]

/-- A playing frame started in `STATE_PLAYING` ends in one of three states. -/
theorem playWith_state (cur : LevelData) (inp : Input) (s : Game)
    (hs : s.currentState = STATE_PLAYING) :
    (playWith cur inp s).currentState = STATE_PLAYING ∨
    (playWith cur inp s).currentState = STATE_GAMEOVER ∨
    (playWith cur inp s).currentState = STATE_LEVEL_DONE := by
  simp only [playWith_eq, pipeLoopResult, boundsCheck_eq, updatePlayer, hs]
  split_ifs <;> simp

/-- A playing frame keeps `score - #passed - 5 * #collected`. -/
theorem playWith_score (cur : LevelData) (inp : Input) (s : Game) :
    (playWith cur inp s).currentSessionScore - passedCount cur (playWith cur inp s)
        - 5 * collectedCount cur (playWith cur inp s)
      = s.currentSessionScore - passedCount cur s - 5 * collectedCount cur s := by
  have h := pipeLoopResult_score cur inp (boundsCheck (updatePlayer cur inp s)) cur.pipeCount.toNat
  simp only [passedCount, collectedCount, playWith_eq]
  rw [h]
  simp [boundsCheck_eq, updatePlayer]

theorem board_congr (s t : Game) (h1 : t.players = s.players) (h2 : t.playerCount = s.playerCount) :
    board t = board s := by
  simp [board, h1, h2]

theorem inLevel_of_playing (s : Game) (h : s.currentState = STATE_PLAYING) : inLevel s :=
  Or.inr (Or.inl h)

theorem levelAt_cases (k : Int) (cur : LevelData) (h : levelAt k = some cur) :
    cur = ⟨5, 3, 160, 2 / 5⟩ ∨ cur = ⟨10, 7 / 2, 150, 9 / 20⟩ := by
  simp only [levelAt, levels, SetupLevels] at h
  split at h
  · match hk : k.toNat, h with
    | 0, h => simp at h; exact Or.inl h.symm
    | 1, h => simp at h; exact Or.inr h.symm
    | n + 2, h => simp at h
  · cases h

theorem levelAt_pipeCount_pos (k : Int) (cur : LevelData) (h : levelAt k = some cur) :
    0 < cur.pipeCount := by
  rcases levelAt_cases k cur h with rfl | rfl <;> decide

theorem levelAt_speed_pos (k : Int) (cur : LevelData) (h : levelAt k = some cur) :
    0 < cur.speed := by
  rcases levelAt_cases k cur h with rfl | rfl <;> norm_num

/-- Slot `i` below `pipeCount` after a playing frame: the pipe has scrolled
by `speed`, and the slot is passed iff it was passed or its trailing edge is
now left of the avatar. -/
theorem playWith_slot (cur : LevelData) (inp : Input) (s : Game) (i : Nat)
    (hi : i < cur.pipeCount.toNat) :
    (playWith cur inp s).pipeX i = s.pipeX i - cur.speed ∧
    (playWith cur inp s).pipePassed i
      = (s.pipePassed i || decide (s.pipeX i - cur.speed + (PIPE_WIDTH : ℚ) < PACMAN_X_POS)) := by
  simp only [playWith_eq, pipeLoopResult, hi, if_true, passNow, movePipe_eq, boundsCheck_eq,
    updatePlayer, Function.update_same, true_and]
  cases s.pipePassed i <;> simp

/-- A playing frame that ends in `STATE_LEVEL_DONE` has all slots passed. -/
theorem playWith_done (cur : LevelData) (inp : Input) (s : Game)
    (hs : s.currentState = STATE_PLAYING) (hn : 0 ≤ cur.pipeCount)
    (hd : (playWith cur inp s).currentState = STATE_LEVEL_DONE) :
    (passedCount cur (playWith cur inp s) : Int) = cur.pipeCount := by
  have hle := countTrue_le (playWith cur inp s).pipePassed cur.pipeCount.toNat
  simp only [passedCount]
  simp only [playWith_eq] at hd hle ⊢
  split at hd
  · rename_i hge
    omega
  · simp only [pipeLoopResult, boundsCheck_eq, updatePlayer, hs] at hd
    split_ifs at hd

/-- The playing part of a frame keeps the invariant. -/
theorem Invariant.play (cur : LevelData) (inp : Input) (s : Game) (h : Invariant s)
    (hs : s.currentState = STATE_PLAYING) (hc : levelAt s.currentLevel = some cur) :
    Invariant (playWith cur inp s) := by
  obtain ⟨f1, f2, f3, f4, _, _, _, _⟩ := playWith_fixed cur inp s
  have hin := inLevel_of_playing s hs
  refine ⟨by rw [f1]; exact h.board_len, by rw [f2]; exact h.count_nonneg,
    by rw [f2]; exact h.count_le, by rw [board_congr _ _ f1 f2]; exact h.sorted,
    fun _ => by rw [f3]; exact h.level_range hin, ?_, ?_, fun _ h0 => ?_, ?_, ?_⟩
  · intro _ cur2 hc2
    rw [f3, hc] at hc2
    cases hc2
    have h1 := playWith_score cur inp s
    have h2 := h.score_eq hin cur hc
    rw [f4]
    omega
  · intro ht
    rcases playWith_state cur inp s hs with h1 | h1 | h1 <;> rw [h1] at ht <;> cases ht
  · rw [f4]
    rw [f3] at h0
    exact h.level0_start hin h0
  · intro hd cur2 hc2
    rw [f3, hc] at hc2
    cases hc2
    exact playWith_done cur inp s hs (levelAt_pipeCount_pos _ _ hc).le hd
  · intro _ cur2 hc2 i hi
    rw [f3, hc] at hc2
    cases hc2
    obtain ⟨hx, hp⟩ := playWith_slot cur inp s i (by omega)
    rw [hx, hp]
    have hsp := levelAt_speed_pos _ _ hc
    have hold := h.pass_iff hin cur hc i hi
    by_cases hpi : s.pipePassed i = true
    · have := hold.1 hpi
      simp only [hpi, Bool.true_or, true_iff]
      linarith
    · simp only [Bool.not_eq_true] at hpi
      simp [hpi]

/-- On the two catalog levels `ResetEntityPositions` returns, with the closed form as result. -/
theorem reset_catalog_eq (rand : Nat → Int) (t : Game) (hl : t.currentLevel = 0 ∨ t.currentLevel = 1) :
    ∃ cur, levelAt t.currentLevel = some cur ∧
      ResetEntityPositions rand t = some (resetResult cur rand cur.pipeCount.toNat t) := by
  rcases hl with h | h
  · have hmax : maxGapOf ⟨5, 3, 160, 2 / 5⟩ = 240 := by simp [maxGapOf, SCREEN_HEIGHT, cTrunc_160]
    refine ⟨⟨5, 3, 160, 2 / 5⟩, by rw [h]; rfl, ?_⟩
    simp only [ResetEntityPositions, h, levelAt_zero, Option.bind_eq_bind, Option.some_bind]
    exact resetWith_eq _ _ _ (by rw [hmax]; decide)
  · have hmax : maxGapOf ⟨10, 7 / 2, 150, 9 / 20⟩ = 250 := by
      simp [maxGapOf, SCREEN_HEIGHT, cTrunc_150]
    refine ⟨⟨10, 7 / 2, 150, 9 / 20⟩, by rw [h]; rfl, ?_⟩
    simp only [ResetEntityPositions, h, levelAt_one, Option.bind_eq_bind, Option.some_bind]
    exact resetWith_eq _ _ _ (by rw [hmax]; decide)

/-- The globals the reset never writes. -/
theorem resetResult_fixed (cur : LevelData) (rand : Nat → Int) (n : Nat) (t : Game) :
    (resetResult cur rand n t).players = t.players ∧
    (resetResult cur rand n t).playerCount = t.playerCount ∧
    (resetResult cur rand n t).currentState = t.currentState ∧
    (resetResult cur rand n t).currentLevel = t.currentLevel ∧
    (resetResult cur rand n t).currentSessionScore = t.currentSessionScore ∧
    (resetResult cur rand n t).levelStartScore = t.levelStartScore ∧
    (resetResult cur rand n t).tempName = t.tempName ∧
    (resetResult cur rand n t).letterCount = t.letterCount := by
  simp [resetResult]

theorem resetResult_flags (cur : LevelData) (rand : Nat → Int) (n : Nat) (t : Game) (i : Nat)
    (hi : i < n) :
    (resetResult cur rand n t).pipePassed i = false ∧
    (resetResult cur rand n t).orbCollected i = false := by
  simp [resetResult, hi]

/-- A reset into `STATE_TITLE` with the score at the snapshot establishes the invariant. -/
theorem Invariant.reset (rand : Nat → Int) (t s1 : Game)
    (hr : ResetEntityPositions rand t = some s1) (hlen : t.players.length = 10)
    (hc0 : 0 ≤ t.playerCount) (hc1 : t.playerCount ≤ 10) (hsorted : (board t).Sorted scoreGE)
    (hl : t.currentLevel = 0 ∨ t.currentLevel = 1) (hst : t.currentState = STATE_TITLE)
    (hsc : t.currentSessionScore = t.levelStartScore)
    (h0 : t.currentLevel = 0 → t.levelStartScore = 0) : Invariant s1 := by
  obtain ⟨cur, hcur, he⟩ := reset_catalog_eq rand t hl
  rw [he] at hr
  cases hr
  obtain ⟨f1, f2, f3, f4, f5, f6, _, _⟩ := resetResult_fixed cur rand cur.pipeCount.toNat t
  have hflags : ∀ i, i < cur.pipeCount.toNat →
      (resetResult cur rand cur.pipeCount.toNat t).pipePassed i = false ∧
      (resetResult cur rand cur.pipeCount.toNat t).orbCollected i = false :=
    fun i hi => resetResult_flags cur rand _ t i hi
  refine ⟨by rw [f1]; exact hlen, by rw [f2]; exact hc0, by rw [f2]; exact hc1,
    by rw [board_congr _ _ f1 f2]; exact hsorted, fun _ => by rw [f4]; exact hl, ?_, ?_,
    fun _ h => by rw [f6]; rw [f4] at h; exact h0 h, ?_, ?_⟩
  · intro _ cur2 hc2
    rw [f4, hcur] at hc2
    cases hc2
    rw [f5, f6, passedCount, collectedCount, countTrue_eq_zero _ _ (fun i hi => (hflags i hi).1),
      countTrue_eq_zero _ _ (fun i hi => (hflags i hi).2), hsc]
    simp
  · intro _ cur2 hc2 i hi
    rw [f4, hcur] at hc2
    cases hc2
    exact hflags i (by omega)
  · intro hd
    rw [f3, hst] at hd
    cases hd
  · intro _ cur2 hc2 i hi
    rw [f4, hcur] at hc2
    cases hc2
    have hi2 : i < cur.pipeCount.toNat := by omega
    simp only [resetResult, hi2, if_true, SCREEN_WIDTH, PIPE_WIDTH, PACMAN_X_POS]
    push_cast
    constructor
    · intro hf
      cases hf
    · intro hlt
      have : (0 : ℚ) ≤ (i : ℚ) := Nat.cast_nonneg i
      linarith

theorem typeKey_name (key : Int) (s : Game) :
    ∃ name lc, typeKey key s = { s with tempName := name, letterCount := lc } := by
  simp only [typeKey]
  split
  · exact ⟨_, _, rfl⟩
  · exact ⟨s.tempName, s.letterCount, rfl⟩

/-- Typing changes only the name buffer and its length. -/
theorem typeLoop_name (chars : List Int) (s : Game) :
    ∃ name lc, typeLoop chars s = { s with tempName := name, letterCount := lc } := by
  induction chars generalizing s with
  | nil => exact ⟨s.tempName, s.letterCount, rfl⟩
  | cons key rest ih =>
    simp only [typeLoop]
    split
    · obtain ⟨n1, l1, h1⟩ := typeKey_name key s
      obtain ⟨n2, l2, h2⟩ := ih (typeKey key s)
      rw [h2, h1]
      exact ⟨n2, l2, rfl⟩
    · exact ⟨s.tempName, s.letterCount, rfl⟩

/-- The typing and backspace part of `UpdateInput` changes only the name buffer and its length. -/
theorem nameEdit_name (inp : Input) (s : Game) :
    ∃ name lc, (if inp.backspace then backspaceKey (typeLoop inp.chars s) else typeLoop inp.chars s)
      = { s with tempName := name, letterCount := lc } := by
  obtain ⟨n1, l1, h1⟩ := typeLoop_name inp.chars s
  split
  · rw [h1]
    exact ⟨_, _, rfl⟩
  · exact ⟨n1, l1, h1⟩

theorem Invariant.of_name (s : Game) (h : Invariant s) (name : List Nat) (lc : Int) :
    Invariant { s with tempName := name, letterCount := lc } :=
  ⟨h.board_len, h.count_nonneg, h.count_le, h.sorted, h.level_range, h.score_eq, h.title_fresh,
    h.level0_start, h.done_all, h.pass_iff⟩

/-- A frame in `STATE_INPUT` keeps the invariant. -/
theorem Invariant.input (inp : Input) (s s1 : Game) (h : Invariant s)
    (hr : UpdateInput inp s = some s1) : Invariant s1 := by
  obtain ⟨name, lc, he⟩ := nameEdit_name inp s
  simp only [UpdateInput, he] at hr
  split at hr
  · exact Invariant.reset inp.rand _ s1 hr h.board_len h.count_nonneg h.count_le h.sorted
      (Or.inl rfl) rfl rfl (fun _ => rfl)
  · cases hr
    exact Invariant.of_name s h name lc

theorem sortScoreboard_length (k : Nat) (ps : List PlayerData) (hk : k ≤ ps.length) :
    (sortScoreboard (k : Int) ps).length = ps.length := by
  obtain ⟨l, he, hl, _, _⟩ := sortScoreboard_spec k ps hk
  rw [he, List.length_append, hl, List.length_drop]
  omega

theorem sortScoreboard_take (k : Nat) (ps : List PlayerData) (hk : k ≤ ps.length) :
    (sortScoreboard (k : Int) ps).take k = (ps.take k).insertionSort scoreGE := by
  rw [sortScoreboard_eq_insertionSort k ps hk]
  exact List.take_left' (by rw [List.length_insertionSort, List.length_take]; omega)

theorem addPlayer_count (s : Game) (h0 : 0 ≤ s.playerCount) (h1 : s.playerCount ≤ 10) :
    0 ≤ (addPlayer s).playerCount ∧ (addPlayer s).playerCount ≤ 10 ∧
    (addPlayer s).players.length = s.players.length ∧
    (addPlayer s).currentState = s.currentState := by
  simp only [addPlayer, MAX_PLAYERS]
  split
  · simp
    omega
  · simp
    omega

/-- The victory branch keeps the invariant. -/
theorem Invariant.victory (s : Game) (h : Invariant s) :
    Invariant { addPlayer { s with currentLevel := s.currentLevel + 1, currentState := STATE_VICTORY } with
      players := sortScoreboard
        (addPlayer { s with currentLevel := s.currentLevel + 1, currentState := STATE_VICTORY }).playerCount
        (addPlayer { s with currentLevel := s.currentLevel + 1, currentState := STATE_VICTORY }).players } := by
  obtain ⟨a0, a1, a2, a3⟩ := addPlayer_count
    { s with currentLevel := s.currentLevel + 1, currentState := STATE_VICTORY } h.count_nonneg h.count_le
  generalize addPlayer { s with currentLevel := s.currentLevel + 1, currentState := STATE_VICTORY } = t at *
  have hlen : t.players.length = 10 := by rw [a2]; exact h.board_len
  have hk : t.playerCount.toNat ≤ t.players.length := by omega
  have hcast : t.playerCount = (t.playerCount.toNat : Int) := (Int.toNat_of_nonneg a0).symm
  have hst : ¬ inLevel { t with players := sortScoreboard t.playerCount t.players } := by
    simp only [inLevel, a3]
    simp
  refine ⟨?_, a0, a1, ?_, fun hin => absurd hin hst, fun hin => absurd hin hst, ?_,
    fun hin => absurd hin hst, fun hd => absurd (Or.inr (Or.inr (Or.inl hd))) hst,
    fun hin => absurd hin hst⟩
  · show (sortScoreboard t.playerCount t.players).length = 10
    rw [hcast, sortScoreboard_length _ _ hk, hlen]
  · show ((sortScoreboard t.playerCount t.players).take t.playerCount.toNat).Sorted scoreGE
    rw [hcast, Int.toNat_ofNat, sortScoreboard_take _ _ hk]
    exact sorted_insertionSort_scoreGE _
  · intro ht
    have : t.currentState = STATE_TITLE := ht
    rw [a3] at this
    cases this

/-- The space-bar block keeps the invariant. -/
theorem Invariant.space (inp : Input) (s s1 : Game) (h : Invariant s)
    (hr : spaceBlock inp s = some s1) : Invariant s1 := by
  simp only [spaceBlock] at hr
  split at hr
  · rename_i hs
    cases hr
    have hin : inLevel s := Or.inl hs
    refine ⟨h.board_len, h.count_nonneg, h.count_le, h.sorted, fun _ => h.level_range hin,
      fun _ => h.score_eq hin, ?_, fun _ => h.level0_start hin, ?_, fun _ => h.pass_iff hin⟩
    · intro ht
      cases ht
    · intro ht
      cases ht
  · rename_i hs
    have hin : inLevel s := Or.inr (Or.inr (Or.inl hs))
    simp only [levelDoneSpace, MAX_LEVELS] at hr
    split at hr
    · cases hr
      exact Invariant.victory s h
    · rename_i hlt
      have hl0 : s.currentLevel = 0 := by
        rcases h.level_range hin with h0 | h0
        · exact h0
        · simp only [h0] at hlt
          exact absurd (by decide) hlt
      refine Invariant.reset inp.rand _ s1 hr h.board_len h.count_nonneg h.count_le h.sorted
        (Or.inr (by simp [hl0])) rfl rfl (fun h0 => ?_)
      simp [hl0] at h0
  · rename_i hs
    have hin : inLevel s := Or.inr (Or.inr (Or.inr hs))
    exact Invariant.reset inp.rand _ s1 hr h.board_len h.count_nonneg h.count_le h.sorted
      (h.level_range hin) rfl rfl (fun h0 => h.level0_start hin h0)
  · rename_i hs
    cases hr
    refine ⟨h.board_len, h.count_nonneg, h.count_le, h.sorted, fun hin => ?_, fun hin => ?_,
      fun ht => ?_, fun hin => ?_, fun ht => ?_, fun hin => ?_⟩
    · simp [inLevel] at hin
    · simp [inLevel] at hin
    · cases ht
    · simp [inLevel] at hin
    · cases ht
    · simp [inLevel] at hin
  · cases hr
    exact h

/-- One frame keeps the invariant. -/
theorem Invariant.step (inp : Input) (s s1 : Game) (h : Invariant s)
    (hr : UpdateGame inp s = some s1) : Invariant s1 := by
  simp only [UpdateGame] at hr
  split at hr
  · exact Invariant.input inp s s1 h hr
  · have key : ∀ t, Invariant t → (if t.currentState ≠ STATE_PLAYING then pure t else playFrame inp t)
        = some s1 → Invariant s1 := by
      intro t ht hr2
      split at hr2
      · cases hr2
        exact ht
      · rename_i hp
        have hp2 : t.currentState = STATE_PLAYING := by simpa using hp
        simp only [playFrame] at hr2
        cases hc : levelAt t.currentLevel with
        | none => simp [hc] at hr2
        | some cur =>
          simp only [hc, Option.bind_eq_bind, Option.some_bind, Option.pure_def, Option.some.injEq] at hr2
          rw [← hr2]
          exact Invariant.play cur inp t ht hp2 hc
    by_cases hsp : inp.space = true
    · simp only [hsp, if_true] at hr
      cases hb : spaceBlock inp s with
      | none => simp [hb] at hr
      | some t =>
        simp only [hb, Option.bind_eq_bind, Option.some_bind] at hr
        exact key t (Invariant.space inp s t h hb) hr
    · simp only [hsp] at hr
      exact key s h hr

theorem Invariant.init : Invariant initGame := by
  refine ⟨rfl, by decide, by decide, ?_, ?_, ?_, ?_, ?_, ?_, ?_⟩
  · simp [board, initGame]
  · intro h
    simp [inLevel, initGame] at h
  · intro h
    simp [inLevel, initGame] at h
  · intro h
    simp [initGame] at h
  · intro h
    simp [inLevel, initGame] at h
  · intro h
    simp [initGame] at h
  · intro h
    simp [inLevel, initGame] at h

/-- Every reachable state satisfies the invariant of the frame loop. -/
theorem Reachable.invariant {s : Game} (h : Reachable s) : Invariant s := by
  induction h with
  | init => exact Invariant.init
  | step inp _ hstep ih => exact Invariant.step inp _ _ ih hstep

/-! ## Level attempts -/

/-- Whenever `ResetEntityPositions` returns, its result is the closed form. -/
theorem reset_some_eq (rand : Nat → Int) (t s1 : Game) (hr : ResetEntityPositions rand t = some s1) :
    ∃ cur, levelAt t.currentLevel = some cur ∧ s1 = resetResult cur rand cur.pipeCount.toNat t := by
  simp only [ResetEntityPositions] at hr
  cases hc : levelAt t.currentLevel with
  | none => simp [hc] at hr
  | some cur =>
    simp only [hc, Option.bind_eq_bind, Option.some_bind] at hr
    have hm : maxGapOf cur - 50 ≠ 0 := by
      rcases levelAt_cases _ cur hc with rfl | rfl
      · simp [maxGapOf, SCREEN_HEIGHT, cTrunc_160]
      · simp [maxGapOf, SCREEN_HEIGHT, cTrunc_150]
    rw [resetWith_eq cur rand t hm] at hr
    exact ⟨cur, rfl, (Option.some.inj hr).symm⟩

/-- The three shapes of a frame of a level attempt. -/
theorem attemptFrame_cases (inp : Input) (s s1 : Game) (cur : LevelData)
    (hc : levelAt s.currentLevel = some cur) (hf : attemptFrame inp s)
    (hr : UpdateGame inp s = some s1) :
    s1 = s ∨ (s.currentState = STATE_PLAYING ∧ s1 = playWith cur inp s) ∨
    (s.currentState = STATE_TITLE ∧ inp.space = true ∧
      s1 = playWith cur inp { s with currentState := STATE_PLAYING, pacmanVelocityY := JUMP_STRENGTH }) := by
  rcases hf with h | h | ⟨h, hsp⟩
  · by_cases hsp : inp.space = true
    · right; right
      simp [UpdateGame, h, hsp, spaceBlock, playFrame, hc] at hr
      exact ⟨h, hsp, hr.symm⟩
    · left
      simp [UpdateGame, h, hsp] at hr
      exact hr.symm
  · right; left
    by_cases hsp : inp.space = true
    · simp [UpdateGame, h, hsp, spaceBlock, playFrame, hc] at hr
      exact ⟨h, hr.symm⟩
    · simp [UpdateGame, h, hsp, playFrame, hc] at hr
      exact ⟨h, hr.symm⟩
  · left
    rcases h with h | h <;> simp [UpdateGame, h, hsp] at hr <;> exact hr.symm

theorem playWith_mono (cur : LevelData) (inp : Input) (s : Game) (i : Nat) :
    (s.pipePassed i = true → (playWith cur inp s).pipePassed i = true) ∧
    (s.orbCollected i = true → (playWith cur inp s).orbCollected i = true) := by
  simp only [playWith_eq, pipeLoopResult, boundsCheck_eq, updatePlayer]
  constructor <;> intro h <;> simp [h]

/-- What a frame of a level attempt keeps: the level, the snapshot, the
scoreboard, and every flag that is already set. -/
theorem attemptFrame_keeps (inp : Input) (s s1 : Game) (cur : LevelData)
    (hc : levelAt s.currentLevel = some cur) (hf : attemptFrame inp s)
    (hr : UpdateGame inp s = some s1) :
    s1.currentLevel = s.currentLevel ∧ s1.levelStartScore = s.levelStartScore ∧
    (∀ i, s.pipePassed i = true → s1.pipePassed i = true) ∧
    (∀ i, s.orbCollected i = true → s1.orbCollected i = true) := by
  rcases attemptFrame_cases inp s s1 cur hc hf hr with rfl | ⟨_, rfl⟩ | ⟨_, _, rfl⟩
  · exact ⟨rfl, rfl, fun _ h => h, fun _ h => h⟩
  · obtain ⟨_, _, f3, f4, _⟩ := playWith_fixed cur inp s
    exact ⟨f3, f4, fun i => (playWith_mono cur inp s i).1, fun i => (playWith_mono cur inp s i).2⟩
  · obtain ⟨_, _, f3, f4, _⟩ := playWith_fixed cur inp
      { s with currentState := STATE_PLAYING, pacmanVelocityY := JUMP_STRENGTH }
    have hm := playWith_mono cur inp
      { s with currentState := STATE_PLAYING, pacmanVelocityY := JUMP_STRENGTH }
    exact ⟨f3, f4, fun i => (hm i).1, fun i => (hm i).2⟩

theorem inLevel_of_attemptFrame (inp : Input) (s : Game) (hf : attemptFrame inp s) : inLevel s := by
  rcases hf with h | h | ⟨h | h, _⟩
  · exact Or.inl h
  · exact Or.inr (Or.inl h)
  · exact Or.inr (Or.inr (Or.inr h))
  · exact Or.inr (Or.inr (Or.inl h))

theorem Invariant.level_some (s : Game) (h : Invariant s) (hin : inLevel s) :
    ∃ cur, levelAt s.currentLevel = some cur := by
  rcases h.level_range hin with h0 | h0 <;> rw [h0]
  · exact ⟨_, levelAt_zero⟩
  · exact ⟨_, levelAt_one⟩

/-- Along a level attempt the states stay reachable, in the same level and with
the same snapshot, and no flag is cleared. -/
theorem Attempt.keeps {s t : Game} (ha : Attempt s t) (hR : Reachable s) :
    Reachable t ∧ t.currentLevel = s.currentLevel ∧ t.levelStartScore = s.levelStartScore ∧
    (∀ i, s.pipePassed i = true → t.pipePassed i = true) ∧
    (∀ i, s.orbCollected i = true → t.orbCollected i = true) := by
  induction ha with
  | refl => exact ⟨hR, rfl, rfl, fun _ h => h, fun _ h => h⟩
  | step inp _ hf hr ih =>
    obtain ⟨hRt, h1, h2, h3, h4⟩ := ih
    obtain ⟨cur, hc⟩ := hRt.invariant.level_some _ (inLevel_of_attemptFrame inp _ hf)
    obtain ⟨k1, k2, k3, k4⟩ := attemptFrame_keeps inp _ _ cur hc hf hr
    exact ⟨Reachable.step inp hRt hr, by rw [k1, h1], by rw [k2, h2],
      fun i h => k3 i (h3 i h), fun i h => k4 i (h4 i h)⟩

/-- A frame outside `STATE_INPUT` with the space bar pressed: the space-bar
block, then the playing part when the state is `STATE_PLAYING`. -/
theorem UpdateGame_space (inp : Input) (s s1 : Game) (hI : s.currentState ≠ STATE_INPUT)
    (hsp : inp.space = true) (hr : UpdateGame inp s = some s1) :
    ∃ t, spaceBlock inp s = some t ∧
      (if t.currentState ≠ STATE_PLAYING then some t else playFrame inp t) = some s1 := by
  simp only [UpdateGame, hI, if_false, hsp, if_true, Option.bind_eq_bind, Option.bind_eq_some] at hr
  obtain ⟨t, h1, h2⟩ := hr
  exact ⟨t, h1, h2⟩

/-- A frame outside `STATE_INPUT` without the space bar. -/
theorem UpdateGame_idle (inp : Input) (s s1 : Game) (hI : s.currentState ≠ STATE_INPUT)
    (hsp : inp.space = false) (hr : UpdateGame inp s = some s1) :
    (if s.currentState ≠ STATE_PLAYING then some s else playFrame inp s) = some s1 := by
  simpa [UpdateGame, hI, hsp] using hr

theorem addPlayer_state (s : Game) : (addPlayer s).currentState = s.currentState := by
  simp only [addPlayer]
  split <;> rfl

/-- The state after the space-bar block, when it does not start the playing part. -/
theorem spaceBlock_state (inp : Input) (s t : Game) (hT : s.currentState ≠ STATE_TITLE)
    (hP : s.currentState ≠ STATE_PLAYING) (hI : s.currentState ≠ STATE_INPUT)
    (hr : spaceBlock inp s = some t) :
    t.currentState = STATE_TITLE ∨ t.currentState = STATE_VICTORY ∨ t.currentState = STATE_INPUT := by
  simp only [spaceBlock] at hr
  split at hr
  · rename_i h
    exact absurd h hT
  · simp only [levelDoneSpace] at hr
    split at hr
    · cases hr
      exact Or.inr (Or.inl (addPlayer_state _))
    · obtain ⟨cur, _, rfl⟩ := reset_some_eq _ _ _ hr
      exact Or.inl rfl
  · obtain ⟨cur, _, rfl⟩ := reset_some_eq _ _ _ hr
    exact Or.inl rfl
  · cases hr
    exact Or.inr (Or.inr rfl)
  · rename_i h1 h2 h3 h4
    cases hr
    cases hs : s.currentState <;> simp_all

/-- A frame that is not a frame of a level attempt and ends in a level ends in `STATE_TITLE`. -/
theorem regenerate_title (inp : Input) (s s1 : Game) (hf : ¬ attemptFrame inp s)
    (hr : UpdateGame inp s = some s1) (hin : inLevel s1) : s1.currentState = STATE_TITLE := by
  simp only [attemptFrame, not_or, not_and] at hf
  obtain ⟨hT, hP, hG⟩ := hf
  by_cases hI : s.currentState = STATE_INPUT
  · simp only [UpdateGame, hI, if_true] at hr
    obtain ⟨name, lc, he⟩ := nameEdit_name inp s
    simp only [UpdateInput, he] at hr
    split at hr
    · obtain ⟨cur, _, rfl⟩ := reset_some_eq _ _ _ hr
      rfl
    · cases hr
      simp [inLevel, hI] at hin
  · by_cases hsp : inp.space = true
    · obtain ⟨t, hb, hr2⟩ := UpdateGame_space inp s s1 hI hsp hr
      have hst := spaceBlock_state inp s t hT hP hI hb
      have hne : t.currentState ≠ STATE_PLAYING := by
        rcases hst with h | h | h <;> rw [h] <;> decide
      simp only [hne, ne_eq, not_false_eq_true, if_true, Option.some.injEq] at hr2
      subst hr2
      rcases hst with h | h | h
      · exact h
      · simp [inLevel, h] at hin
      · simp [inLevel, h] at hin
    · simp only [Bool.not_eq_true] at hsp
      have hr2 := UpdateGame_idle inp s s1 hI hsp hr
      simp only [ne_eq, hP, not_false_eq_true, if_true, Option.some.injEq] at hr2
      subst hr2
      rcases hin with h | h | h | h
      · exact h
      · exact absurd h hP
      · exact absurd hsp (by simpa using hG (Or.inr h))
      · exact absurd hsp (by simpa using hG (Or.inl h))

/-- Every reachable state in a level belongs to an attempt that started in a
reachable `STATE_TITLE` state. -/
theorem Reachable.attempt_start {s : Game} (hR : Reachable s) (hin : inLevel s) :
    ∃ s0, Reachable s0 ∧ s0.currentState = STATE_TITLE ∧ Attempt s0 s := by
  induction hR with
  | init => simp [inLevel, initGame] at hin
  | @step s s1 inp hRs hr ih =>
    by_cases hf : attemptFrame inp s
    · obtain ⟨s0, h0, h1, h2⟩ := ih (inLevel_of_attemptFrame inp s hf)
      exact ⟨s0, h0, h1, Attempt.step inp h2 hf hr⟩
    · exact ⟨s1, Reachable.step inp hRs hr, regenerate_title inp s s1 hf hr hin, Attempt.refl s1⟩

/-! ## The victory frame -/

theorem countTrue_mono_split (f g : Nat → Bool) (n : Nat) (h : ∀ i, f i = true → g i = true) :
    countTrue g n = countTrue f n + countTrue (fun i => g i && !f i) n := by
  have h1 : countTrue g n = countTrue (fun i => f i || (g i && !f i)) n := by
    apply countTrue_congr
    intro i _
    have := h i
    cases hf : f i <;> cases hg : g i <;> simp_all
  rw [h1]
  exact countTrue_or f _ n (fun i _ hp => by cases hf : f i <;> simp_all)

theorem takeWhile_append_nul (body rest : List Nat) (h : ∀ c ∈ body, c ≠ 0) :
    (body ++ 0 :: rest).takeWhile (fun c => c ≠ 0) = body := by
  induction body with
  | nil => simp
  | cons c body ih =>
    have hc : c ≠ 0 := h c (by simp)
    simp only [List.cons_append, List.takeWhile_cons, hc, ne_eq, not_false_eq_true, decide_True,
      if_true, List.cons.injEq, true_and]
    exact ih (fun d hd => h d (by simp [hd]))

/-- The name copied by `strcpy` is the string held by the source buffer. -/
theorem cstr_strcpy (dst src : List Nat) : cstr (strcpy dst src) = cstr src := by
  simp only [cstr, strcpy]
  apply takeWhile_append_nul
  intro c hc
  have := List.mem_takeWhile_imp hc
  simpa using this

theorem take_set_succ (ps : List PlayerData) (n : Nat) (e : PlayerData) (hn : n < ps.length) :
    (ps.set n e).take (n + 1) = ps.take n ++ [e] := by
  induction ps generalizing n with
  | nil => simp at hn
  | cons p ps ih =>
    cases n with
    | zero => simp
    | succ n => simpa using ih n (by simpa using hn)

/-- The space-bar frame that ends the last level, as one update of the globals. -/
theorem victory_frame (s : Game) (inp : Input) (hst : s.currentState = STATE_LEVEL_DONE)
    (hlvl : s.currentLevel + 1 ≥ MAX_LEVELS) (hsp : inp.space = true) :
    UpdateGame inp s = some
      { addPlayer { s with currentLevel := s.currentLevel + 1, currentState := STATE_VICTORY } with
        players := sortScoreboard
          (addPlayer { s with currentLevel := s.currentLevel + 1, currentState := STATE_VICTORY }).playerCount
          (addPlayer { s with currentLevel := s.currentLevel + 1, currentState := STATE_VICTORY }).players } := by
  simp [UpdateGame, hst, hsp, spaceBlock, levelDoneSpace, hlvl, addPlayer_state]

/-- The victory frame on a board with room: the new entry is appended and the
first `playerCount + 1` entries are sorted by the stable insertion sort. -/
theorem victory_append (s : Game) (inp : Input) (hlen : s.players.length = 10)
    (h0 : 0 ≤ s.playerCount) (h1 : s.playerCount < 10) (hst : s.currentState = STATE_LEVEL_DONE)
    (hlvl : s.currentLevel + 1 ≥ MAX_LEVELS) (hsp : inp.space = true) :
    ∃ s1, UpdateGame inp s = some s1 ∧ s1.currentState = STATE_VICTORY ∧
      s1.playerCount = s.playerCount + 1 ∧ s1.players.length = 10 ∧
      board s1 = (board s ++ [newEntry s]).insertionSort scoreGE ∧
      s1.players.drop (s.playerCount.toNat + 1) = s.players.drop (s.playerCount.toNat + 1) := by
  refine ⟨_, victory_frame s inp hst hlvl hsp, addPlayer_state _, ?_, ?_, ?_, ?_⟩
  all_goals simp only [addPlayer, MAX_PLAYERS, h1, if_true, board]
  · have hk : s.playerCount.toNat + 1 ≤ (s.players.set s.playerCount.toNat (newEntry s)).length := by
      rw [List.length_set]; omega
    have hcast : s.playerCount + 1 = ((s.playerCount.toNat + 1 : Nat) : Int) := by omega
    show (sortScoreboard (s.playerCount + 1) (s.players.set s.playerCount.toNat (newEntry s))).length = 10
    rw [hcast, sortScoreboard_length _ _ hk, List.length_set, hlen]
  · have hk : s.playerCount.toNat + 1 ≤ (s.players.set s.playerCount.toNat (newEntry s)).length := by
      rw [List.length_set]; omega
    have hcast : s.playerCount + 1 = ((s.playerCount.toNat + 1 : Nat) : Int) := by omega
    have htn : (s.playerCount + 1).toNat = s.playerCount.toNat + 1 := by omega
    show (sortScoreboard (s.playerCount + 1) (s.players.set s.playerCount.toNat (newEntry s))).take
      (s.playerCount + 1).toNat = _
    rw [htn, hcast, sortScoreboard_take _ _ hk, take_set_succ _ _ _ (by omega)]
  · have hk : s.playerCount.toNat + 1 ≤ (s.players.set s.playerCount.toNat (newEntry s)).length := by
      rw [List.length_set]; omega
    have hcast : s.playerCount + 1 = ((s.playerCount.toNat + 1 : Nat) : Int) := by omega
    show (sortScoreboard (s.playerCount + 1) (s.players.set s.playerCount.toNat (newEntry s))).drop
      (s.playerCount.toNat + 1) = _
    rw [hcast, sortScoreboard_eq_insertionSort _ _ hk,
      List.drop_left' (by rw [List.length_insertionSort, List.length_take]; omega)]
    simp [List.drop_set]

/-- A list sorted by descending score splits at any score `x` into the entries
with score at least `x` followed by the entries with score below `x`. -/
theorem sorted_split (l : List PlayerData) (x : Int) (h : l.Sorted scoreGE) :
    l.filter (fun p => decide (x ≤ p.score)) ++ l.filter (fun p => decide (p.score < x)) = l := by
  induction l with
  | nil => rfl
  | cons a l ih =>
    have hl := List.Sorted.of_cons h
    by_cases ha : x ≤ a.score
    · have hna : ¬ a.score < x := by omega
      simp only [List.filter_cons, ha, hna, decide_True, decide_False, if_true, List.cons_append]
      simp only [Bool.false_eq_true, if_false]
      rw [ih hl]
    · have hlt : a.score < x := by omega
      have hall : ∀ p ∈ l, p.score < x := fun p hp => by
        have := List.rel_of_sorted_cons h p hp
        simp only [scoreGE] at this
        omega
      have e1 : l.filter (fun p => decide (x ≤ p.score)) = [] := by
        rw [List.filter_eq_nil_iff]
        intro p hp
        have := hall p hp
        simp
        omega
      have e2 : l.filter (fun p => decide (p.score < x)) = l := by
        rw [List.filter_eq_self]
        intro p hp
        simpa using hall p hp
      simp [List.filter_cons, ha, hlt, e1, e2]

/-- Sorting a list with one more entry at its end puts that entry behind the
sorted entries with score at least its own and before the others. -/
theorem insertionSort_append_singleton (l : List PlayerData) (x : PlayerData) :
    (l ++ [x]).insertionSort scoreGE =
      (l.insertionSort scoreGE).filter (fun p => decide (x.score ≤ p.score)) ++
        x :: (l.insertionSort scoreGE).filter (fun p => decide (p.score < x.score)) := by
  have hs := sorted_insertionSort_scoreGE l
  generalize hL : l.insertionSort scoreGE = L at hs
  apply sorted_withScore_unique
  · exact sorted_insertionSort_scoreGE _
  · have hsplit := sorted_split L x.score hs
    have hsub1 : (L.filter (fun p => decide (x.score ≤ p.score))).Sorted scoreGE :=
      List.Sorted.filter _ hs
    have hsub2 : (L.filter (fun p => decide (p.score < x.score))).Sorted scoreGE :=
      List.Sorted.filter _ hs
    refine List.pairwise_append.2 ⟨hsub1, List.sorted_cons.2 ⟨?_, hsub2⟩, ?_⟩
    · intro p hp
      have := (List.mem_filter.1 hp).2
      simp only [decide_eq_true_eq] at this
      simp only [scoreGE]
      omega
    · intro a ha b hb
      have h1 := (List.mem_filter.1 ha).2
      simp only [decide_eq_true_eq] at h1
      rcases List.mem_cons.1 hb with rfl | hb
      · exact h1
      · have h2 := (List.mem_filter.1 hb).2
        simp only [decide_eq_true_eq] at h2
        simp only [scoreGE]
        omega
  · intro k
    rw [withScore_insertionSort, withScore_append, withScore_append, withScore_cons, withScore_cons,
      ← withScore_insertionSort k l, hL]
    have hsplit := congrArg (withScore k) (sorted_split L x.score hs)
    rw [withScore_append] at hsplit
    have hnil : withScore k [] = [] := rfl
    by_cases hk : x.score = k
    · have e : withScore k (L.filter (fun p => decide (p.score < x.score))) = [] := by
        simp only [withScore, List.filter_filter]
        rw [List.filter_eq_nil_iff]
        intro p _
        simp
        omega
      rw [e, List.append_nil] at hsplit
      rw [e, hsplit, hnil, if_pos hk]
    · rw [if_neg hk, hnil, List.nil_append, List.append_nil, List.nil_append, hsplit]

theorem insertionSort_sorted_eq (l : List PlayerData) (h : l.Sorted scoreGE) :
    l.insertionSort scoreGE = l :=
  sorted_withScore_unique _ _ (sorted_insertionSort_scoreGE l) h
    (fun k => withScore_insertionSort k l)

/-! ## Reachable states on level 0 -/

/-- A pipe that is still right of the hitbox after its scroll step touches
neither the avatar nor its orb, and is not passed. -/
theorem quiet_of_far (cur : LevelData) (inp : Input) (s : Game) (i : Nat)
    (hfar : 215 ≤ s.pipeX i - cur.speed) :
    hitNow cur inp s i = false ∧ orbNow cur inp s i = false ∧ passNow cur inp s i = false := by
  simp only [hitNow, orbNow, passNow, movePipe_eq, topPipe, botPipe, playerRect, orbHitbox,
    CheckCollisionRecs, PACMAN_X_POS, PACMAN_RADIUS, SCREEN_WIDTH, PIPE_WIDTH, Function.update_same]
  refine ⟨?_, ?_, ?_⟩
  · simp only [Bool.or_eq_false_iff, decide_eq_false_iff_not, not_and]
    constructor <;> intro h <;> exfalso <;> norm_num at h <;> linarith [h.1]
  · simp only [Bool.and_eq_false_iff, decide_eq_false_iff_not, not_and]
    right
    intro h
    exfalso
    norm_num at h
    linarith [h.2]
  · simp only [Bool.and_eq_false_iff, decide_eq_false_iff_not]
    right
    norm_num
    linarith

/-- The pipe loop when no pipe and no orb is touched: only the scroll, the
sine wave and the pass flags with their reward remain. -/
theorem pipeLoopResult_quiet (cur : LevelData) (inp : Input) (s : Game) (n : Nat)
    (hq : ∀ i, i < n → hitNow cur inp s i = false ∧ orbNow cur inp s i = false) :
    pipeLoopResult cur inp n s = { s with
      pipeX := fun j => if j < n then s.pipeX j - cur.speed else s.pipeX j,
      pipeGapY := fun j => if j < n then (movePipe cur inp j s).pipeGapY j else s.pipeGapY j,
      pipePassed := fun j => if j < n then (s.pipePassed j || passNow cur inp s j) else s.pipePassed j,
      currentSessionScore := s.currentSessionScore + countTrue (passNow cur inp s) n } := by
  apply Game.ext <;> simp only [pipeLoopResult]
  · have : (List.range n).any (hitNow cur inp s) = false := by
      rw [List.any_eq_false]
      intro i hi
      simp [(hq i (List.mem_range.1 hi)).1]
    simp [this]
  · rw [sum_slotGain, countTrue_eq_zero (orbNow cur inp s) n (fun i hi => (hq i hi).2)]
    simp
  · funext j
    split
    · rename_i hj
      simp [(hq j hj).2]
    · rfl

theorem UpdateGame_playing (inp : Input) (s : Game) (cur : LevelData)
    (hc : levelAt s.currentLevel = some cur) (hp : s.currentState = STATE_PLAYING) :
    UpdateGame inp s = some (playWith cur inp s) := by
  by_cases hsp : inp.space = true
  · simp [UpdateGame, hp, hsp, spaceBlock, playFrame, hc]
  · simp [UpdateGame, hp, hsp, playFrame, hc]

theorem UpdateGame_title_space (inp : Input) (s : Game) (cur : LevelData)
    (hc : levelAt s.currentLevel = some cur) (hp : s.currentState = STATE_TITLE)
    (hsp : inp.space = true) :
    UpdateGame inp s = some (playWith cur inp
      { s with currentState := STATE_PLAYING, pacmanVelocityY := JUMP_STRENGTH }) := by
  simp [UpdateGame, hp, hsp, spaceBlock, playFrame, hc]

/-- The frame that types "A" and confirms leads from the initial state to `demoTitle`. -/
theorem nameInput_frame : UpdateGame nameInput initGame = some demoTitle := by
  have hm : maxGapOf ⟨5, 3, 160, 2 / 5⟩ - 50 ≠ 0 := by simp [maxGapOf, SCREEN_HEIGHT, cTrunc_160]
  have hs : safeRangeOf ⟨5, 3, 160, 2 / 5⟩ = 120 := by simp [safeRangeOf, cTrunc_160]
  have hmax : maxGapOf ⟨5, 3, 160, 2 / 5⟩ = 240 := by simp [maxGapOf, SCREEN_HEIGHT, cTrunc_160]
  simp only [UpdateGame, UpdateInput, nameInput, idleInput, initGame, typeLoop, typeKey,
    ResetEntityPositions, levelAt_zero, Option.bind_eq_bind, Option.some_bind]
  simp only [resetWith_eq _ _ _ hm]
  simp
  apply Game.ext <;> simp [resetResult, demoTitle, initGame, SCREEN_HEIGHT, SCREEN_WIDTH, genGapY,
    genOrbRelY, hs, hmax]
  · norm_num
  · funext j
    split_ifs <;> ring

/-- A playing frame in which no pipe and no orb is touched and no slot is
newly passed, before the level is cleared: the avatar moves, the pipes
scroll (and oscillate on level index 1), nothing else changes. -/
theorem playWith_still (cur : LevelData) (inp : Input) (s : Game)
    (hq : ∀ i, i < cur.pipeCount.toNat →
      hitNow cur inp (boundsCheck (updatePlayer cur inp s)) i = false ∧
      orbNow cur inp (boundsCheck (updatePlayer cur inp s)) i = false ∧
      passNow cur inp (boundsCheck (updatePlayer cur inp s)) i = false)
    (hnd : (countTrue s.pipePassed cur.pipeCount.toNat : Int) < cur.pipeCount) :
    playWith cur inp s =
      { boundsCheck (updatePlayer cur inp s) with
        pipeX := fun j => if j < cur.pipeCount.toNat then s.pipeX j - cur.speed else s.pipeX j,
        pipeGapY := fun j => if j < cur.pipeCount.toNat then
          (movePipe cur inp j (boundsCheck (updatePlayer cur inp s))).pipeGapY j else s.pipeGapY j } := by
  have e1 : (boundsCheck (updatePlayer cur inp s)).pipePassed = s.pipePassed := by
    simp [boundsCheck_eq, updatePlayer]
  have e2 : (boundsCheck (updatePlayer cur inp s)).pipeX = s.pipeX := by
    simp [boundsCheck_eq, updatePlayer]
  have e3 : (boundsCheck (updatePlayer cur inp s)).pipeGapY = s.pipeGapY := by
    simp [boundsCheck_eq, updatePlayer]
  have e4 : (boundsCheck (updatePlayer cur inp s)).currentSessionScore = s.currentSessionScore := by
    simp [boundsCheck_eq, updatePlayer]
  rw [playWith_eq, pipeLoopResult_quiet _ _ _ _ (fun i hi => ⟨(hq i hi).1, (hq i hi).2.1⟩)]
  generalize boundsCheck (updatePlayer cur inp s) = s0 at *
  have hp : (fun j => if j < cur.pipeCount.toNat then (s.pipePassed j || passNow cur inp s0 j)
      else s.pipePassed j) = s.pipePassed := by
    funext j
    split
    · rename_i hj
      simp [(hq j hj).2.2]
    · rfl
  have hz : countTrue (passNow cur inp s0) cur.pipeCount.toNat = 0 :=
    countTrue_eq_zero _ _ (fun i hi => (hq i hi).2.2)
  simp only [e1, e2, e3, hp, hz]
  have hnd2 : ¬ ((countTrue s.pipePassed cur.pipeCount.toNat : Int) ≥ cur.pipeCount) := by omega
  simp only [hnd2, if_false]
  apply Game.ext <;> simp [e1, e2, e3, e4]

theorem climb_far (k : Nat) (hk : k ≤ 34) (i : Nat) (hi : i < 5) :
    215 ≤ (climb k).pipeX i - 3 := by
  have h1 : (k : ℚ) ≤ 34 := by exact_mod_cast hk
  have h2 : (0 : ℚ) ≤ (i : ℚ) := Nat.cast_nonneg i
  simp only [climb, hi, if_true]
  linarith

theorem demoTitle_far (i : Nat) (hi : i < 5) : 215 ≤ demoTitle.pipeX i - 3 := by
  have h2 : (0 : ℚ) ≤ (i : ℚ) := Nat.cast_nonneg i
  simp only [demoTitle, hi, if_true]
  linarith

theorem still_of_far (inp : Input) (s : Game) (hfar : ∀ i, i < 5 → 215 ≤ s.pipeX i - 3) (i : Nat)
    (hi : i < (5 : Int).toNat) :
    hitNow ⟨5, 3, 160, 2 / 5⟩ inp (boundsCheck (updatePlayer ⟨5, 3, 160, 2 / 5⟩ inp s)) i = false ∧
    orbNow ⟨5, 3, 160, 2 / 5⟩ inp (boundsCheck (updatePlayer ⟨5, 3, 160, 2 / 5⟩ inp s)) i = false ∧
    passNow ⟨5, 3, 160, 2 / 5⟩ inp (boundsCheck (updatePlayer ⟨5, 3, 160, 2 / 5⟩ inp s)) i = false := by
  apply quiet_of_far
  have := hfar i (by simpa using hi)
  simpa [boundsCheck_eq, updatePlayer] using this

theorem countTrue_false (n : Nat) : countTrue (fun _ => false) n = 0 :=
  countTrue_eq_zero _ _ (fun _ _ => rfl)

/-- The frame with SPACE that starts level 0 leads from `demoTitle` to `climb 0`. -/
theorem title_frame : UpdateGame spaceInput demoTitle = some (climb 0) := by
  rw [UpdateGame_title_space spaceInput demoTitle ⟨5, 3, 160, 2 / 5⟩ rfl rfl rfl,
    playWith_still]
  · congr 1
    apply Game.ext <;> simp [climb, demoTitle, initGame, boundsCheck_eq, updatePlayer, outOfBounds,
      spaceInput, idleInput, movePipe_eq, JUMP_STRENGTH, PACMAN_RADIUS, SCREEN_HEIGHT]
    · norm_num
    · norm_num
    · norm_num
    · funext j
      split_ifs <;> ring
  · exact still_of_far spaceInput _ demoTitle_far
  · simp [demoTitle, initGame, countTrue_false]

/-- A frame with SPACE leads from `climb k` to `climb (k + 1)`. -/
theorem climb_frame (k : Nat) (hk : k < 34) : UpdateGame spaceInput (climb k) = some (climb (k + 1)) := by
  have hp : (climb k).currentState = STATE_PLAYING := by simp [climb, hk]
  rw [UpdateGame_playing spaceInput (climb k) ⟨5, 3, 160, 2 / 5⟩ rfl hp, playWith_still]
  · congr 1
    apply Game.ext <;> simp [climb, demoTitle, initGame, boundsCheck_eq, updatePlayer, outOfBounds,
      spaceInput, idleInput, movePipe_eq, JUMP_STRENGTH, PACMAN_RADIUS, SCREEN_HEIGHT, hk]
    · by_cases h : k + 1 < 34
      · have h1 : (k : ℚ) ≤ 32 := by exact_mod_cast (by omega : k ≤ 32)
        have h2 : (0 : ℚ) ≤ (k : ℚ) := Nat.cast_nonneg k
        rw [if_neg (by rintro (h3 | h3) <;> linarith), if_pos h]
      · have h1 : (k : ℚ) = 33 := by exact_mod_cast (by omega : k = 33)
        rw [if_pos (Or.inl (by rw [h1]; norm_num)), if_neg h]
    · ring
    · ring
    · funext j
      split_ifs <;> ring
  · exact still_of_far spaceInput _ (climb_far k (by omega))
  · simp [climb, demoTitle, initGame, countTrue_false]

/-- The states `demoTitle` and `climb k`, `k ≤ 34`, are reachable. -/
theorem demoTitle_reachable : Reachable demoTitle :=
  Reachable.step nameInput Reachable.init nameInput_frame

theorem climb_reachable (k : Nat) (hk : k ≤ 34) : Reachable (climb k) := by
  induction k with
  | zero => exact Reachable.step spaceInput demoTitle_reachable title_frame
  | succ k ih => exact Reachable.step spaceInput (ih (by omega)) (climb_frame k (by omega))

theorem climb_attempt (k : Nat) (hk : k ≤ 34) : Attempt demoTitle (climb k) := by
  induction k with
  | zero => exact Attempt.step spaceInput (Attempt.refl _) (Or.inl rfl) title_frame
  | succ k ih =>
    have hp : (climb k).currentState = STATE_PLAYING := by simp [climb, (by omega : k < 34)]
    exact Attempt.step spaceInput (ih (by omega)) (Or.inr (Or.inl hp)) (climb_frame k (by omega))

/-! ## A complete flight through level 0 -/

/-- A slot whose gap contains the hitbox vertically, with its orb above the
hitbox, touches neither the avatar nor its orb (off level index 1). -/
theorem quiet_of_gap (cur : LevelData) (inp : Input) (s : Game) (i : Nat)
    (hl : s.currentLevel ≠ 1) (h1 : s.pipeGapY i ≤ s.pacmanY - 15)
    (h2 : s.pacmanY + 15 ≤ s.pipeGapY i + cur.gapSize)
    (h3 : s.pipeGapY i + s.orbRelY i + 5 ≤ s.pacmanY - 15) :
    hitNow cur inp s i = false ∧ orbNow cur inp s i = false := by
  simp only [hitNow, orbNow, movePipe_eq, hl, if_false, topPipe, botPipe, playerRect, orbHitbox,
    CheckCollisionRecs, PACMAN_X_POS, PACMAN_RADIUS, SCREEN_WIDTH, PIPE_WIDTH, SCREEN_HEIGHT,
    Function.update_same]
  refine ⟨?_, ?_⟩
  · simp only [Bool.or_eq_false_iff, decide_eq_false_iff_not, not_and]
    constructor
    · intro _ _ h
      exfalso
      linarith
    · intro _ h
      exfalso
      linarith
  · simp only [Bool.and_eq_false_iff, decide_eq_false_iff_not, not_and]
    right
    intro _ h
    exfalso
    linarith

/-- A playing frame in which no pipe and no orb is touched. -/
theorem playWith_clear (cur : LevelData) (inp : Input) (s : Game)
    (hq : ∀ i, i < cur.pipeCount.toNat →
      hitNow cur inp (boundsCheck (updatePlayer cur inp s)) i = false ∧
      orbNow cur inp (boundsCheck (updatePlayer cur inp s)) i = false) :
    playWith cur inp s =
      { boundsCheck (updatePlayer cur inp s) with
        pipeX := fun j => if j < cur.pipeCount.toNat then s.pipeX j - cur.speed else s.pipeX j,
        pipeGapY := fun j => if j < cur.pipeCount.toNat then
          (movePipe cur inp j (boundsCheck (updatePlayer cur inp s))).pipeGapY j else s.pipeGapY j,
        pipePassed := fun j => if j < cur.pipeCount.toNat then
          (s.pipePassed j || passNow cur inp (boundsCheck (updatePlayer cur inp s)) j)
          else s.pipePassed j,
        currentSessionScore := s.currentSessionScore +
          countTrue (passNow cur inp (boundsCheck (updatePlayer cur inp s))) cur.pipeCount.toNat,
        currentState :=
          if (countTrue (fun j => if j < cur.pipeCount.toNat then
                (s.pipePassed j || passNow cur inp (boundsCheck (updatePlayer cur inp s)) j)
                else s.pipePassed j) cur.pipeCount.toNat : Int) ≥ cur.pipeCount
          then STATE_LEVEL_DONE else (boundsCheck (updatePlayer cur inp s)).currentState } := by
  have e1 : (boundsCheck (updatePlayer cur inp s)).pipePassed = s.pipePassed := by
    simp [boundsCheck_eq, updatePlayer]
  have e2 : (boundsCheck (updatePlayer cur inp s)).pipeX = s.pipeX := by
    simp [boundsCheck_eq, updatePlayer]
  have e3 : (boundsCheck (updatePlayer cur inp s)).pipeGapY = s.pipeGapY := by
    simp [boundsCheck_eq, updatePlayer]
  have e4 : (boundsCheck (updatePlayer cur inp s)).currentSessionScore = s.currentSessionScore := by
    simp [boundsCheck_eq, updatePlayer]
  rw [playWith_eq, pipeLoopResult_quiet _ _ _ _ hq]
  simp only [e1, e2, e3, e4]

theorem flightPhase_lt (t : Nat) (h : t < 10) : flightPhase t = t - 1 := by
  unfold flightPhase
  rw [if_pos h]

theorem flightPhase_mid (t : Nat) (h1 : 10 ≤ t) (h2 : t ≤ 722) : flightPhase t = (t - 10) % 31 := by
  unfold flightPhase
  rw [if_neg (by omega), if_pos h2]

theorem flightPhase_last (t : Nat) (h : 722 < t) : flightPhase t = t - 692 := by
  unfold flightPhase
  rw [if_neg (by omega), if_neg (by omega)]

theorem flightBase_lt (t : Nat) (h : t < 10) : flightBase t = 225 := by
  unfold flightBase
  rw [if_pos h]

theorem flightBase_ge (t : Nat) (h : 10 ≤ t) : flightBase t = 927 / 5 := by
  unfold flightBase
  rw [if_neg (by omega)]

/-- From one state of the demo flight to the next: either no jump, and the
phase grows by one, or a jump from the top of the orbit. -/
theorem flight_schedule (t : Nat) (h1 : 1 ≤ t) (h2 : t ≤ 722) :
    (flightJump (t + 1) = false ∧ flightPhase (t + 1) = flightPhase t + 1 ∧
      flightBase (t + 1) = flightBase t) ∨
    (flightJump (t + 1) = true ∧ flightPhase (t + 1) = 0 ∧
      flightBase (t + 1) = (flight t).pacmanY) := by
  rcases (by omega : t + 1 < 10 ∨ t = 9 ∨ (10 ≤ t ∧ t + 1 ≤ 722 ∧ (t - 10) % 31 = 30) ∨
      (10 ≤ t ∧ t + 1 ≤ 722 ∧ (t - 10) % 31 < 30) ∨ t = 722) with h | h | h | h | h
  · left
    have hj : ¬ (t + 1 = 1 ∨ (10 ≤ t + 1 ∧ t + 1 ≤ 692 ∧ (t + 1 - 10) % 31 = 0)) := by omega
    refine ⟨decide_eq_false hj, ?_, ?_⟩
    · rw [flightPhase_lt _ h, flightPhase_lt _ (by omega)]
      omega
    · rw [flightBase_lt _ h, flightBase_lt _ (by omega)]
  · right
    subst h
    refine ⟨by decide, by decide, ?_⟩
    simp only [flight]
    rw [flightBase_ge _ (by decide), flightBase_lt _ (by decide), flightPhase_lt _ (by decide)]
    norm_num
  · right
    obtain ⟨ha, hb, hc⟩ := h
    have hj : t + 1 = 1 ∨ (10 ≤ t + 1 ∧ t + 1 ≤ 692 ∧ (t + 1 - 10) % 31 = 0) := by omega
    refine ⟨decide_eq_true hj, ?_, ?_⟩
    · rw [flightPhase_mid _ (by omega) hb]
      omega
    · simp only [flight]
      rw [flightBase_ge _ (by omega), flightBase_ge _ ha, flightPhase_mid _ ha (by omega), hc]
      norm_num
  · left
    obtain ⟨ha, hb, hc⟩ := h
    have hj : ¬ (t + 1 = 1 ∨ (10 ≤ t + 1 ∧ t + 1 ≤ 692 ∧ (t + 1 - 10) % 31 = 0)) := by omega
    refine ⟨decide_eq_false hj, ?_, ?_⟩
    · rw [flightPhase_mid _ (by omega) hb, flightPhase_mid _ ha (by omega)]
      omega
    · rw [flightBase_ge _ (by omega), flightBase_ge _ ha]
  · left
    subst h
    exact ⟨by decide, by decide, by rw [flightBase_ge _ (by decide), flightBase_ge _ (by decide)]⟩

/-- The avatar integration of a frame of the demo flight. -/
theorem flight_kinematics (t : Nat) (h1 : 1 ≤ t) (h2 : t ≤ 722) :
    (if flightJump (t + 1) = true then JUMP_STRENGTH else (flight t).pacmanVelocityY + 2 / 5)
      = (flight (t + 1)).pacmanVelocityY ∧
    (flight t).pacmanY +
        (if flightJump (t + 1) = true then JUMP_STRENGTH else (flight t).pacmanVelocityY + 2 / 5)
      = (flight (t + 1)).pacmanY := by
  rcases flight_schedule t h1 h2 with ⟨hj, hp, hb⟩ | ⟨hj, hp, hb⟩
  · simp only [hj, Bool.false_eq_true, if_false]
    simp only [flight, hp, hb]
    push_cast
    constructor <;> ring
  · simp only [hj, if_true, JUMP_STRENGTH]
    constructor
    · simp only [flight, hp]
      norm_num
    · rw [← hb]
      simp only [flight, hp]
      norm_num

theorem flightPhase_le (t : Nat) (h2 : t ≤ 723) : flightPhase t ≤ 31 := by
  simp only [flightPhase]
  split_ifs <;> omega

/-- The avatar of the demo flight stays between 137 and 226. -/
theorem flight_y_bounds (t : Nat) (h2 : t ≤ 723) :
    137 ≤ (flight t).pacmanY ∧ (flight t).pacmanY ≤ 232 ∧
    (10 ≤ t → (flight t).pacmanY ≤ 192) := by
  have hn : (flightPhase t : ℚ) ≤ 31 := by exact_mod_cast flightPhase_le t h2
  have hn0 : (0 : ℚ) ≤ (flightPhase t : ℚ) := Nat.cast_nonneg _
  have hb : flightBase t = 225 ∨ flightBase t = 927 / 5 := by
    simp only [flightBase]
    split_ifs
    · exact Or.inl rfl
    · exact Or.inr rfl
  simp only [flight]
  refine ⟨?_, ?_, ?_⟩
  · rcases hb with hb | hb <;> rw [hb] <;> nlinarith [sq_nonneg ((flightPhase t : ℚ) - 29 / 2)]
  · rcases hb with hb | hb <;> rw [hb] <;>
      nlinarith [mul_nonneg hn0 (sub_nonneg.2 hn)]
  · intro h10
    rw [flightBase_ge t h10]
    nlinarith [mul_nonneg hn0 (sub_nonneg.2 hn)]

theorem passNow_flight (inp : Input) (t : Nat) (s0 : Game) (j : Nat) (hj : j < 5)
    (hx : s0.pipeX = (flight t).pipeX) (hp : s0.pipePassed = (flight t).pipePassed) :
    passNow ⟨5, 3, 160, 2 / 5⟩ inp s0 j
      = (!decide (970 + 300 * j < 3 * t) && decide (970 + 300 * j < 3 * (t + 1))) := by
  have e : ((1100 : ℚ) + 300 * (j : ℚ) - 3 * (t : ℚ) - 3 + 70 < 800 / 4) ↔
      970 + 300 * j < 3 * (t + 1) := by
    constructor
    · intro h
      have h' : ((970 + 300 * j : Nat) : ℚ) < ((3 * (t + 1) : Nat) : ℚ) := by
        push_cast
        linarith
      exact_mod_cast h'
    · intro h
      have h' : ((970 + 300 * j : Nat) : ℚ) < ((3 * (t + 1) : Nat) : ℚ) := by exact_mod_cast h
      push_cast at h'
      linarith
  simp only [passNow, movePipe_eq, hx, hp, flight, hj, if_true, Function.update_same, PIPE_WIDTH,
    PACMAN_X_POS, SCREEN_WIDTH, true_and]
  push_cast
  simp only [e]

/-- One frame of the demo flight. -/
theorem flight_frame (t : Nat) (h1 : 1 ≤ t) (h2 : t ≤ 722) :
    UpdateGame (flightInput (t + 1)) (flight t) = some (flight (t + 1)) := by
  obtain ⟨hv, hy⟩ := flight_kinematics t h1 h2
  obtain ⟨hy1, hy2, hy3⟩ := flight_y_bounds (t + 1) (by omega)
  have f_y : (boundsCheck (updatePlayer ⟨5, 3, 160, 2 / 5⟩ (flightInput (t + 1)) (flight t))).pacmanY
      = (flight (t + 1)).pacmanY := by
    simp only [boundsCheck_eq, updatePlayer, flightInput]
    exact hy
  have f_v : (boundsCheck (updatePlayer ⟨5, 3, 160, 2 / 5⟩ (flightInput (t + 1)) (flight t))).pacmanVelocityY
      = (flight (t + 1)).pacmanVelocityY := by
    simp only [boundsCheck_eq, updatePlayer, flightInput]
    exact hv
  have f_st : (boundsCheck (updatePlayer ⟨5, 3, 160, 2 / 5⟩ (flightInput (t + 1)) (flight t))).currentState
      = STATE_PLAYING := by
    have hb : outOfBounds (updatePlayer ⟨5, 3, 160, 2 / 5⟩ (flightInput (t + 1)) (flight t)) = false := by
      have hy' : (updatePlayer ⟨5, 3, 160, 2 / 5⟩ (flightInput (t + 1)) (flight t)).pacmanY
          = (flight (t + 1)).pacmanY := by
        simp only [updatePlayer, flightInput]
        exact hy
      simp only [outOfBounds, hy', PACMAN_RADIUS, SCREEN_HEIGHT, decide_eq_false_iff_not]
      push_cast
      rintro (h | h) <;> linarith
    simp only [boundsCheck_eq, hb]
    rfl
  have f_x : (boundsCheck (updatePlayer ⟨5, 3, 160, 2 / 5⟩ (flightInput (t + 1)) (flight t))).pipeX
      = (flight t).pipeX := by simp [boundsCheck_eq, updatePlayer]
  have f_p : (boundsCheck (updatePlayer ⟨5, 3, 160, 2 / 5⟩ (flightInput (t + 1)) (flight t))).pipePassed
      = (flight t).pipePassed := by simp [boundsCheck_eq, updatePlayer]
  have f_g : (boundsCheck (updatePlayer ⟨5, 3, 160, 2 / 5⟩ (flightInput (t + 1)) (flight t))).pipeGapY
      = demoTitle.pipeGapY := by simp [boundsCheck_eq, updatePlayer, flight]
  have f_o : (boundsCheck (updatePlayer ⟨5, 3, 160, 2 / 5⟩ (flightInput (t + 1)) (flight t))).orbRelY
      = demoTitle.orbRelY := by simp [boundsCheck_eq, updatePlayer, flight]
  have f_l : (boundsCheck (updatePlayer ⟨5, 3, 160, 2 / 5⟩ (flightInput (t + 1)) (flight t))).currentLevel
      = 0 := by simp [boundsCheck_eq, updatePlayer, flight, demoTitle, initGame]
  have hq : ∀ i, i < (5 : Int).toNat →
      hitNow ⟨5, 3, 160, 2 / 5⟩ (flightInput (t + 1))
        (boundsCheck (updatePlayer ⟨5, 3, 160, 2 / 5⟩ (flightInput (t + 1)) (flight t))) i = false ∧
      orbNow ⟨5, 3, 160, 2 / 5⟩ (flightInput (t + 1))
        (boundsCheck (updatePlayer ⟨5, 3, 160, 2 / 5⟩ (flightInput (t + 1)) (flight t))) i = false := by
    intro i hi
    have hi5 : i < 5 := by simpa using hi
    by_cases h10 : t + 1 < 10
    · have := quiet_of_far ⟨5, 3, 160, 2 / 5⟩ (flightInput (t + 1))
        (boundsCheck (updatePlayer ⟨5, 3, 160, 2 / 5⟩ (flightInput (t + 1)) (flight t))) i (by
          rw [f_x]
          simp only [flight, hi5, if_true]
          have ht : (t : ℚ) ≤ 8 := by exact_mod_cast (by omega : t ≤ 8)
          have h0 : (0 : ℚ) ≤ (i : ℚ) := Nat.cast_nonneg i
          linarith)
      exact ⟨this.1, this.2.1⟩
    · have hle := hy3 (by omega)
      apply quiet_of_gap
      · rw [f_l]
        decide
      · rw [f_y, f_g]
        simp only [demoTitle, hi5, if_true]
        linarith
      · rw [f_y, f_g]
        simp only [demoTitle, hi5, if_true]
        linarith
      · rw [f_y, f_g, f_o]
        simp only [demoTitle, hi5, if_true]
        linarith
  rw [UpdateGame_playing _ (flight t) ⟨5, 3, 160, 2 / 5⟩ rfl rfl, playWith_clear _ _ _ hq]
  have hpn := fun j hj => passNow_flight (flightInput (t + 1)) t
    (boundsCheck (updatePlayer ⟨5, 3, 160, 2 / 5⟩ (flightInput (t + 1)) (flight t))) j hj f_x f_p
  have hpass : (fun j => if j < (5 : Int).toNat then
        ((flight t).pipePassed j || passNow ⟨5, 3, 160, 2 / 5⟩ (flightInput (t + 1))
          (boundsCheck (updatePlayer ⟨5, 3, 160, 2 / 5⟩ (flightInput (t + 1)) (flight t))) j)
      else (flight t).pipePassed j) = (flight (t + 1)).pipePassed := by
    funext j
    by_cases hj : j < 5
    · have hj' : j < (5 : Int).toNat := by simpa using hj
      rw [if_pos hj', hpn j hj]
      simp only [flight, hj, true_and]
      by_cases hA : 970 + 300 * j < 3 * t
      · have hB : 970 + 300 * j < 3 * (t + 1) := by omega
        simp [hA, hB]
      · simp [hA]
    · have hj' : ¬ j < (5 : Int).toNat := by simpa using hj
      rw [if_neg hj']
      simp [flight, hj]
  have hscore : (flight t).currentSessionScore + (countTrue (passNow ⟨5, 3, 160, 2 / 5⟩
        (flightInput (t + 1))
        (boundsCheck (updatePlayer ⟨5, 3, 160, 2 / 5⟩ (flightInput (t + 1)) (flight t))))
        (5 : Int).toNat : Int) = (flight (t + 1)).currentSessionScore := by
    have h5 : (5 : Int).toNat = 5 := rfl
    rw [h5]
    simp only [flight]
    have hor := countTrue_or (fun i => decide (970 + 300 * i < 3 * t))
      (passNow ⟨5, 3, 160, 2 / 5⟩ (flightInput (t + 1))
        (boundsCheck (updatePlayer ⟨5, 3, 160, 2 / 5⟩ (flightInput (t + 1)) (flight t)))) 5
      (fun i hi hp => by
        rw [hpn i hi] at hp
        simp only [Bool.and_eq_true, Bool.not_eq_true', decide_eq_false_iff_not] at hp
        simpa using hp.1)
    have hcong : countTrue (fun j => decide (970 + 300 * j < 3 * t) ||
        passNow ⟨5, 3, 160, 2 / 5⟩ (flightInput (t + 1))
          (boundsCheck (updatePlayer ⟨5, 3, 160, 2 / 5⟩ (flightInput (t + 1)) (flight t))) j) 5
        = countTrue (fun i => decide (970 + 300 * i < 3 * (t + 1))) 5 := by
      apply countTrue_congr
      intro i hi
      rw [hpn i hi]
      by_cases hA : 970 + 300 * i < 3 * t
      · have hB : 970 + 300 * i < 3 * (t + 1) := by omega
        simp [hA, hB]
      · simp [hA]
    rw [← hcong, hor]
    push_cast
    rfl
  have hnd : ¬ ((countTrue (flight (t + 1)).pipePassed (5 : Int).toNat : Int) ≥ 5) := by
    have h5 : (5 : Int).toNat = 4 + 1 := rfl
    have h4 : (flight (t + 1)).pipePassed 4 = false := by
      simp only [flight, decide_eq_false_iff_not]
      omega
    have hle := countTrue_le (flight (t + 1)).pipePassed 4
    rw [h5, countTrue_succ, h4]
    simp only [Bool.false_eq_true, if_false]
    omega
  simp only [f_p, hpass, f_x, f_g, hnd, if_false, f_st]
  congr 1
  apply Game.ext
  case currentSessionScore => exact hscore
  case pacmanY => exact f_y
  case pacmanVelocityY => exact f_v
  case animationTime =>
    simp only [boundsCheck_eq, updatePlayer, flight, flightInput, idleInput]
    push_cast
    ring
  case pipeX =>
    funext j
    by_cases hj : j < 5
    · have hj' : j < (5 : Int).toNat := by simpa using hj
      simp only [flight, hj, hj', if_true]
      push_cast
      ring
    · have hj' : ¬ j < (5 : Int).toNat := by simpa using hj
      simp only [flight, hj, hj', if_false]
  case pipeGapY =>
    funext j
    have hm : ∀ s : Game, s.currentLevel = 0 → (movePipe ⟨5, 3, 160, 2 / 5⟩ (flightInput (t + 1)) j s).pipeGapY j
        = s.pipeGapY j := by
      intro s hs
      simp [movePipe_eq, hs]
    dsimp only
    rw [hm _ f_l, f_g]
    simp [flight]
  all_goals simp [boundsCheck_eq, updatePlayer, flight, demoTitle, flightInput, idleInput, initGame]

theorem flight_one : flight 1 = climb 0 := by
  apply Game.ext <;> simp [flight, climb, demoTitle, initGame, flightPhase, flightBase, countTrue]
  · intro a _
    omega
  · norm_num
  · funext i
    simp only [Bool.and_eq_false_iff, decide_eq_false_iff_not]
    right
    omega

theorem flightInput_one : flightInput 1 = spaceInput := by
  simp [flightInput, spaceInput, flightJump]

/-- Every state of the demo flight is reachable, within one level attempt from `demoTitle`. -/
theorem flight_reachable (t : Nat) (h1 : 1 ≤ t) (h2 : t ≤ 723) :
    Reachable (flight t) ∧ Attempt demoTitle (flight t) := by
  induction t with
  | zero => omega
  | succ t ih =>
    by_cases h0 : t = 0
    · subst h0
      rw [flight_one]
      exact ⟨climb_reachable 0 (by decide), climb_attempt 0 (by decide)⟩
    · obtain ⟨hR, hA⟩ := ih (by omega) (by omega)
      have hf := flight_frame t (by omega) (by omega)
      exact ⟨Reachable.step _ hR hf, Attempt.step _ hA (Or.inr (Or.inl rfl)) hf⟩

/-! ## C1: collision and level clear in the same frame -/

theorem range5 : List.range 5 = [0, 1, 2, 3, 4] := rfl

/-- C1 (evaluation of the code at the failing input): the state after 723
frames of the demo flight is reachable and in `STATE_PLAYING`; in the next
frame, with no key pressed, the hitbox overlaps the bottom pipe of slot 4
after integration and scroll, the same frame marks slot 4 passed, and the
frame ends in `STATE_LEVEL_DONE`, not in `STATE_GAMEOVER`. -/
theorem collision_frame_ends_level_done :
    Reachable (flight 723) ∧ (flight 723).currentState = STATE_PLAYING ∧
    levelAt (flight 723).currentLevel = some ⟨5, 3, 160, 2 / 5⟩ ∧
    slotHit ⟨5, 3, 160, 2 / 5⟩ idleInput (flight 723) 4 = true ∧
    (UpdateGame idleInput (flight 723)).map (fun s => s.currentState) = some STATE_LEVEL_DONE := by
  refine ⟨(flight_reachable 723 (by decide) (by decide)).1, rfl, rfl, ?_, ?_⟩
  · simp [slotHit, hitNow, movePipe, updatePlayer, flight, flightPhase, flightBase, demoTitle,
      idleInput, initGame, CheckCollisionRecs, topPipe, botPipe, playerRect, PACMAN_X_POS,
      PACMAN_RADIUS, SCREEN_WIDTH, SCREEN_HEIGHT, PIPE_WIDTH]
    norm_num
  · simp [UpdateGame, playFrame, playWith, pipeLoop, range5, pipeStep, passPipe, collectOrb, hitPipe,
      movePipe, updatePlayer, boundsCheck, outOfBounds, flight, flightPhase, flightBase, demoTitle,
      idleInput, initGame, CheckCollisionRecs, topPipe, botPipe, playerRect, orbHitbox,
      PACMAN_X_POS, PACMAN_RADIUS, SCREEN_WIDTH, SCREEN_HEIGHT, PIPE_WIDTH, levelAt, levels,
      SetupLevels, Function.update]
    norm_num

/-! ## C2: the modulus of the gap draw -/

theorem cTrunc_pos_bounds (q : ℚ) (h : 0 ≤ q) : ((cTrunc q : Int) : ℚ) ≤ q ∧ q < (cTrunc q : Int) + 1 := by
  simp only [cTrunc, h, if_true]
  exact ⟨Int.floor_le q, Int.lt_floor_add_one q⟩

/-- The conversion `(int)gapSize` of a gap size in `[0, 2^31)`, and the two
sides of the gap size 350. -/
theorem cTrunc_gap (q : ℚ) (h0 : 0 ≤ q) (h1 : q < 2147483648) :
    0 ≤ cTrunc q ∧ cTrunc q < 2147483648 ∧ (q < 350 → cTrunc q ≤ 349) ∧
    (351 ≤ q → 351 ≤ cTrunc q) := by
  obtain ⟨t1, t2⟩ := cTrunc_pos_bounds q h0
  have a0 : 0 ≤ cTrunc q := by
    simp only [cTrunc, h0, if_true]
    exact Int.floor_nonneg.2 h0
  refine ⟨a0, ?_, fun h => ?_, fun h => ?_⟩
  · have : ((cTrunc q : Int) : ℚ) < ((2147483648 : Int) : ℚ) := by
      push_cast
      linarith
    exact_mod_cast this
  · have : ((cTrunc q : Int) : ℚ) < ((350 : Int) : ℚ) := by
      push_cast
      linarith
    have h2 : cTrunc q < 350 := by exact_mod_cast this
    omega
  · have : ((350 : Int) : ℚ) < ((cTrunc q : Int) : ℚ) := by
      push_cast
      linarith
    have h2 : 350 < cTrunc q := by exact_mod_cast this
    omega

/-- C2 (the claim fails at a level spec with positive gap size): for the
level spec with `gapSize = 350` the upper bound `maxGap` is 50, which is
`minGap`; the safety check `maxGap < minGap` does not fire, the modulus
`maxGap - minGap` is zero, not positive, and the first iteration of the reset
loop divides by zero. -/
theorem gap_modulus_zero_at_350 :
    (0 : ℚ) < (⟨1, 3, 350, 2 / 5⟩ : LevelData).gapSize ∧
    maxGapOf ⟨1, 3, 350, 2 / 5⟩ = 50 ∧ gapModulus ⟨1, 3, 350, 2 / 5⟩ = 0 ∧
    ¬ (0 < gapModulus ⟨1, 3, 350, 2 / 5⟩) ∧
    ∀ (rand : Nat → Int) (s : Game), resetWith ⟨1, 3, 350, 2 / 5⟩ rand s = none := by
  have hmax : maxGapOf ⟨1, 3, 350, 2 / 5⟩ = 50 := by simp [maxGapOf, SCREEN_HEIGHT, cTrunc_350]
  have hm : gapModulus ⟨1, 3, 350, 2 / 5⟩ = 0 := by rw [gapModulus, hmax]; rfl
  refine ⟨by norm_num, hmax, hm, by rw [hm]; decide, fun rand s => ?_⟩
  have h1 : List.range 1 = [0] := rfl
  have hz : maxGapOf ⟨1, 3, 350, 2 / 5⟩ - 50 = 0 := hm
  simp [resetWith, h1, resetSlot, cMod, hz]

/-- C2, amended: for a level spec whose gap size is positive, below `2^31`
(so that `(int)gapSize` is an `int`) and outside `[350, 351)`, the range of
the gap draw is not empty and not inverted and its modulus is positive. Below
350, the range that holds the catalog values 160 and 150, the safety check
does not fire, `maxGap` is `400 - (int)gapSize`, the modulus is
`350 - (int)gapSize`, and with at most `MAX_PIPES` slots the reset returns.
From 351 on the safety check fires, `maxGap` is 60 and the modulus is 10. -/
theorem gap_modulus_positive (cur : LevelData) (rand : Nat → Int) (s : Game)
    (hg : 0 < cur.gapSize) (hint : cur.gapSize < 2147483648)
    (h350 : cur.gapSize < 350 ∨ 351 ≤ cur.gapSize) :
    (0 ≤ cTrunc cur.gapSize ∧ cTrunc cur.gapSize < 2147483648) ∧
    (cur.gapSize < 350 →
      maxGapOf cur = 400 - cTrunc cur.gapSize ∧ gapModulus cur = 350 - cTrunc cur.gapSize ∧
      (cur.pipeCount ≤ (MAX_PIPES : Int) → ∃ s1, resetWith cur rand s = some s1)) ∧
    (351 ≤ cur.gapSize → maxGapOf cur = 60 ∧ gapModulus cur = 10) ∧
    50 < maxGapOf cur ∧ 0 < gapModulus cur := by
  obtain ⟨c0, c1, c2, c3⟩ := cTrunc_gap cur.gapSize hg.le hint
  have hA : cur.gapSize < 350 → maxGapOf cur = 400 - cTrunc cur.gapSize := by
    intro h
    have := c2 h
    simp only [maxGapOf, SCREEN_HEIGHT]
    split <;> omega
  have hB : 351 ≤ cur.gapSize → maxGapOf cur = 60 := by
    intro h
    have := c3 h
    simp only [maxGapOf, SCREEN_HEIGHT]
    split <;> omega
  have hpos : 50 < maxGapOf cur := by
    rcases h350 with h | h
    · rw [hA h]
      have := c2 h
      omega
    · rw [hB h]
      decide
  refine ⟨⟨c0, c1⟩, fun h => ⟨hA h, ?_, fun _ => ⟨_, resetWith_eq cur rand s ?_⟩⟩,
    fun h => ⟨hB h, ?_⟩, hpos, ?_⟩
  · rw [gapModulus, hA h]
    ring
  · omega
  · rw [gapModulus, hB h]
    rfl
  · rw [gapModulus]
    omega

theorem gap_modulus_positive_witness :
    (0 : ℚ) < (⟨5, 3, 160, 2 / 5⟩ : LevelData).gapSize ∧
    (⟨5, 3, 160, 2 / 5⟩ : LevelData).gapSize < 350 ∧
    gapModulus ⟨5, 3, 160, 2 / 5⟩ = 350 - cTrunc 160 ∧ 0 < gapModulus ⟨5, 3, 160, 2 / 5⟩ ∧
    ∃ s1, resetWith ⟨5, 3, 160, 2 / 5⟩ (fun _ => 7) initGame = some s1 := by
  have h1 : (0 : ℚ) < (⟨5, 3, 160, 2 / 5⟩ : LevelData).gapSize := by norm_num
  have h2 : (⟨5, 3, 160, 2 / 5⟩ : LevelData).gapSize < 350 := by norm_num
  obtain ⟨_, hA, _, _, hp⟩ := gap_modulus_positive ⟨5, 3, 160, 2 / 5⟩ (fun _ => 7) initGame h1
    (by norm_num) (Or.inl h2)
  obtain ⟨_, a2, a3⟩ := hA h2
  exact ⟨h1, h2, a2, hp, a3 (by decide)⟩

/-! ## C3: the generated field of the two catalog levels -/

/-- C3: on each of the two catalog levels and for every sequence of
non-negative values of `rand()`, `ResetEntityPositions` returns, and every
slot below `pipeCount` has a gap with both pipe rectangles of non-negative
height, an orb offset inside `[0, gapSize]`, `initialPipeGapY = pipeGapY`,
`pipeX = 800 + 300 + 300 * i`, and both flags cleared. -/
theorem reset_catalog_slots (s : Game) (rand : Nat → Int)
    (hL : s.currentLevel = 0 ∨ s.currentLevel = 1) (hr : ∀ k, 0 ≤ rand k) :
    ∃ cur s1, levelAt s.currentLevel = some cur ∧ ResetEntityPositions rand s = some s1 ∧
      ∀ i : Nat, (i : Int) < cur.pipeCount →
        0 ≤ s1.pipeGapY i ∧ 0 ≤ (SCREEN_HEIGHT : ℚ) - (s1.pipeGapY i + cur.gapSize) ∧
        0 ≤ s1.orbRelY i ∧ s1.orbRelY i ≤ cur.gapSize ∧
        s1.initialPipeGapY i = s1.pipeGapY i ∧
        s1.pipeX i = 800 + 300 + 300 * (i : ℚ) ∧
        s1.pipePassed i = false ∧ s1.orbCollected i = false := by
  rcases hL with h | h
  · have hmax : maxGapOf ⟨5, 3, 160, 2 / 5⟩ = 240 := by simp [maxGapOf, SCREEN_HEIGHT, cTrunc_160]
    have hsafe : safeRangeOf ⟨5, 3, 160, 2 / 5⟩ = 120 := by simp [safeRangeOf, cTrunc_160]
    refine ⟨⟨5, 3, 160, 2 / 5⟩, resetResult ⟨5, 3, 160, 2 / 5⟩ rand 5 s, by rw [h]; rfl, ?_, ?_⟩
    · simp only [ResetEntityPositions, h, levelAt_zero, Option.bind_eq_bind, Option.some_bind]
      rw [resetWith_eq _ _ _ (by rw [hmax]; decide)]
      rfl
    · intro i hi
      have hi5 : i < 5 := by simpa using hi
      have key := resetResult_slot ⟨5, 3, 160, 2 / 5⟩ rand 5 s hr (by rw [hmax]; decide)
        (by rw [hsafe]; decide) i hi5
      rw [hmax, hsafe] at key
      obtain ⟨⟨a1, a2⟩, ⟨b1, b2⟩, c, d, e, f⟩ := key
      simp only [SCREEN_HEIGHT]
      norm_num at a2 b2 d ⊢
      exact ⟨by linarith, by linarith, by linarith, by linarith, c, d, e, f⟩
  · have hmax : maxGapOf ⟨10, 7 / 2, 150, 9 / 20⟩ = 250 := by
      simp [maxGapOf, SCREEN_HEIGHT, cTrunc_150]
    have hsafe : safeRangeOf ⟨10, 7 / 2, 150, 9 / 20⟩ = 110 := by simp [safeRangeOf, cTrunc_150]
    refine ⟨⟨10, 7 / 2, 150, 9 / 20⟩, resetResult ⟨10, 7 / 2, 150, 9 / 20⟩ rand 10 s,
      by rw [h]; rfl, ?_, ?_⟩
    · simp only [ResetEntityPositions, h, levelAt_one, Option.bind_eq_bind, Option.some_bind]
      rw [resetWith_eq _ _ _ (by rw [hmax]; decide)]
      rfl
    · intro i hi
      have hi10 : i < 10 := by simpa using hi
      have key := resetResult_slot ⟨10, 7 / 2, 150, 9 / 20⟩ rand 10 s hr (by rw [hmax]; decide)
        (by rw [hsafe]; decide) i hi10
      rw [hmax, hsafe] at key
      obtain ⟨⟨a1, a2⟩, ⟨b1, b2⟩, c, d, e, f⟩ := key
      simp only [SCREEN_HEIGHT]
      norm_num at a2 b2 d ⊢
      exact ⟨by linarith, by linarith, by linarith, by linarith, c, d, e, f⟩

theorem reset_catalog_slots_witness :
    (initGame.currentLevel = 0 ∨ initGame.currentLevel = 1) ∧ (∀ k : Nat, (0 : Int) ≤ (fun _ => 7) k) ∧
    ∃ s1, ResetEntityPositions (fun _ => 7) initGame = some s1 ∧ s1.pipeX 4 = 2300 ∧
      0 ≤ s1.pipeGapY 4 ∧ s1.pipePassed 4 = false := by
  refine ⟨Or.inl rfl, fun _ => by simp, ?_⟩
  obtain ⟨cur, s1, hc, hs, h⟩ :=
    reset_catalog_slots initGame (fun _ => 7) (Or.inl rfl) (fun _ => by simp)
  have hcur : cur = ⟨5, 3, 160, 2 / 5⟩ := by
    have h0 : levelAt initGame.currentLevel = some ⟨5, 3, 160, 2 / 5⟩ := rfl
    rw [h0] at hc
    exact (Option.some.inj hc).symm
  subst hcur
  obtain ⟨a, _, _, _, _, d, e, _⟩ := h 4 (by decide)
  exact ⟨s1, hs, by rw [d]; norm_num, a, e⟩

/-! ## C4: score accounting -/

/-- C4: in every reachable `STATE_PLAYING` state the session score is the
snapshot `levelStartScore` plus 1 for every passed slot plus 5 for every
collected orb of the level; when a frame started there ends in
`STATE_LEVEL_DONE`, the score is the snapshot plus `pipeCount` plus 5 for
every collected orb, and on level 0 it is `5 + 5 * collected`. -/
theorem score_accounting (s : Game) (hR : Reachable s) (hP : s.currentState = STATE_PLAYING) :
    ∃ cur, levelAt s.currentLevel = some cur ∧
      s.currentSessionScore = s.levelStartScore + passedCount cur s + 5 * collectedCount cur s ∧
      ∀ (inp : Input) (s1 : Game), UpdateGame inp s = some s1 →
        s1.currentState = STATE_LEVEL_DONE →
          s1.currentLevel = s.currentLevel ∧ s1.levelStartScore = s.levelStartScore ∧
          s1.currentSessionScore = s1.levelStartScore + cur.pipeCount + 5 * collectedCount cur s1 ∧
          (s1.currentLevel = 0 → s1.levelStartScore = 0 ∧ cur.pipeCount = 5 ∧
            s1.currentSessionScore = 5 + 5 * collectedCount cur s1) := by
  have hin := inLevel_of_playing s hP
  obtain ⟨cur, hc⟩ := hR.invariant.level_some s hin
  refine ⟨cur, hc, hR.invariant.score_eq hin cur hc, ?_⟩
  intro inp s1 hr hd
  have hI1 := (Reachable.step inp hR hr).invariant
  obtain ⟨k1, k2, _, _⟩ := attemptFrame_keeps inp s s1 cur hc (Or.inr (Or.inl hP)) hr
  have hc1 : levelAt s1.currentLevel = some cur := by rw [k1]; exact hc
  have hin1 : inLevel s1 := Or.inr (Or.inr (Or.inl hd))
  have hsc := hI1.score_eq hin1 cur hc1
  have hall := hI1.done_all hd cur hc1
  have hsc2 : s1.currentSessionScore = s1.levelStartScore + cur.pipeCount + 5 * collectedCount cur s1 := by
    rw [hsc, hall]
  refine ⟨k1, k2, hsc2, fun h0 => ?_⟩
  have hl := hI1.level0_start hin1 h0
  have hcur : cur = ⟨5, 3, 160, 2 / 5⟩ := by
    rw [h0, levelAt_zero] at hc1
    exact (Option.some.inj hc1).symm
  refine ⟨hl, by rw [hcur], ?_⟩
  rw [hsc2, hl, hcur]
  ring

/-- The last frame of the demo flight with a jump: slot 4 is passed without a collision. -/
theorem flight_clears :
    (UpdateGame spaceInput (flight 723)).map (fun s => s.currentState) = some STATE_LEVEL_DONE := by
  simp [UpdateGame, spaceBlock, playFrame, playWith, pipeLoop, range5, pipeStep, passPipe, collectOrb,
    hitPipe, movePipe, updatePlayer, boundsCheck, outOfBounds, flight, flightPhase, flightBase,
    demoTitle, spaceInput, idleInput, initGame, CheckCollisionRecs, topPipe, botPipe, playerRect,
    orbHitbox, PACMAN_X_POS, PACMAN_RADIUS, SCREEN_WIDTH, SCREEN_HEIGHT, PIPE_WIDTH, JUMP_STRENGTH,
    levelAt, levels, SetupLevels, Function.update]
  norm_num

theorem score_accounting_witness :
    Reachable (flight 723) ∧ (flight 723).currentState = STATE_PLAYING ∧
    (flight 723).currentSessionScore = (flight 723).levelStartScore
      + passedCount ⟨5, 3, 160, 2 / 5⟩ (flight 723) + 5 * collectedCount ⟨5, 3, 160, 2 / 5⟩ (flight 723) ∧
    ∃ s1, UpdateGame spaceInput (flight 723) = some s1 ∧ s1.currentState = STATE_LEVEL_DONE ∧
      s1.currentSessionScore = 5 + 5 * collectedCount ⟨5, 3, 160, 2 / 5⟩ s1 := by
  have hR := (flight_reachable 723 (by decide) (by decide)).1
  obtain ⟨cur, hc, hs, htrans⟩ := score_accounting (flight 723) hR rfl
  have hcur : cur = ⟨5, 3, 160, 2 / 5⟩ := by
    have h0 : levelAt (flight 723).currentLevel = some ⟨5, 3, 160, 2 / 5⟩ := rfl
    rw [h0] at hc
    exact (Option.some.inj hc).symm
  subst hcur
  obtain ⟨s1, h1, h2⟩ := Option.map_eq_some'.1 flight_clears
  obtain ⟨k1, _, _, k4⟩ := htrans spaceInput s1 h1 h2
  exact ⟨hR, rfl, hs, s1, h1, h2, (k4 (by rw [k1]; rfl)).2.2⟩

/-! ## C5: retry after death -/

theorem Invariant.title_score (s : Game) (h : Invariant s) (hT : s.currentState = STATE_TITLE) :
    s.currentSessionScore = s.levelStartScore := by
  have hin : inLevel s := Or.inl hT
  obtain ⟨cur, hc⟩ := h.level_some s hin
  have hs := h.score_eq hin cur hc
  have hf := h.title_fresh hT cur hc
  rw [passedCount, collectedCount,
    countTrue_eq_zero _ _ (fun i hi => (hf i (by omega)).1),
    countTrue_eq_zero _ _ (fun i hi => (hf i (by omega)).2)] at hs
  simpa using hs

/-- C5: in every reachable `STATE_GAMEOVER` state a frame with SPACE pressed
returns, ends in `STATE_TITLE` on the same level with the field regenerated
(every slot below `pipeCount` has `pipePassed` and `orbCollected` false), and
the session score is the snapshot `levelStartScore`, which is the session
score of the `STATE_TITLE` state in which the attempt started. -/
theorem death_retry (s : Game) (inp : Input) (hR : Reachable s)
    (hD : s.currentState = STATE_GAMEOVER) (hsp : inp.space = true) :
    ∃ cur s1, levelAt s.currentLevel = some cur ∧ UpdateGame inp s = some s1 ∧
      s1 = resetResult cur inp.rand cur.pipeCount.toNat
        { s with currentSessionScore := s.levelStartScore, currentState := STATE_TITLE } ∧
      s1.currentState = STATE_TITLE ∧ s1.currentLevel = s.currentLevel ∧
      s1.currentSessionScore = s.levelStartScore ∧
      (∀ i : Nat, (i : Int) < cur.pipeCount →
        s1.pipePassed i = false ∧ s1.orbCollected i = false) ∧
      (∃ s0, Reachable s0 ∧ s0.currentState = STATE_TITLE ∧ Attempt s0 s) ∧
      (∀ s0, Reachable s0 → s0.currentState = STATE_TITLE → Attempt s0 s →
        s1.currentSessionScore = s0.currentSessionScore) := by
  have hin : inLevel s := Or.inr (Or.inr (Or.inr hD))
  obtain ⟨cur, hc, he⟩ := reset_catalog_eq inp.rand
    { s with currentSessionScore := s.levelStartScore, currentState := STATE_TITLE }
    (hR.invariant.level_range hin)
  have hc2 : levelAt s.currentLevel = some cur := hc
  refine ⟨cur, _, hc2, ?_, rfl, rfl, rfl, rfl, ?_, hR.attempt_start hin, ?_⟩
  · simp [UpdateGame, hD, hsp, spaceBlock, he, resetResult]
  · intro i hi
    exact resetResult_flags cur inp.rand _ _ i (by omega)
  · intro s0 hR0 hT0 ha
    obtain ⟨_, _, k2, _, _⟩ := ha.keeps hR0
    have := hR0.invariant.title_score s0 hT0
    show s.levelStartScore = s0.currentSessionScore
    rw [k2, this]

theorem death_retry_witness :
    Reachable (climb 34) ∧ (climb 34).currentState = STATE_GAMEOVER ∧
    ∃ s1, UpdateGame spaceInput (climb 34) = some s1 ∧ s1.currentState = STATE_TITLE ∧
      s1.currentLevel = (climb 34).currentLevel ∧
      s1.currentSessionScore = (climb 34).levelStartScore ∧
      s1.currentSessionScore = demoTitle.currentSessionScore := by
  refine ⟨climb_reachable 34 (by decide), by simp [climb], ?_⟩
  obtain ⟨cur, s1, _, h2, _, h4, h5, h6, _, _, h9⟩ :=
    death_retry (climb 34) spaceInput (climb_reachable 34 (by decide)) (by simp [climb]) rfl
  exact ⟨s1, h2, h4, h5, h6, h9 demoTitle demoTitle_reachable rfl (climb_attempt 34 (by decide))⟩

/-! ## C6: each reward fires at most once per slot -/

/-- A frame that runs the playing part: it is `playWith` on the state after the space-bar block. -/
theorem playing_frame_eq (inp : Input) (t u : Game) (cur : LevelData)
    (hc : levelAt t.currentLevel = some cur)
    (hp : t.currentState = STATE_PLAYING ∨ (t.currentState = STATE_TITLE ∧ inp.space = true))
    (hr : UpdateGame inp t = some u) :
    u = playWith cur inp t ∨
    u = playWith cur inp { t with currentState := STATE_PLAYING, pacmanVelocityY := JUMP_STRENGTH } := by
  rcases hp with h | ⟨h, hsp⟩
  · left
    by_cases hsp : inp.space = true
    · simp [UpdateGame, h, hsp, spaceBlock, playFrame, hc] at hr
      exact hr.symm
    · simp [UpdateGame, h, hsp, playFrame, hc] at hr
      exact hr.symm
  · right
    simp [UpdateGame, h, hsp, spaceBlock, playFrame, hc] at hr
    exact hr.symm

theorem Attempt.inLevel {s t : Game} (ha : Attempt s t) (hR : Reachable s) (hin : inLevel s) :
    inLevel t := by
  induction ha with
  | refl => exact hin
  | @step t u inp hat hf hr ih =>
    have hRt := (hat.keeps hR).1
    have hint := inLevel_of_attemptFrame inp t hf
    obtain ⟨cur, hc⟩ := hRt.invariant.level_some t hint
    rcases attemptFrame_cases inp t u cur hc hf hr with rfl | ⟨hp, rfl⟩ | ⟨_, _, rfl⟩
    · exact hint
    · rcases playWith_state cur inp t hp with h | h | h
      · exact Or.inr (Or.inl h)
      · exact Or.inr (Or.inr (Or.inr h))
      · exact Or.inr (Or.inr (Or.inl h))
    · rcases playWith_state cur inp
        { t with currentState := STATE_PLAYING, pacmanVelocityY := JUMP_STRENGTH } rfl with h | h | h
      · exact Or.inr (Or.inl h)
      · exact Or.inr (Or.inr (Or.inr h))
      · exact Or.inr (Or.inr (Or.inl h))

/-- C6: along the frames of one level attempt that starts in a reachable state
`s` and reaches `t`, no flag `pipePassed[i]` or `orbCollected[i]` is cleared,
and the score grows by exactly 1 for every slot passed since `s` and 5 for
every orb collected since `s`, so each reward is added at most once per slot;
in every state of the attempt slot `i` is passed iff its trailing edge is left
of the avatar (`pipeX[i] + 70 < 200`), and a playing frame, which scrolls the
pipe left by `speed > 0`, sets the flag exactly when this holds after the
scroll step and did not hold before. -/
theorem rewards_once (s t : Game) (cur : LevelData) (hR : Reachable s) (hin : inLevel s)
    (hc : levelAt s.currentLevel = some cur) (ha : Attempt s t) :
    (∀ i, s.pipePassed i = true → t.pipePassed i = true) ∧
    (∀ i, s.orbCollected i = true → t.orbCollected i = true) ∧
    t.currentSessionScore = s.currentSessionScore
      + countTrue (fun i => t.pipePassed i && !s.pipePassed i) cur.pipeCount.toNat
      + 5 * countTrue (fun i => t.orbCollected i && !s.orbCollected i) cur.pipeCount.toNat ∧
    (∀ i : Nat, (i : Int) < cur.pipeCount →
      (t.pipePassed i = true ↔ t.pipeX i + (PIPE_WIDTH : ℚ) < PACMAN_X_POS)) ∧
    0 < cur.speed ∧
    (∀ (inp : Input) (u : Game), (t.currentState = STATE_PLAYING ∨
        (t.currentState = STATE_TITLE ∧ inp.space = true)) → UpdateGame inp t = some u →
      ∀ i : Nat, (i : Int) < cur.pipeCount →
        u.pipeX i = t.pipeX i - cur.speed ∧
        ((t.pipePassed i = false ∧ u.pipePassed i = true) ↔
          (u.pipeX i + (PIPE_WIDTH : ℚ) < PACMAN_X_POS ∧
            ¬ (t.pipeX i + (PIPE_WIDTH : ℚ) < PACMAN_X_POS)))) := by
  obtain ⟨hRt, k1, k2, m1, m2⟩ := ha.keeps hR
  have hint := ha.inLevel hR hin
  have hct : levelAt t.currentLevel = some cur := by rw [k1]; exact hc
  have hs := hR.invariant.score_eq hin cur hc
  have ht := hRt.invariant.score_eq hint cur hct
  have hpass := hRt.invariant.pass_iff hint cur hct
  refine ⟨m1, m2, ?_, hpass, levelAt_speed_pos _ cur hc, ?_⟩
  · have e1 := countTrue_mono_split s.pipePassed t.pipePassed cur.pipeCount.toNat m1
    have e2 := countTrue_mono_split s.orbCollected t.orbCollected cur.pipeCount.toNat m2
    simp only [passedCount, collectedCount] at hs ht
    rw [ht, hs, k2, e1, e2]
    push_cast
    ring
  · intro inp u hp hr i hi
    have hi2 : i < cur.pipeCount.toNat := by omega
    have key : u.pipeX i = t.pipeX i - cur.speed ∧ u.pipePassed i
        = (t.pipePassed i || decide (t.pipeX i - cur.speed + (PIPE_WIDTH : ℚ) < PACMAN_X_POS)) := by
      rcases playing_frame_eq inp t u cur hct hp hr with rfl | rfl
      · exact playWith_slot cur inp t i hi2
      · exact playWith_slot cur inp _ i hi2
    obtain ⟨hx, hpu⟩ := key
    refine ⟨hx, ?_⟩
    rw [hpu, hx]
    have hold := hpass i hi
    constructor
    · rintro ⟨hf, hu⟩
      rw [hf] at hu
      simp only [Bool.false_or, decide_eq_true_eq] at hu
      refine ⟨hu, fun hlt => ?_⟩
      rw [hold.2 hlt] at hf
      cases hf
    · rintro ⟨hu, hn⟩
      have hf : t.pipePassed i = false := by
        by_contra hne
        simp only [Bool.not_eq_false] at hne
        exact hn (hold.1 hne)
      exact ⟨hf, by simp [hf, hu]⟩

theorem rewards_once_witness :
    Reachable demoTitle ∧ inLevel demoTitle ∧ Attempt demoTitle (flight 723) ∧
    (flight 723).currentSessionScore = demoTitle.currentSessionScore
      + countTrue (fun i => (flight 723).pipePassed i && !demoTitle.pipePassed i) 5
      + 5 * countTrue (fun i => (flight 723).orbCollected i && !demoTitle.orbCollected i) 5 := by
  have hA := (flight_reachable 723 (by decide) (by decide)).2
  refine ⟨demoTitle_reachable, Or.inl rfl, hA, ?_⟩
  obtain ⟨_, _, h3, _⟩ := rewards_once demoTitle (flight 723) ⟨5, 3, 160, 2 / 5⟩ demoTitle_reachable
    (Or.inl rfl) rfl hA
  exact h3

/-! ## C7: the scoreboard is sorted -/

/-- C7: in every reachable state the first `playerCount` entries of `players`
are in non-increasing order of score; and when the victory step appends an
entry to a board with room, the bubble sort leaves the `playerCount + 1`
entries sorted descending, and they are a permutation of the old entries plus
the new entry, whose score is the session score and whose name is the string
in `tempName`. -/
theorem board_sorted (s : Game) (inp : Input) :
    (Reachable s → (board s).Sorted scoreGE) ∧
    (s.players.length = 10 → 0 ≤ s.playerCount → s.playerCount < 10 →
      s.currentState = STATE_LEVEL_DONE → s.currentLevel + 1 ≥ MAX_LEVELS → inp.space = true →
      ∃ s1, UpdateGame inp s = some s1 ∧ s1.playerCount = s.playerCount + 1 ∧
        (board s1).Sorted scoreGE ∧ (board s1).Perm (board s ++ [newEntry s]) ∧
        (newEntry s).score = s.currentSessionScore ∧
        cstr (newEntry s).name = cstr s.tempName) := by
  refine ⟨fun hR => hR.invariant.sorted, ?_⟩
  intro hlen h0 h1 hst hlvl hsp
  obtain ⟨s1, hr, _, hcnt, _, hb, _⟩ := victory_append s inp hlen h0 h1 hst hlvl hsp
  refine ⟨s1, hr, hcnt, ?_, ?_, rfl, cstr_strcpy _ _⟩
  · rw [hb]
    exact sorted_insertionSort_scoreGE _
  · rw [hb]
    exact List.perm_insertionSort scoreGE _

theorem board_sorted_witness :
    (board initGame).Sorted scoreGE ∧
    ∃ s1, UpdateGame spaceInput clearedState = some s1 ∧ s1.playerCount = 4 ∧
      (board s1).Sorted scoreGE ∧
      (board s1).Perm ([entry 66 80, entry 67 50, entry 68 30] ++ [newEntry clearedState]) := by
  refine ⟨(board_sorted initGame idleInput).1 Reachable.init, ?_⟩
  obtain ⟨s1, h1, h2, h3, h4, _⟩ :=
    (board_sorted clearedState spaceInput).2 (by decide) (by decide) (by decide) rfl (by decide) rfl
  exact ⟨s1, h1, h2, h3, h4⟩

/-! ## C8: the re-sort is stable -/

/-- C8: for every board with room and every inserted entry, the board after
the victory step is the stable (insertion) sort by descending score of the old
entries followed by the new entry: it is sorted, entries of equal score keep
their insertion order, the new entry stands behind every entry whose score is
at least its own and before all others; on a sorted board, which is every
reachable board, the old entries keep their relative order. -/
theorem resort_stable (s : Game) (inp : Input) (hlen : s.players.length = 10)
    (h0 : 0 ≤ s.playerCount) (h1 : s.playerCount < 10) (hst : s.currentState = STATE_LEVEL_DONE)
    (hlvl : s.currentLevel + 1 ≥ MAX_LEVELS) (hsp : inp.space = true) :
    ∃ s1, UpdateGame inp s = some s1 ∧
      board s1 = (board s ++ [newEntry s]).insertionSort scoreGE ∧
      (board s1).Sorted scoreGE ∧
      (∀ k, withScore k (board s1) = withScore k (board s ++ [newEntry s])) ∧
      board s1 =
        ((board s).insertionSort scoreGE).filter (fun p => decide ((newEntry s).score ≤ p.score)) ++
          newEntry s ::
            ((board s).insertionSort scoreGE).filter (fun p => decide (p.score < (newEntry s).score)) ∧
      ((board s).Sorted scoreGE →
        board s1 = (board s).filter (fun p => decide ((newEntry s).score ≤ p.score)) ++
          newEntry s :: (board s).filter (fun p => decide (p.score < (newEntry s).score))) := by
  obtain ⟨s1, hr, _, _, _, hb, _⟩ := victory_append s inp hlen h0 h1 hst hlvl hsp
  refine ⟨s1, hr, hb, ?_, ?_, ?_, ?_⟩
  · rw [hb]
    exact sorted_insertionSort_scoreGE _
  · intro k
    rw [hb, withScore_insertionSort]
  · rw [hb, insertionSort_append_singleton]
  · intro hs
    rw [hb, insertionSort_append_singleton, insertionSort_sorted_eq _ hs]

theorem resort_stable_witness :
    ∃ s1, UpdateGame spaceInput clearedState = some s1 ∧
      board s1 = [entry 66 80, ⟨65 :: List.replicate 15 0, 80, true⟩, entry 67 50, entry 68 30] := by
  obtain ⟨s1, h1, _, _, _, _, h6⟩ :=
    resort_stable clearedState spaceInput (by decide) (by decide) (by decide) rfl (by decide) rfl
  refine ⟨s1, h1, ?_⟩
  rw [h6 (by decide)]
  decide

/-! ## C9: the capacity of the scoreboard -/

/-- C9: `playerCount` never exceeds 10 in a reachable state; and on a full
board (ten entries, sorted, as in every reachable state with
`playerCount = 10`) the victory step leaves `players` and `playerCount`
exactly unchanged, whatever the session score is. -/
theorem board_capacity (s : Game) (inp : Input) :
    (Reachable s → 0 ≤ s.playerCount ∧ s.playerCount ≤ MAX_PLAYERS ∧ s.players.length = 10) ∧
    ((Reachable s ∨ (s.players.length = 10 ∧ (board s).Sorted scoreGE)) →
      s.playerCount = 10 → s.currentState = STATE_LEVEL_DONE → s.currentLevel + 1 ≥ MAX_LEVELS →
      inp.space = true →
      ∃ s1, UpdateGame inp s = some s1 ∧ s1.currentState = STATE_VICTORY ∧
        s1.players = s.players ∧ s1.playerCount = 10) := by
  refine ⟨fun hR => ⟨hR.invariant.count_nonneg, hR.invariant.count_le, hR.invariant.board_len⟩, ?_⟩
  intro hI hc hst hlvl hsp
  have hlen : s.players.length = 10 := by
    rcases hI with hR | ⟨h, _⟩
    · exact hR.invariant.board_len
    · exact h
  have hsorted : (board s).Sorted scoreGE := by
    rcases hI with hR | ⟨_, h⟩
    · exact hR.invariant.sorted
    · exact h
  refine ⟨_, victory_frame s inp hst hlvl hsp, addPlayer_state _, ?_, ?_⟩
  · simp only [addPlayer, MAX_PLAYERS, hc, lt_self_iff_false, if_false]
    have hk : (10 : Nat) ≤ s.players.length := by omega
    have h10 : board s = s.players.take 10 := by simp [board, hc]
    show sortScoreboard ((10 : Nat) : Int) s.players = s.players
    rw [sortScoreboard_eq_insertionSort 10 s.players hk, ← h10, insertionSort_sorted_eq _ hsorted,
      h10, List.take_append_drop]
  · simp only [addPlayer, MAX_PLAYERS, hc, lt_self_iff_false, if_false]

theorem board_capacity_witness :
    (0 ≤ initGame.playerCount ∧ initGame.playerCount ≤ MAX_PLAYERS ∧ initGame.players.length = 10) ∧
    (∀ p ∈ board fullBoardState, p.score < fullBoardState.currentSessionScore) ∧
    ∃ s1, UpdateGame spaceInput fullBoardState = some s1 ∧ s1.currentState = STATE_VICTORY ∧
      s1.players = fullBoardState.players ∧ s1.playerCount = 10 :=
  ⟨(board_capacity initGame idleInput).1 Reachable.init, by decide,
    (board_capacity fullBoardState spaceInput).2 (Or.inr ⟨by decide, by decide⟩) rfl rfl
      (by decide) rfl⟩

/-! ## C10: confirm on the victory screen -/

/-- The confirm frame on the victory screen, as one update of the globals. -/
theorem victory_space_frame (s : Game) (inp : Input) (hst : s.currentState = STATE_VICTORY)
    (hsp : inp.space = true) :
    UpdateGame inp s = some
      { s with currentState := STATE_INPUT, letterCount := 0, tempName := s.tempName.set 0 0 } := by
  simp [UpdateGame, hst, hsp, spaceBlock]

/-- C10 (as amended): in `STATE_VICTORY` a frame with SPACE pressed ends in
`STATE_INPUT` with the name buffer empty (`letterCount = 0`, `tempName[0]` is
NUL) and leaves `currentSessionScore` unchanged. -/
theorem victory_confirm (s : Game) (inp : Input) (hst : s.currentState = STATE_VICTORY)
    (hsp : inp.space = true) (hlen : s.tempName.length = 16) :
    ∃ s1, UpdateGame inp s = some s1 ∧ s1.currentState = STATE_INPUT ∧ s1.letterCount = 0 ∧
      s1.tempName[0]? = some 0 ∧ cstr s1.tempName = [] ∧
      s1.currentSessionScore = s.currentSessionScore := by
  refine ⟨_, victory_space_frame s inp hst hsp, rfl, rfl, ?_, ?_, rfl⟩
  · simp [List.getElem?_set, hlen]
  · match h : s.tempName, hlen with
    | c :: rest, _ => simp [cstr]

theorem victory_confirm_witness :
    ∃ s1, UpdateGame spaceInput victoryState = some s1 ∧ s1.currentState = STATE_INPUT ∧
      s1.letterCount = 0 ∧ s1.tempName[0]? = some 0 ∧ cstr s1.tempName = [] ∧
      s1.currentSessionScore = 15 :=
  victory_confirm victoryState spaceInput rfl rfl (by decide)

/-- C10 (counterexample): after the confirm frame on the victory screen of a
run with 15 points the session score is still 15, not 0. -/
theorem victory_confirm_keeps_score :
    ¬ ∃ s1, UpdateGame spaceInput victoryState = some s1 ∧ s1.currentState = STATE_INPUT ∧
      s1.letterCount = 0 ∧ cstr s1.tempName = [] ∧ s1.currentSessionScore = 0 := by
  rintro ⟨s1, h1, _, _, _, h5⟩
  rw [victory_space_frame victoryState spaceInput rfl rfl] at h1
  cases h1
  exact absurd h5 (by decide)

/-! ## The name buffer -/

theorem UpdateInput_eq (inp : Input) (s : Game) :
    UpdateInput inp s =
      if inp.enter ∧ (nameEdit inp s).letterCount > 0 then
        ResetEntityPositions inp.rand
          { nameEdit inp s with currentState := STATE_TITLE, currentSessionScore := 0,
                                levelStartScore := 0, currentLevel := 0 }
      else some (nameEdit inp s) := rfl

/-- The C string of a buffer whose first `n` bytes are not NUL and whose byte `n` is NUL. -/
theorem takeWhile_eq_take (l : List Nat) (n : Nat) (h0 : l[n]? = some 0)
    (hp : ∀ i, i < n → ∃ c, l[i]? = some c ∧ c ≠ 0) :
    l.takeWhile (fun c => c ≠ 0) = l.take n := by
  induction l generalizing n with
  | nil => simp at h0
  | cons a t ih =>
    cases n with
    | zero =>
      simp at h0
      simp [h0]
    | succ m =>
      obtain ⟨c, hc, hne⟩ := hp 0 (by omega)
      simp at hc
      subst hc
      have h1 : t[m]? = some 0 := by simpa using h0
      have h2 : ∀ i, i < m → ∃ c, t[i]? = some c ∧ c ≠ 0 := by
        intro i hi
        obtain ⟨c, hc, hne⟩ := hp (i + 1) (by omega)
        exact ⟨c, by simpa using hc, hne⟩
      have e := ih m h1 h2
      simp only [List.takeWhile_cons, hne, ne_eq, not_false_eq_true, decide_True, if_true,
        List.take_succ_cons, e]

theorem NameInv.cstr_eq {s : Game} (h : NameInv s) :
    cstr s.tempName = s.tempName.take s.letterCount.toNat := by
  refine takeWhile_eq_take _ _ h.nul (fun i hi => ?_)
  obtain ⟨c, hc, h32, _⟩ := h.printable i (by have := h.lc_nonneg; omega)
  exact ⟨c, hc, by omega⟩

theorem NameInv.cstr_length {s : Game} (h : NameInv s) :
    ((cstr s.tempName).length : Int) = s.letterCount := by
  rw [h.cstr_eq, List.length_take, h.buf_len]
  have := h.lc_nonneg
  have := h.lc_le
  omega

theorem NameInv.of_typeKey (key : Int) {s : Game} (h : NameInv s) : NameInv (typeKey key s) := by
  simp only [FlappyPacman.typeKey]
  split
  · rename_i hk
    obtain ⟨k1, k2, k3⟩ := hk
    have h0 := h.lc_nonneg
    have hl := h.buf_len
    refine ⟨by simp [hl], by show 0 ≤ s.letterCount + 1; omega, by show s.letterCount + 1 ≤ 15; omega,
      ?_, ?_, h.names_len⟩
    · show ((s.tempName.set s.letterCount.toNat key.toNat).set (s.letterCount.toNat + 1) 0)[
        (s.letterCount + 1).toNat]? = some 0
      have e : (s.letterCount + 1).toNat = s.letterCount.toNat + 1 := by omega
      rw [e, List.getElem?_set_self (by simp [hl]; omega)]
    · intro i hi
      show ∃ c, ((s.tempName.set s.letterCount.toNat key.toNat).set (s.letterCount.toNat + 1) 0)[i]?
        = some c ∧ 32 ≤ c ∧ c ≤ 125
      have hi2 : (i : Int) < s.letterCount + 1 := hi
      rw [List.getElem?_set_ne (by omega)]
      by_cases hil : i = s.letterCount.toNat
      · subst hil
        rw [List.getElem?_set_self (by omega)]
        exact ⟨key.toNat, rfl, by omega, by omega⟩
      · rw [List.getElem?_set_ne (by omega)]
        exact h.printable i (by omega)
  · exact h

theorem NameInv.of_typeLoop (chars : List Int) {s : Game} (h : NameInv s) : NameInv (typeLoop chars s) := by
  induction chars generalizing s with
  | nil => exact h
  | cons key rest ih =>
    simp only [FlappyPacman.typeLoop]
    split
    · exact ih (h.of_typeKey key)
    · exact h

theorem NameInv.of_backspace {s : Game} (h : NameInv s) : NameInv (backspaceKey s) := by
  have h0 := h.lc_nonneg
  have h1 := h.lc_le
  have hl := h.buf_len
  simp only [FlappyPacman.backspaceKey]
  refine ⟨by simp [hl], ?_, ?_, ?_, ?_, h.names_len⟩
  · show 0 ≤ (if s.letterCount - 1 < 0 then 0 else s.letterCount - 1)
    split <;> omega
  · show (if s.letterCount - 1 < 0 then 0 else s.letterCount - 1) ≤ 15
    split <;> omega
  · show (s.tempName.set (if s.letterCount - 1 < 0 then (0 : Int) else s.letterCount - 1).toNat 0)[
      (if s.letterCount - 1 < 0 then (0 : Int) else s.letterCount - 1).toNat]? = some 0
    rw [List.getElem?_set_self (by split <;> omega)]
  · intro i hi
    show ∃ c, (s.tempName.set (if s.letterCount - 1 < 0 then (0 : Int) else s.letterCount - 1).toNat 0)[i]?
      = some c ∧ 32 ≤ c ∧ c ≤ 125
    have hi2 : (i : Int) < (if s.letterCount - 1 < 0 then (0 : Int) else s.letterCount - 1) := hi
    rw [List.getElem?_set_ne (by split at hi2 <;> split <;> omega)]
    exact h.printable i (by split at hi2 <;> omega)

theorem NameInv.of_nameEdit (inp : Input) {s : Game} (h : NameInv s) : NameInv (nameEdit inp s) := by
  simp only [FlappyPacman.nameEdit]
  split
  · exact (h.of_typeLoop inp.chars).of_backspace
  · exact h.of_typeLoop inp.chars

theorem NameInv.congr {s t : Game} (h : NameInv s) (e1 : t.tempName = s.tempName)
    (e2 : t.letterCount = s.letterCount) (e3 : t.players = s.players) : NameInv t :=
  ⟨by rw [e1]; exact h.buf_len, by rw [e2]; exact h.lc_nonneg, by rw [e2]; exact h.lc_le,
    by rw [e1, e2]; exact h.nul, by rw [e1, e2]; exact h.printable, by rw [e3]; exact h.names_len⟩

theorem NameInv.of_reset (rand : Nat → Int) {t s1 : Game}
    (hr : ResetEntityPositions rand t = some s1) (h : NameInv t) : NameInv s1 := by
  obtain ⟨cur, _, he⟩ := reset_some_eq rand t s1 hr
  obtain ⟨f1, _, _, _, _, _, f7, f8⟩ := resetResult_fixed cur rand cur.pipeCount.toNat t
  rw [he]
  exact h.congr f7 f8 f1

theorem strcpy_length (dst src : List Nat) (h : (cstr src).length + 1 ≤ dst.length) :
    (strcpy dst src).length = dst.length := by
  simp only [strcpy, cstr] at *
  simp only [List.length_append, List.length_cons, List.length_drop]
  omega

theorem swapStep_mem (ps : List PlayerData) (j : Nat) (p : PlayerData) (hp : p ∈ swapStep ps j) :
    p ∈ ps := by
  simp only [swapStep] at hp
  split at hp
  · rename_i a b ha hb
    split at hp
    · rcases List.mem_or_eq_of_mem_set hp with h1 | h1
      · rcases List.mem_or_eq_of_mem_set h1 with h2 | h2
        · exact h2
        · rw [h2]
          exact List.mem_iff_getElem?.2 ⟨_, hb⟩
      · rw [h1]
        exact List.mem_iff_getElem?.2 ⟨_, ha⟩
    · exact hp
  · exact hp

theorem foldl_swapStep_mem (js : List Nat) (ps : List PlayerData) (p : PlayerData)
    (hp : p ∈ js.foldl swapStep ps) : p ∈ ps := by
  induction js generalizing ps with
  | nil => exact hp
  | cons j rest ih => exact swapStep_mem ps j p (ih _ hp)

theorem sortScoreboard_mem (n : Int) (ps : List PlayerData) (p : PlayerData)
    (hp : p ∈ sortScoreboard n ps) : p ∈ ps := by
  simp only [sortScoreboard] at hp
  generalize List.range (n - 1).toNat = is at hp
  induction is generalizing ps with
  | nil => exact hp
  | cons i rest ih =>
    have := ih _ hp
    exact foldl_swapStep_mem _ ps p this

theorem NameInv.of_addPlayer {s : Game} (h : NameInv s) : NameInv (addPlayer s) := by
  simp only [addPlayer]
  split
  · refine ⟨h.buf_len, h.lc_nonneg, h.lc_le, h.nul, h.printable, ?_⟩
    intro p hp
    have hp2 : p ∈ s.players.set s.playerCount.toNat
        { name := strcpy (s.players.getD s.playerCount.toNat ⟨[], 0, false⟩).name s.tempName,
          score := s.currentSessionScore, active := true } := hp
    by_cases hn : s.playerCount.toNat < s.players.length
    · rcases List.mem_or_eq_of_mem_set hp2 with h1 | h1
      · exact h.names_len p h1
      · rw [h1]
        show (strcpy (s.players.getD s.playerCount.toNat ⟨[], 0, false⟩).name s.tempName).length = 16
        have hold : (s.players.getD s.playerCount.toNat ⟨[], 0, false⟩).name.length = 16 := by
          apply h.names_len
          rw [List.getD_eq_getElem _ _ hn]
          exact List.getElem_mem hn
        rw [strcpy_length _ _ (by
          have := h.cstr_length
          have := h.lc_le
          omega), hold]
    · rw [List.set_eq_of_length_le (by omega)] at hp2
      exact h.names_len p hp2
  · exact h

theorem NameInv.of_space (inp : Input) {s s1 : Game} (h : NameInv s)
    (hr : spaceBlock inp s = some s1) : NameInv s1 := by
  simp only [spaceBlock] at hr
  split at hr
  · cases hr
    exact h.congr rfl rfl rfl
  · simp only [levelDoneSpace] at hr
    split at hr
    · cases hr
      have h1 : NameInv (addPlayer
          { s with currentLevel := s.currentLevel + 1, currentState := STATE_VICTORY }) :=
        NameInv.of_addPlayer (h.congr rfl rfl rfl)
      exact ⟨h1.buf_len, h1.lc_nonneg, h1.lc_le, h1.nul, h1.printable,
        fun p hp => h1.names_len p (sortScoreboard_mem _ _ p hp)⟩
    · exact NameInv.of_reset inp.rand hr (h.congr rfl rfl rfl)
  · exact NameInv.of_reset inp.rand hr (h.congr rfl rfl rfl)
  · cases hr
    refine ⟨by simp [h.buf_len], le_refl _, by show (0 : Int) ≤ 15; decide, ?_, ?_, h.names_len⟩
    · show (s.tempName.set 0 0)[(0 : Int).toNat]? = some 0
      rw [Int.toNat_zero, List.getElem?_set_self (by rw [h.buf_len]; decide)]
    · intro i hi
      have hi2 : (i : Int) < 0 := hi
      omega
  · cases hr
    exact h

theorem NameInv.after_frame (inp : Input) {s s1 : Game} (h : NameInv s)
    (hr : UpdateGame inp s = some s1) : NameInv s1 := by
  simp only [UpdateGame] at hr
  split at hr
  · rw [UpdateInput_eq] at hr
    split at hr
    · exact NameInv.of_reset inp.rand hr ((h.of_nameEdit inp).congr rfl rfl rfl)
    · cases hr
      exact h.of_nameEdit inp
  · have key : ∀ t, NameInv t → (if t.currentState ≠ STATE_PLAYING then pure t else playFrame inp t)
        = some s1 → NameInv s1 := by
      intro t ht hr2
      split at hr2
      · cases hr2
        exact ht
      · simp only [playFrame] at hr2
        cases hc : levelAt t.currentLevel with
        | none => simp [hc] at hr2
        | some cur =>
          simp only [hc, Option.bind_eq_bind, Option.some_bind, Option.pure_def, Option.some.injEq] at hr2
          rw [← hr2]
          obtain ⟨f1, _, _, _, f5, f6, _, _⟩ := playWith_fixed cur inp t
          exact ht.congr f5 f6 f1
    by_cases hsp : inp.space = true
    · simp only [hsp, if_true] at hr
      cases hb : spaceBlock inp s with
      | none => simp [hb] at hr
      | some t =>
        simp only [hb, Option.bind_eq_bind, Option.some_bind] at hr
        exact key t (h.of_space inp hb) hr
    · simp only [hsp] at hr
      exact key s h hr

theorem NameInv.initial : NameInv initGame := by
  refine ⟨rfl, by decide, by decide, rfl, ?_, ?_⟩
  · intro i hi
    have hi2 : (i : Int) < 0 := hi
    omega
  · intro p hp
    simp only [initGame, List.mem_replicate] at hp
    rw [hp.2]
    rfl

/-- Every reachable state satisfies the invariant of the name buffer. -/
theorem Reachable.nameInv {s : Game} (h : Reachable s) : NameInv s := by
  induction h with
  | init => exact NameInv.initial
  | step inp _ hstep ih => exact ih.after_frame inp hstep

theorem take_set_self (l : List Nat) (n a : Nat) : (l.set n a).take n = l.take n := by
  induction l generalizing n with
  | nil => simp
  | cons x t ih => cases n <;> simp [ih]

theorem backspace_cstr {s : Game} (h : NameInv s) :
    cstr (backspaceKey s).tempName = (cstr s.tempName).dropLast ∧
    (backspaceKey s).letterCount = max 0 (s.letterCount - 1) := by
  have h0 := h.lc_nonneg
  have h1 := h.lc_le
  have hl := h.buf_len
  have e2 : (backspaceKey s).letterCount = max 0 (s.letterCount - 1) := by
    show (if s.letterCount - 1 < 0 then 0 else s.letterCount - 1) = max 0 (s.letterCount - 1)
    split <;> omega
  refine ⟨?_, e2⟩
  rw [h.of_backspace.cstr_eq, h.cstr_eq, e2]
  show ((s.tempName.set (if s.letterCount - 1 < 0 then (0 : Int) else s.letterCount - 1).toNat 0).take
    (max 0 (s.letterCount - 1)).toNat) = _
  have e3 : (if s.letterCount - 1 < 0 then (0 : Int) else s.letterCount - 1).toNat
      = s.letterCount.toNat - 1 := by split <;> omega
  have e4 : (max 0 (s.letterCount - 1)).toNat = s.letterCount.toNat - 1 := by omega
  rw [e3, e4, take_set_self, List.dropLast_take (by omega)]

/-! ## C11: the invariant of the name buffer -/

/-- C11: in every reachable state the name buffer has 16 bytes, `letterCount`
is between 0 and 15, `tempName[letterCount]` is the NUL, every byte before it
is a code in 32..125, so the C string in the buffer is its first `letterCount`
bytes; the copy into the next scoreboard entry fits the 16 bytes of the entry
and holds the same string; a key outside 32..125 stores nothing; the backspace
block removes exactly the last character, and leaves an empty name empty. -/
theorem name_buffer (s : Game) (hR : Reachable s) :
    s.tempName.length = 16 ∧ 0 ≤ s.letterCount ∧ s.letterCount ≤ 15 ∧
    s.tempName[s.letterCount.toNat]? = some 0 ∧
    (∀ i : Nat, (i : Int) < s.letterCount → ∃ c, s.tempName[i]? = some c ∧ 32 ≤ c ∧ c ≤ 125) ∧
    cstr s.tempName = s.tempName.take s.letterCount.toNat ∧
    ((cstr s.tempName).length : Int) = s.letterCount ∧
    (s.playerCount < MAX_PLAYERS →
      (newEntry s).name.length = 16 ∧ cstr (newEntry s).name = cstr s.tempName) ∧
    (∀ p ∈ s.players, p.name.length = 16) ∧
    (∀ key : Int, ¬ (32 ≤ key ∧ key ≤ 125) → typeKey key s = s) ∧
    cstr (backspaceKey s).tempName = (cstr s.tempName).dropLast ∧
    (backspaceKey s).letterCount = max 0 (s.letterCount - 1) ∧
    (s.letterCount = 0 → cstr (backspaceKey s).tempName = [] ∧ (backspaceKey s).letterCount = 0) := by
  have h := hR.nameInv
  have hI := hR.invariant
  obtain ⟨b1, b2⟩ := backspace_cstr h
  refine ⟨h.buf_len, h.lc_nonneg, h.lc_le, h.nul, h.printable, h.cstr_eq, h.cstr_length, ?_,
    h.names_len, ?_, b1, b2, ?_⟩
  · intro hlt
    simp only [MAX_PLAYERS] at hlt
    have hn : s.playerCount.toNat < s.players.length := by
      have := hI.count_nonneg
      rw [hI.board_len]
      omega
    refine ⟨?_, cstr_strcpy _ _⟩
    show (strcpy (s.players.getD s.playerCount.toNat ⟨[], 0, false⟩).name s.tempName).length = 16
    have hold : (s.players.getD s.playerCount.toNat ⟨[], 0, false⟩).name.length = 16 := by
      apply h.names_len
      rw [List.getD_eq_getElem _ _ hn]
      exact List.getElem_mem hn
    rw [strcpy_length _ _ (by
      have := h.cstr_length
      have := h.lc_le
      omega), hold]
  · intro key hk
    simp only [typeKey]
    rw [if_neg]
    intro hc
    exact hk ⟨hc.1, hc.2.1⟩
  · intro hz
    rw [b1, b2, h.cstr_eq, hz]
    simp

theorem name_buffer_witness :
    Reachable demoTitle ∧ cstr demoTitle.tempName = [65] ∧ demoTitle.letterCount = 1 ∧
    cstr (backspaceKey demoTitle).tempName = [] ∧ (newEntry demoTitle).name.length = 16 :=
  ⟨demoTitle_reachable, by decide, rfl,
    by
      rw [(name_buffer demoTitle demoTitle_reachable).2.2.2.2.2.2.2.2.2.2.1]
      decide,
    ((name_buffer demoTitle demoTitle_reachable).2.2.2.2.2.2.2.1 (by decide)).1⟩

/-! ## C12: confirm on the naming screen -/

theorem nameEdit_eq (inp : Input) (s : Game) :
    nameEdit inp s = { s with tempName := (nameEdit inp s).tempName,
                              letterCount := (nameEdit inp s).letterCount } := by
  obtain ⟨name, lc, he⟩ := nameEdit_name inp s
  have e : nameEdit inp s = { s with tempName := name, letterCount := lc } := he
  rw [e]

/-- C12: in `STATE_INPUT`, a frame with ENTER pressed returns; it ends in
`STATE_TITLE` exactly when the name is non-empty after the typing and
backspace events of the frame. In that case both scores and the level index
are 0 and the five slots of level 0 are regenerated; otherwise the frame only
applies the name edits: state, scores, level index and field are unchanged. -/
theorem naming_confirm (s : Game) (inp : Input) (hR : Reachable s)
    (hI : s.currentState = STATE_INPUT) (he : inp.enter = true) :
    ∃ s1, UpdateGame inp s = some s1 ∧
      (s1.currentState = STATE_TITLE ↔ cstr (nameEdit inp s).tempName ≠ []) ∧
      (cstr (nameEdit inp s).tempName ≠ [] →
        s1.currentSessionScore = 0 ∧ s1.levelStartScore = 0 ∧ s1.currentLevel = 0 ∧
        s1.tempName = (nameEdit inp s).tempName ∧ s1.pacmanY = 225 ∧ s1.pacmanVelocityY = 0 ∧
        ∀ i : Nat, i < 5 →
          s1.pipeX i = 1100 + 300 * (i : ℚ) ∧
          s1.pipeGapY i = genGapY ⟨5, 3, 160, 2 / 5⟩ inp.rand i ∧
          s1.initialPipeGapY i = s1.pipeGapY i ∧
          s1.orbRelY i = genOrbRelY ⟨5, 3, 160, 2 / 5⟩ inp.rand i ∧
          s1.pipePassed i = false ∧ s1.orbCollected i = false) ∧
      (cstr (nameEdit inp s).tempName = [] →
        s1 = nameEdit inp s ∧ s1.currentState = STATE_INPUT ∧
        s1.currentSessionScore = s.currentSessionScore ∧
        s1.levelStartScore = s.levelStartScore ∧ s1.currentLevel = s.currentLevel ∧
        s1.pacmanY = s.pacmanY ∧ s1.pacmanVelocityY = s.pacmanVelocityY ∧
        s1.pipeX = s.pipeX ∧ s1.pipeGapY = s.pipeGapY ∧
        s1.initialPipeGapY = s.initialPipeGapY ∧ s1.orbRelY = s.orbRelY ∧
        s1.pipePassed = s.pipePassed ∧ s1.orbCollected = s.orbCollected) := by
  have hN := hR.nameInv.of_nameEdit inp
  have hlen := hN.cstr_length
  have hne : cstr (nameEdit inp s).tempName ≠ [] ↔ (nameEdit inp s).letterCount > 0 := by
    rw [← hlen, ne_eq, ← List.length_eq_zero]
    omega
  have hst : (nameEdit inp s).currentState = STATE_INPUT := by
    rw [nameEdit_eq]
    exact hI
  have hU : UpdateGame inp s = UpdateInput inp s := by simp [UpdateGame, hI]
  rw [hU, UpdateInput_eq]
  by_cases hpos : (nameEdit inp s).letterCount > 0
  · have hc : cstr (nameEdit inp s).tempName ≠ [] := hne.2 hpos
    obtain ⟨cur, hcur, hreset⟩ := reset_catalog_eq inp.rand
      { nameEdit inp s with currentState := STATE_TITLE, currentSessionScore := 0,
                            levelStartScore := 0, currentLevel := 0 } (Or.inl rfl)
    have hcur2 : cur = ⟨5, 3, 160, 2 / 5⟩ := by
      have : levelAt 0 = some cur := hcur
      rw [levelAt_zero] at this
      exact (Option.some.inj this).symm
    subst hcur2
    rw [if_pos ⟨he, hpos⟩, hreset]
    refine ⟨_, rfl, ⟨fun _ => hc, fun _ => rfl⟩, fun _ => ⟨rfl, rfl, rfl, rfl, ?_, rfl, ?_⟩,
      fun h0 => absurd h0 hc⟩
    · simp [resetResult, SCREEN_HEIGHT]
      norm_num
    · intro i hi
      refine ⟨?_, by simp [resetResult, hi], by simp [resetResult, hi], by simp [resetResult, hi],
        by simp [resetResult, hi], by simp [resetResult, hi]⟩
      simp only [resetResult, Int.toNat_ofNat, SCREEN_WIDTH]
      push_cast
      rw [if_pos hi]
      ring
  · have hc : cstr (nameEdit inp s).tempName = [] := by
      by_contra hcon
      exact hpos (hne.1 hcon)
    rw [if_neg (fun h => hpos h.2)]
    refine ⟨_, rfl, ⟨fun h => ?_, fun h => absurd hc h⟩, fun h => absurd hc h, fun _ => ?_⟩
    · rw [hst] at h
      cases h
    · refine ⟨rfl, hst, ?_⟩
      rw [nameEdit_eq]
      exact ⟨rfl, rfl, rfl, rfl, rfl, rfl, rfl, rfl, rfl, rfl, rfl⟩

theorem naming_confirm_witness :
    Reachable initGame ∧ initGame.currentState = STATE_INPUT ∧ nameInput.enter = true ∧
    ∃ s1, UpdateGame nameInput initGame = some s1 ∧
      (s1.currentState = STATE_TITLE ↔ cstr (nameEdit nameInput initGame).tempName ≠ []) :=
  ⟨Reachable.init, rfl, rfl,
    (naming_confirm initGame nameInput Reachable.init rfl rfl).imp (fun _ h => ⟨h.1, h.2.1⟩)⟩

/-! ## C13: the placement of the orb -/

/-- The avatar after a playing frame. -/
theorem playWith_avatar (cur : LevelData) (inp : Input) (s : Game) :
    (playWith cur inp s).pacmanVelocityY = (updatePlayer cur inp s).pacmanVelocityY ∧
    (playWith cur inp s).pacmanY = (updatePlayer cur inp s).pacmanY := by
  simp [playWith_eq, pipeLoopResult, boundsCheck_eq]

/-- C14: a frame in `STATE_PLAYING` or in `STATE_TITLE` with SPACE pressed
returns, and ends with `pacmanVelocityY = JUMP_STRENGTH = -6` and
`pacmanY` moved by `JUMP_STRENGTH`, whatever the velocity and the position
were; the same holds for the playing part run with any level spec. -/
theorem jump_override (s : Game) (inp : Input) (cur : LevelData)
    (hc : levelAt s.currentLevel = some cur)
    (hs : s.currentState = STATE_PLAYING ∨ s.currentState = STATE_TITLE)
    (hsp : inp.space = true) :
    JUMP_STRENGTH = -6 ∧
    (∃ s1, UpdateGame inp s = some s1 ∧ s1.pacmanVelocityY = JUMP_STRENGTH ∧
      s1.pacmanY = s.pacmanY + JUMP_STRENGTH) ∧
    (∀ cur1 : LevelData, (playWith cur1 inp s).pacmanVelocityY = JUMP_STRENGTH ∧
      (playWith cur1 inp s).pacmanY = s.pacmanY + JUMP_STRENGTH) := by
  have hgen : ∀ (cur1 : LevelData) (t : Game), (playWith cur1 inp t).pacmanVelocityY = JUMP_STRENGTH ∧
      (playWith cur1 inp t).pacmanY = t.pacmanY + JUMP_STRENGTH := by
    intro cur1 t
    obtain ⟨a1, a2⟩ := playWith_avatar cur1 inp t
    rw [a1, a2]
    simp [updatePlayer, hsp]
  refine ⟨rfl, ?_, fun cur1 => hgen cur1 s⟩
  rcases hs with hp | ht
  · exact ⟨_, UpdateGame_playing inp s cur hc hp, hgen cur s⟩
  · exact ⟨_, UpdateGame_title_space inp s cur hc ht hsp, hgen cur _⟩

theorem jump_override_witness :
    ∃ s1, UpdateGame spaceInput demoTitle = some s1 ∧ s1.pacmanVelocityY = JUMP_STRENGTH ∧
      s1.pacmanY = demoTitle.pacmanY + JUMP_STRENGTH :=
  (jump_override demoTitle spaceInput ⟨5, 3, 160, 2 / 5⟩ rfl (Or.inr rfl) rfl).2.1

/-! ## C15: integration without a jump -/

/-- The avatar after a playing frame without SPACE. -/
theorem playWith_fall (cur : LevelData) (inp : Input) (s : Game) (hsp : inp.space = false) :
    (playWith cur inp s).pacmanVelocityY = s.pacmanVelocityY + cur.gravity ∧
    (playWith cur inp s).pacmanY = s.pacmanY + s.pacmanVelocityY + cur.gravity := by
  obtain ⟨a1, a2⟩ := playWith_avatar cur inp s
  rw [a1, a2]
  simp [updatePlayer, hsp, add_assoc]

/-- C15: for a level spec with positive gravity, the playing part of a frame
without SPACE ends with velocity `v + g`, greater than `v`, and position
`y + v + g`; a frame in `STATE_PLAYING` on that level runs exactly this part;
after `k` consecutive playing frames without SPACE the velocity is
`v0 + k * g` and the position `y0 + k * v0 + g * k * (k + 1) / 2`. -/
theorem fall_velocity (s : Game) (cur : LevelData) (hg : 0 < cur.gravity) :
    (∀ inp : Input, inp.space = false →
      (playWith cur inp s).pacmanVelocityY = s.pacmanVelocityY + cur.gravity ∧
      s.pacmanVelocityY < (playWith cur inp s).pacmanVelocityY ∧
      (playWith cur inp s).pacmanY = s.pacmanY + s.pacmanVelocityY + cur.gravity) ∧
    (∀ inp : Input, s.currentState = STATE_PLAYING → levelAt s.currentLevel = some cur →
      UpdateGame inp s = some (playWith cur inp s)) ∧
    (∀ (k : Nat) (t : Game), levelAt s.currentLevel = some cur → Glide s k t →
      t.pacmanVelocityY = s.pacmanVelocityY + k * cur.gravity ∧
      (0 < k → s.pacmanVelocityY < t.pacmanVelocityY) ∧
      t.pacmanY = s.pacmanY + k * s.pacmanVelocityY + cur.gravity * k * (k + 1) / 2) := by
  refine ⟨fun inp hsp => ?_, fun inp hp hc => UpdateGame_playing inp s cur hc hp, ?_⟩
  · obtain ⟨a1, a2⟩ := playWith_fall cur inp s hsp
    exact ⟨a1, by rw [a1]; linarith, a2⟩
  · intro k t hc hgl
    have key : t.currentLevel = s.currentLevel ∧
        t.pacmanVelocityY = s.pacmanVelocityY + k * cur.gravity ∧
        t.pacmanY = s.pacmanY + k * s.pacmanVelocityY + cur.gravity * k * (k + 1) / 2 := by
      induction hgl with
      | refl => simp
      | @step t u k inp _ hp hsp hf ih =>
        obtain ⟨i1, i2, i3⟩ := ih
        rw [UpdateGame_playing inp t cur (by rw [i1]; exact hc) hp] at hf
        cases hf
        obtain ⟨a1, a2⟩ := playWith_fall cur inp t hsp
        refine ⟨by rw [(playWith_fixed cur inp t).2.2.1, i1], ?_, ?_⟩
        · rw [a1, i2]
          push_cast
          ring
        · rw [a2, i2, i3]
          push_cast
          ring
    refine ⟨key.2.1, fun hk => ?_, key.2.2⟩
    rw [key.2.1]
    have : (0 : ℚ) < (k : ℚ) := by exact_mod_cast hk
    nlinarith

theorem fall_velocity_witness :
    Glide (flight 1) 2 (flight 3) ∧
    (flight 3).pacmanVelocityY = (flight 1).pacmanVelocityY + (2 : Nat) * (2 / 5 : ℚ) := by
  have hg : Glide (flight 1) 2 (flight 3) :=
    Glide.step (flightInput 3) (Glide.step (flightInput 2) (Glide.refl _) rfl rfl
      (flight_frame 1 (by decide) (by decide))) rfl rfl (flight_frame 2 (by decide) (by decide))
  exact ⟨hg, ((fall_velocity (flight 1) ⟨5, 3, 160, 2 / 5⟩ (by norm_num)).2.2 2 (flight 3) rfl hg).1⟩

/-! ## C16: no death inside a gap -/

theorem hitNow_boundsCheck (cur : LevelData) (inp : Input) (s : Game) (i : Nat) :
    hitNow cur inp (boundsCheck s) i = hitNow cur inp s i := by
  refine (slot_local cur inp s (boundsCheck s) i ?_ ?_ ?_ ?_ ?_ ?_ ?_ ?_).1 <;>
    simp [boundsCheck_eq]

/-- The state at the end of a playing frame started in `STATE_PLAYING`. -/
theorem playWith_currentState (cur : LevelData) (inp : Input) (s : Game)
    (hs : s.currentState = STATE_PLAYING) :
    (playWith cur inp s).currentState =
      if (passedCount cur (playWith cur inp s) : Int) ≥ cur.pipeCount then STATE_LEVEL_DONE
      else if (List.range cur.pipeCount.toNat).any (slotHit cur inp s) || boundsHit cur inp s
        then STATE_GAMEOVER
      else STATE_PLAYING := by
  have e : (List.range cur.pipeCount.toNat).any (hitNow cur inp (boundsCheck (updatePlayer cur inp s)))
      = (List.range cur.pipeCount.toNat).any (slotHit cur inp s) := by
    congr 1
    funext i
    exact hitNow_boundsCheck cur inp _ i
  have hpp : (playWith cur inp s).pipePassed
      = (pipeLoopResult cur inp cur.pipeCount.toNat (boundsCheck (updatePlayer cur inp s))).pipePassed := by
    rw [playWith_eq]
  have hst : (playWith cur inp s).currentState =
      if (countTrue (pipeLoopResult cur inp cur.pipeCount.toNat
            (boundsCheck (updatePlayer cur inp s))).pipePassed cur.pipeCount.toNat : Int)
          ≥ cur.pipeCount then STATE_LEVEL_DONE
      else (pipeLoopResult cur inp cur.pipeCount.toNat
            (boundsCheck (updatePlayer cur inp s))).currentState := by
    rw [playWith_eq]
  have hls : (pipeLoopResult cur inp cur.pipeCount.toNat
        (boundsCheck (updatePlayer cur inp s))).currentState =
      if (List.range cur.pipeCount.toNat).any (slotHit cur inp s) then STATE_GAMEOVER
      else (boundsCheck (updatePlayer cur inp s)).currentState := by
    rw [← e]
    rfl
  have hbs : (boundsCheck (updatePlayer cur inp s)).currentState =
      if boundsHit cur inp s then STATE_GAMEOVER else STATE_PLAYING := by
    rw [boundsCheck_eq]
    show (if outOfBounds (updatePlayer cur inp s) = true then STATE_GAMEOVER
      else (updatePlayer cur inp s).currentState) = _
    rw [show (updatePlayer cur inp s).currentState = STATE_PLAYING from hs]
    rfl
  rw [hst, hls, hbs, passedCount, hpp]
  by_cases h1 : (List.range cur.pipeCount.toNat).any (slotHit cur inp s) = true <;>
    by_cases h2 : boundsHit cur inp s = true <;> simp [h1, h2]

/-- C16: the player rectangle is the square `[185, 215] x [pacmanY - 15,
pacmanY + 15]`; when it is vertically inside the gap of slot `i` after the
integration, neither pipe rectangle of the slot collides with it, whatever
`pipeX[i]` is; when this holds for every slot below `pipeCount` and the bounds
condition is false, a frame in `STATE_PLAYING` returns and does not end in
`STATE_GAMEOVER`. -/
theorem no_death_inside_gap (s : Game) (inp : Input) (cur : LevelData) :
    ((playerRect s).x = 185 ∧ (playerRect s).width = 30 ∧ (playerRect s).y = s.pacmanY - 15 ∧
      (playerRect s).height = 30) ∧
    (∀ i : Nat, insideGap cur inp s i →
      CheckCollisionRecs (topPipe (movePipe cur inp i (updatePlayer cur inp s)) i)
        (playerRect (movePipe cur inp i (updatePlayer cur inp s))) = false ∧
      CheckCollisionRecs (botPipe cur (movePipe cur inp i (updatePlayer cur inp s)) i)
        (playerRect (movePipe cur inp i (updatePlayer cur inp s))) = false) ∧
    (s.currentState = STATE_PLAYING → levelAt s.currentLevel = some cur →
      (∀ i : Nat, (i : Int) < cur.pipeCount → insideGap cur inp s i) →
      boundsHit cur inp s = false →
      ∃ s1, UpdateGame inp s = some s1 ∧ s1.currentState ≠ STATE_GAMEOVER) := by
  have hy : ∀ i, (movePipe cur inp i (updatePlayer cur inp s)).pacmanY
      = (updatePlayer cur inp s).pacmanY := by
    intro i
    simp [movePipe_eq]
  have hslot : ∀ i : Nat, insideGap cur inp s i →
      CheckCollisionRecs (topPipe (movePipe cur inp i (updatePlayer cur inp s)) i)
        (playerRect (movePipe cur inp i (updatePlayer cur inp s))) = false ∧
      CheckCollisionRecs (botPipe cur (movePipe cur inp i (updatePlayer cur inp s)) i)
        (playerRect (movePipe cur inp i (updatePlayer cur inp s))) = false := by
    intro i hin
    obtain ⟨h1, h2⟩ := hin
    simp only [CheckCollisionRecs, topPipe, botPipe, playerRect, hy, PACMAN_RADIUS,
      decide_eq_false_iff_not, not_and, not_lt]
    constructor
    · intros
      linarith
    · intros
      linarith
  refine ⟨?_, hslot, fun hp hc hall hb => ⟨_, UpdateGame_playing inp s cur hc hp, ?_⟩⟩
  · simp only [playerRect, PACMAN_X_POS, PACMAN_RADIUS, SCREEN_WIDTH]
    exact ⟨by norm_num, by norm_num, by ring, by norm_num⟩
  · rw [playWith_currentState cur inp s hp]
    have hany : (List.range cur.pipeCount.toNat).any (slotHit cur inp s) = false := by
      rw [List.any_eq_false]
      intro i hi
      have hi2 : (i : Int) < cur.pipeCount := by
        have := List.mem_range.1 hi
        omega
      obtain ⟨c1, c2⟩ := hslot i (hall i hi2)
      simp [slotHit, hitNow, c1, c2]
    rw [hany, hb]
    split <;> simp

theorem no_death_inside_gap_witness :
    ∃ s1, UpdateGame idleInput (flight 700) = some s1 ∧ s1.currentState ≠ STATE_GAMEOVER := by
  refine (no_death_inside_gap (flight 700) idleInput ⟨5, 3, 160, 2 / 5⟩).2.2 rfl rfl ?_ ?_
  · intro i hi
    have hi5 : i < 5 := by
      have : (i : Int) < 5 := hi
      omega
    simp [insideGap, movePipe, updatePlayer, flight, flightPhase, flightBase, demoTitle, idleInput,
      initGame, hi5]
    norm_num
  · simp [boundsHit, outOfBounds, updatePlayer, flight, flightPhase, flightBase, demoTitle,
      idleInput, initGame, PACMAN_RADIUS, SCREEN_HEIGHT]
    norm_num

/-! ## C17: the level-clear condition -/

theorem countTrue_eq_iff (f : Nat → Bool) (n : Nat) :
    countTrue f n = n ↔ ∀ i, i < n → f i = true := by
  constructor
  · intro h i hi
    exact countTrue_eq_self f n h i hi
  · intro h
    induction n with
    | zero => rfl
    | succ m ih =>
      rw [countTrue_succ, ih (fun i hi => h i (by omega)), h m (by omega)]
      simp

/-- A playing frame started in `STATE_PLAYING` ends in `STATE_LEVEL_DONE`
exactly when every slot below `pipeCount` is passed at its end. -/
theorem playWith_done_iff (cur : LevelData) (inp : Input) (s : Game)
    (hs : s.currentState = STATE_PLAYING) :
    (playWith cur inp s).currentState = STATE_LEVEL_DONE ↔
      ∀ i : Nat, (i : Int) < cur.pipeCount → (playWith cur inp s).pipePassed i = true := by
  rw [playWith_currentState cur inp s hs, passedCount]
  have hle := countTrue_le (playWith cur inp s).pipePassed cur.pipeCount.toNat
  constructor
  · intro h i hi
    split at h
    · rename_i hge
      refine countTrue_eq_self _ cur.pipeCount.toNat ?_ i (by omega)
      omega
    · split at h <;> cases h
  · intro h
    have : countTrue (playWith cur inp s).pipePassed cur.pipeCount.toNat = cur.pipeCount.toNat :=
      (countTrue_eq_iff _ _).2 (fun i hi => h i (by omega))
    rw [if_pos (by omega)]

/-- C17: a frame in `STATE_PLAYING` returns, and it ends in `STATE_LEVEL_DONE`
exactly when every slot below `pipeCount` is passed at the end of the frame;
in `STATE_LEVEL_DONE` a frame without SPACE changes nothing, so that no
further frame of the same level attempt leaves the state. -/
theorem level_clear (s : Game) (inp : Input) (cur : LevelData) :
    (s.currentState = STATE_PLAYING → levelAt s.currentLevel = some cur →
      ∃ s1, UpdateGame inp s = some s1 ∧
        (s1.currentState = STATE_LEVEL_DONE ↔
          ∀ i : Nat, (i : Int) < cur.pipeCount → s1.pipePassed i = true)) ∧
    (s.currentState = STATE_LEVEL_DONE → inp.space = false → UpdateGame inp s = some s) ∧
    (s.currentState = STATE_LEVEL_DONE → ∀ t, Attempt s t → t = s) := by
  have hidle : ∀ (t : Game) (inp1 : Input), t.currentState = STATE_LEVEL_DONE → inp1.space = false →
      UpdateGame inp1 t = some t := by
    intro t inp1 hd hsp
    simp [UpdateGame, hd, hsp]
  refine ⟨fun hp hc => ⟨_, UpdateGame_playing inp s cur hc hp, playWith_done_iff cur inp s hp⟩,
    hidle s inp, fun hd t ha => ?_⟩
  induction ha with
  | refl => rfl
  | @step t u inp1 _ hf hr ih =>
    subst ih
    have hsp : inp1.space = false := by
      rcases hf with h | h | h
      · rw [hd] at h
        cases h
      · rw [hd] at h
        cases h
      · exact h.2
    rw [hidle t inp1 hd hsp] at hr
    exact (Option.some.inj hr).symm

theorem level_clear_witness :
    (∃ s1, UpdateGame idleInput (flight 723) = some s1 ∧
      (s1.currentState = STATE_LEVEL_DONE ↔
        ∀ i : Nat, (i : Int) < 5 → s1.pipePassed i = true)) ∧
    UpdateGame idleInput clearedState = some clearedState :=
  ⟨(level_clear (flight 723) idleInput ⟨5, 3, 160, 2 / 5⟩).1 rfl rfl,
    (level_clear clearedState idleInput ⟨5, 3, 160, 2 / 5⟩).2.1 rfl rfl⟩

/-! ## A trip through level 1 -/

theorem next_reachable (inp : Input) (s : Game) (h : Reachable s) : Reachable (next inp s) := by
  simp only [next]
  cases hu : UpdateGame inp s with
  | none => exact h
  | some s1 => exact Reachable.step inp h hu

theorem next_eq (inp : Input) (s s1 : Game) (h : UpdateGame inp s = some s1) : next inp s = s1 := by
  simp [next, h]

/-- Inside the gap there is no collision with the pipes of the slot. -/
theorem slotHit_of_insideGap (cur : LevelData) (inp : Input) (s : Game) (i : Nat)
    (h : insideGap cur inp s i) : slotHit cur inp s i = false := by
  obtain ⟨h1, h2⟩ := h
  have hy : (movePipe cur inp i (updatePlayer cur inp s)).pacmanY = (updatePlayer cur inp s).pacmanY := by
    simp [movePipe_eq]
  simp only [slotHit, hitNow, CheckCollisionRecs, topPipe, botPipe, playerRect, hy, PACMAN_RADIUS,
    Bool.or_eq_false_iff, decide_eq_false_iff_not, not_and, not_lt]
  constructor
  · intros
    linarith
  · intros
    linarith

theorem slotHit_of_far (cur : LevelData) (inp : Input) (s : Game) (i : Nat)
    (h : 215 ≤ s.pipeX i - cur.speed) : slotHit cur inp s i = false :=
  (quiet_of_far cur inp (updatePlayer cur inp s) i h).1

theorem cleared0_eq : cleared0 = playWith ⟨5, 3, 160, 2 / 5⟩ idleInput (flight 723) :=
  next_eq _ _ _ (UpdateGame_playing idleInput (flight 723) ⟨5, 3, 160, 2 / 5⟩ rfl rfl)

theorem cleared0_state : cleared0.currentState = STATE_LEVEL_DONE ∧ cleared0.currentLevel = 0 := by
  rw [cleared0_eq]
  refine ⟨(playWith_done_iff _ idleInput (flight 723) rfl).2 (fun i hi => ?_),
    (playWith_fixed _ idleInput (flight 723)).2.2.1⟩
  have hi5 : i < 5 := by
    have : (i : Int) < 5 := hi
    omega
  rw [(playWith_slot ⟨5, 3, 160, 2 / 5⟩ idleInput (flight 723) i hi5).2]
  have : (i : ℚ) ≤ 4 := by exact_mod_cast (by omega : i ≤ 4)
  simp only [flight, demoTitle, hi5, if_true, PIPE_WIDTH, PACMAN_X_POS, SCREEN_WIDTH,
    Bool.or_eq_true, decide_eq_true_eq]
  right
  push_cast
  linarith

/-- SPACE on the cleared level 0 loads level 1. -/
theorem level1_load (s : Game) (inp : Input) (hs : s.currentState = STATE_LEVEL_DONE)
    (hl : s.currentLevel = 0) (hsp : inp.space = true) :
    UpdateGame inp s = some (resetResult ⟨10, 7 / 2, 150, 9 / 20⟩ inp.rand 10
      { s with currentLevel := s.currentLevel + 1, currentState := STATE_TITLE,
               levelStartScore := s.currentSessionScore }) := by
  obtain ⟨cur, hcur, hreset⟩ := reset_catalog_eq inp.rand
    { s with currentLevel := s.currentLevel + 1, currentState := STATE_TITLE,
             levelStartScore := s.currentSessionScore } (Or.inr (by simp [hl]))
  have hcur2 : cur = ⟨10, 7 / 2, 150, 9 / 20⟩ := by
    have : levelAt (s.currentLevel + 1) = some cur := hcur
    rw [hl] at this
    exact (Option.some.inj this).symm
  subst hcur2
  have hsb : spaceBlock inp s = ResetEntityPositions inp.rand
      { s with currentLevel := s.currentLevel + 1, currentState := STATE_TITLE,
               levelStartScore := s.currentSessionScore } := by
    simp only [spaceBlock, hs, levelDoneSpace, hl, MAX_LEVELS]
    rfl
  simp only [UpdateGame, hs, hsp, if_true, hsb, hreset]
  simp [resetResult]

theorem level1Title_eq : level1Title = resetResult ⟨10, 7 / 2, 150, 9 / 20⟩ (fun _ => 0) 10
    { cleared0 with currentLevel := cleared0.currentLevel + 1, currentState := STATE_TITLE,
                    levelStartScore := cleared0.currentSessionScore } :=
  next_eq _ _ _ (level1_load cleared0 spaceInput cleared0_state.1 cleared0_state.2 rfl)

theorem level1_fresh (s : Game) (hl : s.currentLevel = 0) :
    TripInv 0 (resetResult ⟨10, 7 / 2, 150, 9 / 20⟩ (fun _ => 0) 10
      { s with currentLevel := s.currentLevel + 1, currentState := STATE_TITLE,
               levelStartScore := s.currentSessionScore }) := by
  refine ⟨by simp [resetResult, hl], rfl, fun i hi => ?_, fun _ => by simp [resetResult], ?_⟩
  · simp only [resetResult, hi, if_true, genGapY, SCREEN_WIDTH, Int.zero_tmod]
    push_cast
    constructor <;> ring
  · simp [Envelope, resetResult, SCREEN_HEIGHT]
    norm_num

theorem level1Title_inv : TripInv 0 level1Title := by
  rw [level1Title_eq]
  exact level1_fresh cleared0 cleared0_state.2

theorem cleared0_reachable : Reachable cleared0 :=
  next_reachable idleInput (flight 723) (flight_reachable 723 (by decide) (by decide)).1

theorem level1Title_reachable : Reachable level1Title :=
  next_reachable spaceInput cleared0 cleared0_reachable

theorem trip_zero : trip 0 = level1Title := rfl

theorem envelope_title (y v : ℚ) (h : Envelope 0 y v) :
    180 < y + v + 9 / 20 ∧ Envelope 1 (y + -6) (-6) := by
  simp only [Envelope, if_true] at h
  obtain ⟨hy, hv⟩ := h
  subst hy hv
  refine ⟨by norm_num, ?_⟩
  simp only [Envelope]
  norm_num

theorem envelope_step (t : Nat) (y v : ℚ) (ht : 1 ≤ t) (h : Envelope t y v) :
    Envelope (t + 1) (y + (if 180 < y + v + 9 / 20 then -6 else v + 9 / 20))
      (if 180 < y + v + 9 / 20 then -6 else v + 9 / 20) := by
  have ht0 : ¬ t = 0 := by omega
  simp only [Envelope, ht0, if_false, Nat.succ_ne_zero] at h ⊢
  rcases h with ⟨h6, hy, hv⟩ | ⟨hy, hv1, hv2, he⟩
  · subst hy hv
    have htq : (t : ℚ) ≤ 6 := by exact_mod_cast h6
    have ht1 : (1 : ℚ) ≤ (t : ℚ) := by exact_mod_cast ht
    rw [if_pos (by linarith)]
    by_cases h5 : t + 1 ≤ 6
    · left
      refine ⟨h5, ?_, rfl⟩
      push_cast
      ring
    · right
      have : t = 6 := by omega
      subst this
      norm_num
  · right
    by_cases hj : 180 < y + v + 9 / 20
    · rw [if_pos hj]
      refine ⟨by linarith, le_refl _, by norm_num, ?_⟩
      nlinarith
    · rw [if_neg hj]
      have hy2 : y + (v + 9 / 20) ≤ 180 := by linarith
      have he2 : (v + 9 / 20) * (v + 9 / 20 + 9 / 20) ≤ 9 / 10 * (y + (v + 9 / 20) - 129) := by
        nlinarith
      refine ⟨by linarith, by linarith, ?_, he2⟩
      by_contra hc
      have hc2 : 33 / 5 < v + 9 / 20 := lt_of_not_le hc
      nlinarith

theorem envelope_safe (t : Nat) (y v : ℚ) (ht : 1 ≤ t) (h : Envelope t y v) :
    (t ≤ 6 ∧ 20 < y ∧ y < 430) ∨ (65 ≤ y ∧ y ≤ 185) := by
  have ht0 : ¬ t = 0 := by omega
  simp only [Envelope, ht0, if_false] at h
  rcases h with ⟨h6, hy, _⟩ | ⟨hy, _, _, he⟩
  · left
    have htq : (t : ℚ) ≤ 6 := by exact_mod_cast h6
    have ht1 : (1 : ℚ) ≤ (t : ℚ) := by exact_mod_cast ht
    subst hy
    exact ⟨h6, by linarith, by linarith⟩
  · right
    refine ⟨?_, by linarith⟩
    nlinarith [sq_nonneg (v + 9 / 40)]

theorem countTrue_lt_of_false (f : Nat → Bool) (n i : Nat) (hi : i < n) (h : f i = false) :
    countTrue f n < n := by
  have hle := countTrue_le f n
  rcases Nat.lt_or_ge (countTrue f n) n with h1 | h1
  · exact h1
  · have := countTrue_eq_self f n (by omega) i hi
    rw [h] at this
    cases this

/-- A playing frame of the demo trip. -/
theorem trip_play (t : Nat) (u : Game) (inp : Input) (ht : t ≤ 1048)
    (hl : u.currentLevel = 1) (hst : u.currentState = STATE_PLAYING)
    (hp : ∀ i : Nat, i < 10 → u.pipeX i = 1100 + 300 * (i : ℚ) - 7 / 2 * (t : ℚ) ∧
      u.initialPipeGapY i = 50)
    (h9 : u.pipePassed 9 = false) (hosc : ∀ i, inp.sinOsc i = 0)
    (henv : Envelope (t + 1) (updatePlayer ⟨10, 7 / 2, 150, 9 / 20⟩ inp u).pacmanY
      (updatePlayer ⟨10, 7 / 2, 150, 9 / 20⟩ inp u).pacmanVelocityY) :
    TripInv (t + 1) (playWith ⟨10, 7 / 2, 150, 9 / 20⟩ inp u) := by
  have htq : (t : ℚ) ≤ 1048 := by exact_mod_cast ht
  obtain ⟨a1, a2⟩ := playWith_avatar ⟨10, 7 / 2, 150, 9 / 20⟩ inp u
  obtain ⟨_, _, f3, _, _, _, f7, _⟩ := playWith_fixed ⟨10, 7 / 2, 150, 9 / 20⟩ inp u
  have hpass : ∀ i : Nat, i < 10 →
      (playWith ⟨10, 7 / 2, 150, 9 / 20⟩ inp u).pipePassed i =
        (u.pipePassed i || decide (300 * (i : ℚ) + 970 < 7 / 2 * ((t : ℚ) + 1))) := by
    intro i hi
    have e := (playWith_slot ⟨10, 7 / 2, 150, 9 / 20⟩ inp u i hi).2
    have hiff : (1100 + 300 * (i : ℚ) - 7 / 2 * (t : ℚ) - (7 / 2 : ℚ) + (PIPE_WIDTH : ℚ) < PACMAN_X_POS)
        ↔ (300 * (i : ℚ) + 970 < 7 / 2 * ((t : ℚ) + 1)) := by
      simp only [PIPE_WIDTH, PACMAN_X_POS, SCREEN_WIDTH]
      push_cast
      constructor <;> intro h <;> linarith
    rw [e, (hp i hi).1]
    simp only [hiff]
  have hsafe := envelope_safe (t + 1) _ _ (by omega) henv
  have hhit : ∀ i : Nat, i < 10 → slotHit ⟨10, 7 / 2, 150, 9 / 20⟩ inp u i = false := by
    intro i hi
    rcases hsafe with ⟨h6, _, _⟩ | ⟨h65, h185⟩
    · apply slotHit_of_far
      rw [(hp i hi).1]
      have : (t : ℚ) ≤ 5 := by exact_mod_cast (by omega : t ≤ 5)
      have : (0 : ℚ) ≤ (i : ℚ) := Nat.cast_nonneg i
      show (215 : ℚ) ≤ 1100 + 300 * (i : ℚ) - 7 / 2 * (t : ℚ) - 7 / 2
      linarith
    · apply slotHit_of_insideGap
      have hg : (movePipe ⟨10, 7 / 2, 150, 9 / 20⟩ inp i
          (updatePlayer ⟨10, 7 / 2, 150, 9 / 20⟩ inp u)).pipeGapY i = 50 := by
        have hl2 : (updatePlayer ⟨10, 7 / 2, 150, 9 / 20⟩ inp u).currentLevel = 1 := hl
        have hi2 : (updatePlayer ⟨10, 7 / 2, 150, 9 / 20⟩ inp u).initialPipeGapY i = 50 := (hp i hi).2
        simp [movePipe_eq, hl2, hi2, hosc]
      refine ⟨?_, ?_⟩
      · rw [hg]
        linarith
      · rw [hg]
        show _ ≤ (50 : ℚ) + 150
        linarith
  have hbounds : boundsHit ⟨10, 7 / 2, 150, 9 / 20⟩ inp u = false := by
    simp only [boundsHit, outOfBounds, PACMAN_RADIUS, SCREEN_HEIGHT, decide_eq_false_iff_not, not_or,
      not_le]
    push_cast
    rcases hsafe with ⟨_, h1, h2⟩ | ⟨h1, h2⟩ <;> constructor <;> linarith
  have hany : (List.range (10 : Int).toNat).any (slotHit ⟨10, 7 / 2, 150, 9 / 20⟩ inp u) = false := by
    rw [List.any_eq_false]
    intro i hi
    have := List.mem_range.1 hi
    simp [hhit i this]
  refine ⟨by rw [f3]; exact hl, ?_, fun i hi => ?_, fun h1048 => ?_, by rw [a1, a2]; exact henv⟩
  · rw [playWith_currentState _ inp u hst]
    show (if (passedCount ⟨10, 7 / 2, 150, 9 / 20⟩ (playWith ⟨10, 7 / 2, 150, 9 / 20⟩ inp u) : Int) ≥ 10
      then STATE_LEVEL_DONE
      else if (List.range (10 : Int).toNat).any (slotHit ⟨10, 7 / 2, 150, 9 / 20⟩ inp u) ||
          boundsHit ⟨10, 7 / 2, 150, 9 / 20⟩ inp u then STATE_GAMEOVER else STATE_PLAYING) = _
    rw [hany, hbounds]
    by_cases h1048 : t + 1 ≤ 1048
    · have hlt : countTrue (playWith ⟨10, 7 / 2, 150, 9 / 20⟩ inp u).pipePassed 10 < 10 := by
        apply countTrue_lt_of_false _ 10 9 (by decide)
        rw [hpass 9 (by decide), h9]
        have : (t : ℚ) + 1 ≤ 1048 := by exact_mod_cast h1048
        simp only [Bool.false_or, decide_eq_false_iff_not, not_lt]
        push_cast
        linarith
      have hpc : passedCount ⟨10, 7 / 2, 150, 9 / 20⟩ (playWith ⟨10, 7 / 2, 150, 9 / 20⟩ inp u)
          = countTrue (playWith ⟨10, 7 / 2, 150, 9 / 20⟩ inp u).pipePassed 10 := rfl
      rw [hpc, if_neg (by omega)]
      simp [tripState, h1048]
    · have h49 : t = 1048 := by omega
      subst h49
      have hall : countTrue (playWith ⟨10, 7 / 2, 150, 9 / 20⟩ inp u).pipePassed 10 = 10 := by
        rw [countTrue_eq_iff]
        intro i hi
        rw [hpass i hi]
        have : (i : ℚ) ≤ 9 := by exact_mod_cast (by omega : i ≤ 9)
        simp only [Bool.or_eq_true, decide_eq_true_eq]
        right
        push_cast
        linarith
      have hpc : passedCount ⟨10, 7 / 2, 150, 9 / 20⟩ (playWith ⟨10, 7 / 2, 150, 9 / 20⟩ inp u)
          = countTrue (playWith ⟨10, 7 / 2, 150, 9 / 20⟩ inp u).pipePassed 10 := rfl
      rw [hpc, hall]
      simp [tripState]
  · rw [(playWith_slot ⟨10, 7 / 2, 150, 9 / 20⟩ inp u i hi).1, (hp i hi).1, f7]
    refine ⟨?_, (hp i hi).2⟩
    show (1100 : ℚ) + 300 * (i : ℚ) - 7 / 2 * (t : ℚ) - 7 / 2 = _
    push_cast
    ring
  · rw [hpass 9 (by decide), h9]
    have : ((t + 1 : Nat) : ℚ) ≤ 1048 := by exact_mod_cast h1048
    simp only [Bool.false_or, decide_eq_false_iff_not, not_lt]
    push_cast at this ⊢
    linarith

/-- One frame of the demo trip keeps what the proof tracks. -/
theorem trip_step (t : Nat) (s : Game) (ht : t ≤ 1048) (h : TripInv t s) :
    ∃ s1, UpdateGame (pilot s) s = some s1 ∧ TripInv (t + 1) s1 := by
  obtain ⟨hl, hst, hp, h9, henv⟩ := h
  have hc : levelAt s.currentLevel = some ⟨10, 7 / 2, 150, 9 / 20⟩ := by rw [hl]; rfl
  by_cases h0 : t = 0
  · subst h0
    obtain ⟨e1, e2⟩ := envelope_title _ _ henv
    have hsp : (pilot s).space = true := by simp [pilot, e1]
    refine ⟨_, UpdateGame_title_space (pilot s) s _ hc hst hsp, ?_⟩
    refine trip_play 0 _ (pilot s) ht hl rfl (fun i hi => hp i hi) (h9 ht) (fun _ => rfl) ?_
    simp only [updatePlayer, hsp, if_true, JUMP_STRENGTH]
    exact e2
  · have hst2 : s.currentState = STATE_PLAYING := by
      rw [hst]
      simp [tripState, h0, ht]
    refine ⟨_, UpdateGame_playing (pilot s) s _ hc hst2, ?_⟩
    refine trip_play t s (pilot s) ht hl hst2 hp (h9 ht) (fun _ => rfl) ?_
    have e := envelope_step t _ _ (by omega) henv
    simp only [updatePlayer, pilot, JUMP_STRENGTH]
    by_cases hj : 180 < s.pacmanY + s.pacmanVelocityY + 9 / 20
    · simp only [hj, if_true, decide_True] at e ⊢
      exact e
    · simp only [hj, if_false, decide_False] at e ⊢
      exact e

theorem trip_succ (t : Nat) : trip (t + 1) = next (pilot (trip t)) (trip t) := rfl

/-- Every state of the demo trip is reachable and is as tracked. -/
theorem trip_inv (t : Nat) (ht : t ≤ 1049) : Reachable (trip t) ∧ TripInv t (trip t) := by
  induction t with
  | zero =>
    rw [trip_zero]
    exact ⟨level1Title_reachable, level1Title_inv⟩
  | succ n ih =>
    obtain ⟨hr, hi⟩ := ih (by omega)
    obtain ⟨s1, h1, h2⟩ := trip_step n (trip n) (by omega) hi
    rw [trip_succ, next_eq _ _ _ h1]
    exact ⟨Reachable.step _ hr h1, h2⟩

theorem addPlayer_level (s : Game) : (addPlayer s).currentLevel = s.currentLevel := by
  simp only [addPlayer]
  split <;> rfl

/-- How one frame changes the level index. -/
theorem UpdateGame_level (inp : Input) (s s1 : Game) (hr : UpdateGame inp s = some s1) :
    s1.currentLevel = s.currentLevel ∨ s1.currentLevel = 0 ∨
      (s.currentState = STATE_LEVEL_DONE ∧ s1.currentLevel = s.currentLevel + 1) := by
  have hreset : ∀ (t u : Game), ResetEntityPositions inp.rand t = some u →
      u.currentLevel = t.currentLevel := by
    intro t u h
    obtain ⟨cur, _, he⟩ := reset_some_eq inp.rand t u h
    rw [he]
    exact (resetResult_fixed cur inp.rand _ t).2.2.2.1
  simp only [UpdateGame] at hr
  split at hr
  · rw [UpdateInput_eq] at hr
    split at hr
    · right
      left
      exact hreset _ _ hr
    · cases hr
      left
      rw [nameEdit_eq]
  · have key : ∀ t, (if t.currentState ≠ STATE_PLAYING then pure t else playFrame inp t) = some s1 →
        s1.currentLevel = t.currentLevel := by
      intro t hr2
      split at hr2
      · cases hr2
        rfl
      · simp only [playFrame] at hr2
        cases hc : levelAt t.currentLevel with
        | none => simp [hc] at hr2
        | some cur =>
          simp only [hc, Option.bind_eq_bind, Option.some_bind, Option.pure_def, Option.some.injEq] at hr2
          rw [← hr2]
          exact (playWith_fixed cur inp t).2.2.1
    by_cases hsp : inp.space = true
    · simp only [hsp, if_true] at hr
      cases hb : spaceBlock inp s with
      | none => simp [hb] at hr
      | some t =>
        simp only [hb, Option.bind_eq_bind, Option.some_bind] at hr
        rw [key t hr]
        simp only [spaceBlock] at hb
        split at hb
        · cases hb
          left
          rfl
        · rename_i hd
          right
          right
          refine ⟨hd, ?_⟩
          simp only [levelDoneSpace] at hb
          split at hb
          · cases hb
            exact addPlayer_level _
          · exact hreset _ _ hb
        · left
          have e := hreset _ _ hb
          exact e
        · cases hb
          left
          rfl
        · cases hb
          left
          rfl
    · simp only [hsp] at hr
      left
      exact key s hr

/-- The level index of a reachable state is between 0 and `MAX_LEVELS`. -/
theorem Reachable.level_bound {s : Game} (h : Reachable s) :
    0 ≤ s.currentLevel ∧ s.currentLevel ≤ MAX_LEVELS := by
  induction h with
  | init => exact ⟨le_refl _, by decide⟩
  | @step s s1 inp hR hstep ih =>
    simp only [MAX_LEVELS] at ih ⊢
    rcases UpdateGame_level inp s s1 hstep with h1 | h1 | ⟨hd, h1⟩
    · rw [h1]
      exact ih
    · rw [h1]
      exact ⟨le_refl _, by decide⟩
    · rw [h1]
      rcases hR.invariant.level_range (Or.inr (Or.inr (Or.inl hd))) with h0 | h0 <;> rw [h0] <;> decide

/-- SPACE on the cleared level 1: the victory screen, with the level index at 2. -/
theorem victory_level (s : Game) (inp : Input) (hst : s.currentState = STATE_LEVEL_DONE)
    (hl : s.currentLevel = 1) (hsp : inp.space = true) :
    ∃ s1, UpdateGame inp s = some s1 ∧ s1.currentState = STATE_VICTORY ∧ s1.currentLevel = 2 := by
  refine ⟨_, victory_frame s inp hst (by rw [hl]; decide) hsp, addPlayer_state _, ?_⟩
  show (addPlayer
    { s with currentLevel := s.currentLevel + 1, currentState := STATE_VICTORY }).currentLevel = 2
  rw [addPlayer_level]
  show s.currentLevel + 1 = 2
  rw [hl]
  rfl

/-- SPACE on the victory screen: the naming screen, with the level index unchanged. -/
theorem victory_to_input (s : Game) (inp : Input) (hst : s.currentState = STATE_VICTORY)
    (hsp : inp.space = true) :
    ∃ s1, UpdateGame inp s = some s1 ∧ s1.currentState = STATE_INPUT ∧
      s1.currentLevel = s.currentLevel := by
  refine ⟨{ s with currentState := STATE_INPUT, letterCount := 0, tempName := s.tempName.set 0 0 },
    ?_, rfl, rfl⟩
  simp [UpdateGame, hst, hsp, spaceBlock]

theorem trip_done : Reachable (trip 1049) ∧ (trip 1049).currentState = STATE_LEVEL_DONE ∧
    (trip 1049).currentLevel = 1 := by
  obtain ⟨hr, hl, hst, _⟩ := trip_inv 1049 (le_refl _)
  exact ⟨hr, hst, hl⟩

theorem tripEnd_state : Reachable tripEnd ∧ tripEnd.currentState = STATE_VICTORY ∧
    tripEnd.currentLevel = 2 := by
  obtain ⟨hr, hst, hl⟩ := trip_done
  obtain ⟨s1, h1, h2, h3⟩ := victory_level (trip 1049) spaceInput hst hl rfl
  have e : tripEnd = s1 := next_eq _ _ _ h1
  rw [e]
  exact ⟨Reachable.step _ hr h1, h2, h3⟩

theorem tripInput_state : Reachable tripInput ∧ tripInput.currentState = STATE_INPUT ∧
    tripInput.currentLevel = 2 := by
  obtain ⟨hr, hst, hl⟩ := tripEnd_state
  obtain ⟨s1, h1, h2, h3⟩ := victory_to_input tripEnd spaceInput hst rfl
  have e : tripInput = s1 := next_eq _ _ _ h1
  rw [e]
  exact ⟨Reachable.step _ hr h1, h2, by rw [h3, hl]⟩

/-- The frames that end on the victory screen: a frame without SPACE on the
victory screen, or SPACE on a cleared level whose index, once incremented, is
not below `MAX_LEVELS`. -/
theorem victory_origin (inp : Input) (s s1 : Game) (hr : UpdateGame inp s = some s1)
    (hv : s1.currentState = STATE_VICTORY) :
    (s.currentState = STATE_VICTORY ∧ s1.currentLevel = s.currentLevel) ∨
    (s.currentState = STATE_LEVEL_DONE ∧ s.currentLevel + 1 ≥ MAX_LEVELS ∧
      s1.currentLevel = s.currentLevel + 1) := by
  have hreset : ∀ (t u : Game), ResetEntityPositions inp.rand t = some u →
      u.currentState = t.currentState := by
    intro t u h
    obtain ⟨cur, _, he⟩ := reset_some_eq inp.rand t u h
    rw [he]
    exact (resetResult_fixed cur inp.rand _ t).2.2.1
  simp only [UpdateGame] at hr
  split at hr
  · rename_i hI
    exfalso
    rw [UpdateInput_eq] at hr
    split at hr
    · have e := hreset _ _ hr
      rw [hv] at e
      cases e
    · cases hr
      have e : (nameEdit inp s).currentState = s.currentState := by rw [nameEdit_eq]
      rw [e, hI] at hv
      cases hv
  · have key : ∀ t, (if t.currentState ≠ STATE_PLAYING then pure t else playFrame inp t) = some s1 →
        s1 = t := by
      intro t hr2
      split at hr2
      · cases hr2
        rfl
      · rename_i hP
        exfalso
        simp only [playFrame] at hr2
        cases hc : levelAt t.currentLevel with
        | none => simp [hc] at hr2
        | some cur =>
          simp only [hc, Option.bind_eq_bind, Option.some_bind, Option.pure_def, Option.some.injEq] at hr2
          have hP2 : t.currentState = STATE_PLAYING := by
            by_contra h
            exact hP h
          rcases playWith_state cur inp t hP2 with h | h | h <;> rw [hr2, hv] at h <;> cases h
    by_cases hsp : inp.space = true
    · simp only [hsp, if_true] at hr
      cases hb : spaceBlock inp s with
      | none => simp [hb] at hr
      | some t =>
        simp only [hb, Option.bind_eq_bind, Option.some_bind] at hr
        have e := key t hr
        subst e
        simp only [spaceBlock] at hb
        split at hb
        · cases hb
          cases hv
        · rename_i hd
          right
          simp only [levelDoneSpace] at hb
          split at hb
          · rename_i hge
            cases hb
            exact ⟨hd, hge, addPlayer_level _⟩
          · have e := hreset _ _ hb
            rw [hv] at e
            cases e
        · have e := hreset _ _ hb
          rw [hv] at e
          cases e
        · cases hb
          cases hv
        · rename_i h1 h2 h3 h4
          cases hb
          left
          exact ⟨hv, rfl⟩
    · simp only [hsp] at hr
      have e := key s hr
      subst e
      left
      exact ⟨hv, rfl⟩

/-- On every reachable victory screen the level index is `MAX_LEVELS`. -/
theorem Reachable.victory_index {s : Game} (h : Reachable s) (hv : s.currentState = STATE_VICTORY) :
    s.currentLevel = MAX_LEVELS := by
  induction h with
  | init => cases hv
  | @step s s1 inp hR hstep ih =>
    rcases victory_origin inp s s1 hstep hv with ⟨h1, h2⟩ | ⟨h1, h2, h3⟩
    · rw [h2]
      exact ih h1
    · rw [h3]
      rcases hR.invariant.level_range (Or.inr (Or.inr (Or.inl h1))) with h0 | h0
      · rw [h0] at h2
        exact absurd h2 (by decide)
      · rw [h0]
        rfl

/-! ## C18: the level index -/

/-- C18 (evaluation of the code at the failing input): in every reachable
state the level index is between 0 and `MAX_LEVELS`, and in the four states
in which a level is loaded it is below `MAX_LEVELS`, with at most `MAX_PIPES`
slots; but on every reachable victory screen the level index is
`MAX_LEVELS = 2`, where the lookup `levels[currentLevel]` of `DrawGame` is
outside the level table. The victory screen reached by the demo run (level 0
cleared by the demo flight, level 1 by the demo trip, then SPACE) and the
naming screen that follows it are such states. -/
theorem level_index_leaves_table :
    (∀ s : Game, Reachable s → 0 ≤ s.currentLevel ∧ s.currentLevel ≤ MAX_LEVELS ∧
      (inLevel s → s.currentLevel < MAX_LEVELS ∧
        ∃ cur, levelAt s.currentLevel = some cur ∧ cur.pipeCount ≤ (MAX_PIPES : Int))) ∧
    MAX_LEVELS = 2 ∧
    (∀ s : Game, Reachable s → s.currentState = STATE_VICTORY →
      s.currentLevel = MAX_LEVELS ∧ drawCur s = none) ∧
    (Reachable tripEnd ∧ tripEnd.currentState = STATE_VICTORY ∧ tripEnd.currentLevel = 2 ∧
      drawCur tripEnd = none) ∧
    (Reachable tripInput ∧ tripInput.currentState = STATE_INPUT ∧ tripInput.currentLevel = 2 ∧
      drawCur tripInput = none) := by
  obtain ⟨a1, a2, a3⟩ := tripEnd_state
  obtain ⟨b1, b2, b3⟩ := tripInput_state
  refine ⟨fun s hR => ⟨hR.level_bound.1, hR.level_bound.2, fun hin => ?_⟩, rfl,
    fun s hR hv => ⟨hR.victory_index hv, by rw [drawCur, hR.victory_index hv]; rfl⟩,
    ⟨a1, a2, a3, by rw [drawCur, a3]; rfl⟩, ⟨b1, b2, b3, by rw [drawCur, b3]; rfl⟩⟩
  obtain ⟨cur, hc⟩ := hR.invariant.level_some s hin
  refine ⟨?_, cur, hc, ?_⟩
  · rcases hR.invariant.level_range hin with h0 | h0 <;> rw [h0] <;> decide
  · rcases levelAt_cases _ cur hc with h0 | h0 <;> rw [h0] <;> decide

/-! ## The simpler variant: the loops in closed form -/

namespace Simple

theorem set_of_getElem? {α : Type} (l : List α) (n : Nat) (a : α) (h : l[n]? = some a) :
    l.set n a = l := by
  induction l generalizing n with
  | nil => rfl
  | cons x t ih =>
    cases n with
    | zero =>
      simp at h
      simp [h]
    | succ m =>
      simp at h
      simp [ih m h]

theorem setScore_self (k : Int) (tbl : List LevelData) : setScore k (fun x => x) tbl = tbl := by
  simp only [setScore]
  split
  · rename_i l hl
    simp only [levelAt] at hl
    split at hl
    · exact set_of_getElem? _ _ _ hl
    · cases hl
  · rfl

theorem setScore_zero (k : Int) (tbl : List LevelData) : setScore k (fun x => x + 0) tbl = tbl := by
  simp only [add_zero]
  exact setScore_self k tbl

theorem levelAt_setScore (k : Int) (f : Int → Int) (tbl : List LevelData) :
    levelAt (setScore k f tbl) k = (levelAt tbl k).map (fun l => { l with score := f l.score }) := by
  simp only [setScore]
  cases h : levelAt tbl k with
  | none => simp [h]
  | some l =>
    simp only [levelAt] at h ⊢
    split at h
    · rename_i hk
      have hn : k.toNat < tbl.length := by
        obtain ⟨hlt, _⟩ := List.getElem?_eq_some.1 h
        exact hlt
      simp [hk, List.getElem?_set_self hn]
    · cases h

theorem setScore_setScore (k : Int) (f g : Int → Int) (tbl : List LevelData) :
    setScore k f (setScore k g tbl) = setScore k (fun x => f (g x)) tbl := by
  have h1 := levelAt_setScore k g tbl
  cases h : levelAt tbl k with
  | none =>
    simp only [setScore, h]
  | some l =>
    rw [h] at h1
    conv_lhs => rw [setScore, h1]
    simp only [Option.map_some', setScore, h, List.set_set]

theorem scoreAt_setScore (k : Int) (f : Int → Int) (tbl : List LevelData)
    (h : (levelAt tbl k).isSome) : scoreAt (setScore k f tbl) k = f (scoreAt tbl k) := by
  simp only [scoreAt, levelAt_setScore]
  cases h2 : levelAt tbl k with
  | none => simp [h2] at h
  | some l => simp

theorem movePipe_closed (cur : LevelData) (inp : Input) (i : Nat) (s : Game) :
    movePipe cur inp i s = { s with
      pipeX := Function.update s.pipeX i (s.pipeX i - cur.speed),
      pipeGapY := if s.currentLevel = 1 then
          Function.update s.pipeGapY i (s.initialPipeGapY i + inp.sinOsc i * 50)
        else s.pipeGapY } := by
  simp only [movePipe]
  split <;> rfl

theorem hitPipe_closed (cur : LevelData) (i : Nat) (s : Game) :
    hitPipe cur i s = { s with
      gameOver := s.gameOver || (CheckCollisionRecs (topPipe s i) (playerRect s) ||
          CheckCollisionRecs (botPipe cur s i) (playerRect s)) } := by
  simp only [hitPipe]
  split
  · rename_i h
    rw [h]
    simp
  · rename_i h
    have : (CheckCollisionRecs (topPipe s i) (playerRect s) ||
          CheckCollisionRecs (botPipe cur s i) (playerRect s)) = false := by simpa using h
    rw [this]
    simp

theorem collectOrb_closed (i : Nat) (s : Game) :
    collectOrb i s = { s with
      orbCollected := if (!s.orbCollected i && CheckCollisionRecs (playerRect s) (orbHitbox s i)) then
          Function.update s.orbCollected i true else s.orbCollected,
      levels := setScore s.currentLevel (fun x => x +
        if (!s.orbCollected i && CheckCollisionRecs (playerRect s) (orbHitbox s i)) then 5 else 0) s.levels,
      currentScore := s.currentScore +
        if (!s.orbCollected i && CheckCollisionRecs (playerRect s) (orbHitbox s i)) then 5 else 0 } := by
  simp only [collectOrb]
  by_cases h1 : s.orbCollected i <;> by_cases h2 : CheckCollisionRecs (playerRect s) (orbHitbox s i) <;>
    simp [h1, h2, setScore_self]

theorem passPipe_closed (i : Nat) (s : Game) :
    passPipe i s = { s with
      pipePassed := if (!s.pipePassed i && decide (s.pipeX i + (PIPE_WIDTH : ℚ) < PACMAN_X_POS)) then
          Function.update s.pipePassed i true else s.pipePassed,
      levels := setScore s.currentLevel (fun x => x +
        if (!s.pipePassed i && decide (s.pipeX i + (PIPE_WIDTH : ℚ) < PACMAN_X_POS)) then 1 else 0) s.levels,
      currentScore := s.currentScore +
        if (!s.pipePassed i && decide (s.pipeX i + (PIPE_WIDTH : ℚ) < PACMAN_X_POS)) then 1 else 0 } := by
  simp only [passPipe]
  split <;> simp [setScore_self]

/-- One iteration of the pipe loop as a single update of the globals. -/
theorem pipeStep_closed (cur : LevelData) (inp : Input) (s : Game) (c : Int) (i : Nat) :
    (pipeStep cur inp (s, c) i).1 = { s with
      pipeX := Function.update s.pipeX i (s.pipeX i - cur.speed),
      pipeGapY := Function.update s.pipeGapY i ((movePipe cur inp i s).pipeGapY i),
      gameOver := s.gameOver || hitNow cur inp s i,
      orbCollected := if orbNow cur inp s i then Function.update s.orbCollected i true
        else s.orbCollected,
      pipePassed := if passNow cur inp s i then Function.update s.pipePassed i true
        else s.pipePassed,
      levels := setScore s.currentLevel (fun x => x + slotGain cur inp s i) s.levels,
      currentScore := s.currentScore + slotGain cur inp s i } := by
  simp only [pipeStep, passPipe_closed, collectOrb_closed, hitPipe_closed, hitNow, orbNow, passNow,
    slotGain, playerRect, orbHitbox, topPipe, botPipe, setScore_setScore]
  simp only [movePipe_closed]
  apply Game.ext <;> simp only []
  · congr 1
    funext x
    exact Int.add_assoc _ _ _
  · split <;> simp
  · exact Int.add_assoc _ _ _

/-- Iteration `i` of the pipe loop reads only slot `i`, the level index and
the avatar position. -/
theorem slot_reads (cur : LevelData) (inp : Input) (s t : Game) (i : Nat)
    (h1 : t.pipeX i = s.pipeX i) (h2 : t.pipeGapY i = s.pipeGapY i)
    (h3 : t.initialPipeGapY i = s.initialPipeGapY i) (h4 : t.currentLevel = s.currentLevel)
    (h5 : t.pacmanY = s.pacmanY) (h6 : t.orbRelY i = s.orbRelY i)
    (h7 : t.orbCollected i = s.orbCollected i) (h8 : t.pipePassed i = s.pipePassed i) :
    hitNow cur inp t i = hitNow cur inp s i ∧ orbNow cur inp t i = orbNow cur inp s i ∧
    passNow cur inp t i = passNow cur inp s i ∧ slotGain cur inp t i = slotGain cur inp s i ∧
    (movePipe cur inp i t).pipeGapY i = (movePipe cur inp i s).pipeGapY i := by
  have hg : (movePipe cur inp i t).pipeGapY i = (movePipe cur inp i s).pipeGapY i := by
    simp only [movePipe_closed, h4]
    split <;> simp [h2, h3]
  have hx : (movePipe cur inp i t).pipeX i = (movePipe cur inp i s).pipeX i := by
    simp [movePipe_closed, h1]
  have hy : (movePipe cur inp i t).pacmanY = (movePipe cur inp i s).pacmanY := by
    simp [movePipe_closed, h5]
  have ho : (movePipe cur inp i t).orbRelY i = (movePipe cur inp i s).orbRelY i := by
    simp [movePipe_closed, h6]
  have hc : (movePipe cur inp i t).orbCollected i = (movePipe cur inp i s).orbCollected i := by
    simp [movePipe_closed, h7]
  have hp : (movePipe cur inp i t).pipePassed i = (movePipe cur inp i s).pipePassed i := by
    simp [movePipe_closed, h8]
  have e1 : hitNow cur inp t i = hitNow cur inp s i := by
    simp only [hitNow, topPipe, botPipe, playerRect, hg, hx, hy]
  have e2 : orbNow cur inp t i = orbNow cur inp s i := by
    simp only [orbNow, orbHitbox, playerRect, hg, hx, hy, ho, hc]
  have e3 : passNow cur inp t i = passNow cur inp s i := by
    simp only [passNow, hx, hp]
  exact ⟨e1, e2, e3, by simp only [slotGain, e2, e3], hg⟩

theorem pipeStep_pipeLoopResult_closed (cur : LevelData) (inp : Input) (s : Game) (n : Nat) (c : Int) :
    (pipeStep cur inp (pipeLoopResult cur inp n s, c) n).1 = pipeLoopResult cur inp (n + 1) s := by
  obtain ⟨e1, e2, e3, e4, e5⟩ := slot_reads cur inp s (pipeLoopResult cur inp n s) n
    (by simp [pipeLoopResult]) (by simp [pipeLoopResult]) (by simp [pipeLoopResult])
    (by simp [pipeLoopResult]) (by simp [pipeLoopResult]) (by simp [pipeLoopResult])
    (by simp [pipeLoopResult]) (by simp [pipeLoopResult])
  rw [pipeStep_closed, e1, e2, e3, e4, e5]
  apply Game.ext <;> simp only [pipeLoopResult]
  · rw [setScore_setScore]
    congr 1
    funext x
    simp [List.range_succ, Int.add_assoc]
  · simp [List.range_succ, Bool.or_assoc]
  · exact update_ite_lt n _ _ _ (by simp)
  · exact update_ite_lt n _ _ _ rfl
  · exact ite_update_or n s.pipePassed (passNow cur inp s)
  · exact ite_update_or n s.orbCollected (orbNow cur inp s)
  · simp [List.range_succ, Int.add_assoc]

theorem pipeStep_counter (cur : LevelData) (inp : Input) (st : Game × Int) (i : Nat) :
    (pipeStep cur inp st i).2 =
      st.2 + if (pipeStep cur inp st i).1.pipePassed i = true then 1 else 0 := by
  simp only [pipeStep]
  split <;> simp

/-- The pipe loop in closed form; the counter `pipesCleared` is the number of
slots below `n` that are passed after the loop. -/
theorem pipeLoop_range_closed (cur : LevelData) (inp : Input) (s : Game) (n : Nat) :
    (List.range n).foldl (pipeStep cur inp) (s, 0)
      = (pipeLoopResult cur inp n s, (countTrue (pipeLoopResult cur inp n s).pipePassed n : Int)) := by
  induction n with
  | zero =>
    have h0 : pipeLoopResult cur inp 0 s = s := by
      apply Game.ext <;> simp [pipeLoopResult, setScore_self]
    simp [h0, countTrue]
  | succ n ih =>
    rw [List.range_succ, List.foldl_append, ih, List.foldl_cons, List.foldl_nil]
    refine Prod.ext (pipeStep_pipeLoopResult_closed cur inp s n _) ?_
    rw [pipeStep_counter, pipeStep_pipeLoopResult_closed, countTrue_succ]
    have hc : countTrue (pipeLoopResult cur inp (n + 1) s).pipePassed n
        = countTrue (pipeLoopResult cur inp n s).pipePassed n := by
      apply countTrue_congr
      intro i hi
      simp [pipeLoopResult, hi, Nat.lt_succ_of_lt hi]
    simp only [hc]
    split <;> simp

theorem pipeLoop_closed (cur : LevelData) (inp : Input) (s : Game) :
    pipeLoop cur inp s = (pipeLoopResult cur inp cur.pipeCount.toNat s,
      (countTrue (pipeLoopResult cur inp cur.pipeCount.toNat s).pipePassed cur.pipeCount.toNat : Int)) :=
  pipeLoop_range_closed cur inp s cur.pipeCount.toNat

theorem boundsCheck_closed (s : Game) :
    boundsCheck s = { s with gameOver := s.gameOver || outOfBounds s } := by
  simp only [boundsCheck]
  split
  · rename_i h
    rw [h]
    simp
  · rename_i h
    have : outOfBounds s = false := by simpa using h
    rw [this]
    simp

/-- The body of `UpdateGame` in closed form. -/
theorem playWith_closed (cur : LevelData) (inp : Input) (s : Game) :
    playWith cur inp s =
      if (countTrue (pipeLoopResult cur inp cur.pipeCount.toNat
            (boundsCheck (updatePlayer cur inp s))).pipePassed cur.pipeCount.toNat : Int)
          ≥ cur.pipeCount then
        { pipeLoopResult cur inp cur.pipeCount.toNat (boundsCheck (updatePlayer cur inp s)) with
          levelComplete := true,
          totalScore := (pipeLoopResult cur inp cur.pipeCount.toNat
              (boundsCheck (updatePlayer cur inp s))).totalScore +
            scoreAt (pipeLoopResult cur inp cur.pipeCount.toNat
              (boundsCheck (updatePlayer cur inp s))).levels
              (pipeLoopResult cur inp cur.pipeCount.toNat
                (boundsCheck (updatePlayer cur inp s))).currentLevel }
      else pipeLoopResult cur inp cur.pipeCount.toNat (boundsCheck (updatePlayer cur inp s)) := by
  simp only [playWith, pipeLoop_closed]

theorem resetSlot_closed (cur : LevelData) (rand : Nat → Int) (n : Nat) (s : Game)
    (hm : maxGapOf cur - 50 ≠ 0) :
    resetSlot cur rand n (resetResult cur rand n s, randsPerSlot cur * n)
      = some (resetResult cur rand (n + 1) s, randsPerSlot cur * (n + 1)) := by
  by_cases hs : safeRangeOf cur > 0
  · have hs0 : safeRangeOf cur ≠ 0 := by omega
    have hc : randsPerSlot cur = 2 := by simp [randsPerSlot, hs]
    simp only [resetSlot, cMod, hm, hs0, hs, if_true, if_false, Option.bind_eq_bind, Option.some_bind,
      Option.pure_def, bind_pure_comp, Option.some.injEq, Prod.mk.injEq, hc]
    refine ⟨?_, by ring⟩
    apply Game.ext <;> simp only [resetResult]
    all_goals first
      | rfl
      | (apply update_ite_lt; simp [genGapY, genOrbRelY, hc, hs])
  · have hc : randsPerSlot cur = 1 := by simp [randsPerSlot, hs]
    simp only [resetSlot, cMod, hm, hs, if_true, if_false, Option.bind_eq_bind, Option.some_bind,
      Option.pure_def, bind_pure_comp, Option.some.injEq, Prod.mk.injEq, hc]
    refine ⟨?_, by ring⟩
    apply Game.ext <;> simp only [resetResult]
    all_goals first
      | rfl
      | (apply update_ite_lt; simp [genGapY, genOrbRelY, hc, hs])

theorem resetLoop_closed (cur : LevelData) (rand : Nat → Int) (s : Game) (hm : maxGapOf cur - 50 ≠ 0)
    (n : Nat) :
    (List.range n).foldlM (fun st i => resetSlot cur rand i st) (resetResult cur rand 0 s, 0)
      = some (resetResult cur rand n s, randsPerSlot cur * n) := by
  induction n with
  | zero => simp
  | succ n ih =>
    rw [List.range_succ, List.foldlM_append, ih]
    simp [resetSlot_closed cur rand n s hm]

/-- The reset, once the level has been read, in closed form. -/
theorem resetWith_closed (cur : LevelData) (rand : Nat → Int) (s : Game) (hm : maxGapOf cur - 50 ≠ 0) :
    resetWith cur rand s = some (resetResult cur rand cur.pipeCount.toNat s) := by
  have h0 : ({ s with pacmanY := (SCREEN_HEIGHT : ℚ) / 2, pacmanVelocityY := 0, animationTime := 0 } : Game)
      = resetResult cur rand 0 s := by
    apply Game.ext <;> simp [resetResult]
  simp only [resetWith, h0, resetLoop_closed cur rand s hm]
  rfl

/-! ## The simpler variant: victory -/

theorem foldlM_keeps {σ : Type} (P : σ → Prop) (f : σ → Nat → Option σ) (l : List Nat)
    (hf : ∀ st i st1, P st → f st i = some st1 → P st1) (s s1 : σ) (hs : P s)
    (h : l.foldlM f s = some s1) : P s1 := by
  induction l generalizing s with
  | nil =>
    simp at h
    rw [← h]
    exact hs
  | cons i rest ih =>
    simp only [List.foldlM_cons, Option.bind_eq_bind] at h
    cases hi : f s i with
    | none => simp [hi] at h
    | some st =>
      simp only [hi, Option.some_bind] at h
      exact ih st (hf s i st hs hi) h

theorem resetSlot_ledger (cur : LevelData) (rand : Nat → Int) (i : Nat) (st st1 : Game × Nat)
    (h : resetSlot cur rand i st = some st1) : ledger st1.1 = ledger st.1 := by
  simp only [resetSlot, cMod, Option.bind_eq_bind, Option.pure_def] at h
  split at h
  · simp at h
  · simp only [Option.some_bind] at h
    split at h
    · split at h
      · simp at h
      · simp only [Option.some_bind, Option.some.injEq] at h
        rw [← h]
        rfl
    · simp only [Option.some.injEq] at h
      rw [← h]
      rfl

/-- The reset keeps the level table, the level index, the flags and the scores. -/
theorem reset_ledger (rand : Nat → Int) (t s1 : Game) (h : ResetEntityPositions rand t = some s1) :
    ledger s1 = ledger t := by
  simp only [ResetEntityPositions, resetWith, Option.bind_eq_bind, Option.pure_def] at h
  cases hc : levelAt t.levels t.currentLevel with
  | none => simp [hc] at h
  | some cur =>
    simp only [hc, Option.some_bind] at h
    cases hf : (List.range cur.pipeCount.toNat).foldlM (fun st i => resetSlot cur rand i st)
        (({ t with pacmanY := (SCREEN_HEIGHT : ℚ) / 2, pacmanVelocityY := 0, animationTime := 0 } : Game),
          0) with
    | none => simp [hf] at h
    | some st =>
      simp only [hf, Option.some_bind, Option.some.injEq] at h
      rw [← h]
      exact foldlM_keeps (fun st => ledger st.1 = ledger t) _ _
        (fun st i st1 hP hs => (resetSlot_ledger cur rand i st st1 hs).trans hP) _ _ rfl hf

theorem ChangeState_victory (rand : Nat → Int) (k : Int) (s s1 : Game)
    (h : ChangeState rand k s = some s1) (hv : s.gameVictory = true) : s1.gameVictory = true := by
  simp only [ChangeState] at h
  split at h
  · cases h
    rfl
  · have := reset_ledger rand _ s1 h
    simp only [ledger, Prod.mk.injEq] at this
    rw [this.2.2.2.2.2.1]
    exact hv

theorem UpdateGame_victory (inp : Input) (s : Game) (hv : s.gameVictory = true) :
    UpdateGame inp s = some s := by
  simp [UpdateGame, hv]

/-! ## The simpler variant: a flight through level 0 that ends in a crash -/

theorem hopPhase_a (t : Nat) (h : t < 7) : hopPhase t = t - 1 := by
  unfold hopPhase
  rw [if_pos h]

theorem hopPhase_b (t : Nat) (h1 : 7 ≤ t) (h2 : t < 18) : hopPhase t = t - 7 := by
  unfold hopPhase
  rw [if_neg (by omega), if_pos h2]

theorem hopPhase_c (t : Nat) (h1 : 18 ≤ t) (h2 : t ≤ 719) : hopPhase t = (t - 18) % 26 := by
  unfold hopPhase
  rw [if_neg (by omega), if_neg (by omega), if_pos h2]

theorem hopPhase_d (t : Nat) (h : 719 < t) : hopPhase t = t - 694 := by
  unfold hopPhase
  rw [if_neg (by omega), if_neg (by omega), if_neg (by omega)]

theorem hopBase_a (t : Nat) (h : t < 7) : hopBase t = 225 := by
  unfold hopBase
  rw [if_pos h]

theorem hopBase_b (t : Nat) (h1 : 7 ≤ t) (h2 : t < 18) : hopBase t = 201 := by
  unfold hopBase
  rw [if_neg (by omega), if_pos h2]

theorem hopBase_c (t : Nat) (h : 18 ≤ t) : hopBase t = 168 := by
  unfold hopBase
  rw [if_neg (by omega), if_neg (by omega)]

/-- From one frame of the demo flight to the next: either no jump, and the
phase grows by one, or a jump from the position reached. -/
theorem hop_schedule (t : Nat) (h1 : 1 ≤ t) (h2 : t ≤ 723) :
    (hopJump (t + 1) = false ∧ hopPhase (t + 1) = hopPhase t + 1 ∧ hopBase (t + 1) = hopBase t) ∨
    (hopJump (t + 1) = true ∧ hopPhase (t + 1) = 0 ∧ hopBase (t + 1) = hopY t) := by
  rcases (by omega : t + 1 < 7 ∨ t = 6 ∨ (7 ≤ t ∧ t + 1 < 18) ∨ t = 17 ∨
      (18 ≤ t ∧ t + 1 ≤ 719 ∧ (t - 18) % 26 = 25) ∨ (18 ≤ t ∧ t + 1 ≤ 719 ∧ (t - 18) % 26 < 25) ∨
      t = 719 ∨ (720 ≤ t ∧ t ≤ 723)) with h | h | h | h | h | h | h | h
  · left
    have hj : ¬ (t + 1 = 1 ∨ t + 1 = 7 ∨ (18 ≤ t + 1 ∧ t + 1 ≤ 694 ∧ (t + 1 - 18) % 26 = 0)) := by
      omega
    refine ⟨decide_eq_false hj, ?_, ?_⟩
    · rw [hopPhase_a _ h, hopPhase_a _ (by omega)]
      omega
    · rw [hopBase_a _ h, hopBase_a _ (by omega)]
  · right
    subst h
    refine ⟨by decide, by decide, ?_⟩
    simp only [hopY]
    rw [hopBase_b _ (by decide) (by decide), hopBase_a _ (by decide), hopPhase_a _ (by decide)]
    norm_num
  · left
    obtain ⟨ha, hb⟩ := h
    have hj : ¬ (t + 1 = 1 ∨ t + 1 = 7 ∨ (18 ≤ t + 1 ∧ t + 1 ≤ 694 ∧ (t + 1 - 18) % 26 = 0)) := by
      omega
    refine ⟨decide_eq_false hj, ?_, ?_⟩
    · rw [hopPhase_b _ (by omega) hb, hopPhase_b _ ha (by omega)]
      omega
    · rw [hopBase_b _ (by omega) hb, hopBase_b _ ha (by omega)]
  · right
    subst h
    refine ⟨by decide, by decide, ?_⟩
    simp only [hopY]
    rw [hopBase_c _ (by decide), hopBase_b _ (by decide) (by decide),
      hopPhase_b _ (by decide) (by decide)]
    norm_num
  · right
    obtain ⟨ha, hb, hc⟩ := h
    have hj : t + 1 = 1 ∨ t + 1 = 7 ∨ (18 ≤ t + 1 ∧ t + 1 ≤ 694 ∧ (t + 1 - 18) % 26 = 0) := by
      omega
    refine ⟨decide_eq_true hj, ?_, ?_⟩
    · rw [hopPhase_c _ (by omega) hb]
      omega
    · simp only [hopY]
      rw [hopBase_c _ (by omega), hopBase_c _ ha, hopPhase_c _ ha (by omega), hc]
      norm_num
  · left
    obtain ⟨ha, hb, hc⟩ := h
    have hj : ¬ (t + 1 = 1 ∨ t + 1 = 7 ∨ (18 ≤ t + 1 ∧ t + 1 ≤ 694 ∧ (t + 1 - 18) % 26 = 0)) := by
      omega
    refine ⟨decide_eq_false hj, ?_, ?_⟩
    · rw [hopPhase_c _ (by omega) hb, hopPhase_c _ ha (by omega)]
      omega
    · rw [hopBase_c _ (by omega), hopBase_c _ ha]
  · left
    subst h
    exact ⟨by decide, by decide, by rw [hopBase_c _ (by decide), hopBase_c _ (by decide)]⟩
  · left
    obtain ⟨ha, hb⟩ := h
    have hj : ¬ (t + 1 = 1 ∨ t + 1 = 7 ∨ (18 ≤ t + 1 ∧ t + 1 ≤ 694 ∧ (t + 1 - 18) % 26 = 0)) := by
      omega
    refine ⟨decide_eq_false hj, ?_, ?_⟩
    · rw [hopPhase_d _ (by omega), hopPhase_d _ (by omega)]
      omega
    · rw [hopBase_c _ (by omega), hopBase_c _ (by omega)]

/-- The avatar integration of a frame of the demo flight. -/
theorem hop_kinematics (t : Nat) (h1 : 1 ≤ t) (h2 : t ≤ 723) :
    (if hopJump (t + 1) = true then JUMP_STRENGTH else hopV t + 2 / 5) = hopV (t + 1) ∧
    hopY t + (if hopJump (t + 1) = true then JUMP_STRENGTH else hopV t + 2 / 5) = hopY (t + 1) := by
  rcases hop_schedule t h1 h2 with ⟨hj, hp, hb⟩ | ⟨hj, hp, hb⟩
  · simp only [hj, Bool.false_eq_true, if_false]
    simp only [hopY, hopV, hp, hb]
    push_cast
    constructor <;> ring
  · simp only [hj, if_true, JUMP_STRENGTH]
    constructor
    · simp only [hopV, hp]
      norm_num
    · rw [← hb]
      simp only [hopY, hp]
      norm_num

theorem hopPhase_le (t : Nat) (h2 : t ≤ 723) : hopPhase t ≤ 29 := by
  simp only [hopPhase]
  split_ifs <;> omega

/-- The avatar of the demo flight stays between 134 and 220, and below 192
from frame 18 on. -/
theorem hopY_bounds (t : Nat) (h2 : t ≤ 723) :
    134 ≤ hopY t ∧ hopY t ≤ 220 ∧ (18 ≤ t → hopY t ≤ 192) := by
  have hn : (hopPhase t : ℚ) ≤ 29 := by exact_mod_cast hopPhase_le t h2
  have hn0 : (0 : ℚ) ≤ (hopPhase t : ℚ) := Nat.cast_nonneg _
  simp only [hopY]
  refine ⟨?_, ?_, ?_⟩
  · rcases (by omega : t < 7 ∨ (7 ≤ t ∧ t < 18) ∨ 18 ≤ t) with h | h | h
    · rw [hopBase_a t h]
      nlinarith [sq_nonneg ((hopPhase t : ℚ) - 12)]
    · rw [hopBase_b t h.1 h.2]
      nlinarith [sq_nonneg ((hopPhase t : ℚ) - 12)]
    · rw [hopBase_c t h]
      nlinarith [sq_nonneg ((hopPhase t : ℚ) - 12)]
  · rcases (by omega : t < 7 ∨ (7 ≤ t ∧ t < 18) ∨ 18 ≤ t) with h | h | h
    · rw [hopBase_a t h]
      have hk : (hopPhase t : ℚ) ≤ 5 := by
        exact_mod_cast (by rw [hopPhase_a t h]; omega : hopPhase t ≤ 5)
      nlinarith [mul_nonneg hn0 (sub_nonneg.2 hk)]
    · rw [hopBase_b t h.1 h.2]
      have hk : (hopPhase t : ℚ) ≤ 10 := by
        exact_mod_cast (by rw [hopPhase_b t h.1 h.2]; omega : hopPhase t ≤ 10)
      nlinarith [mul_nonneg hn0 (sub_nonneg.2 hk)]
    · rw [hopBase_c t h]
      nlinarith [mul_nonneg hn0 (sub_nonneg.2 hn)]
  · intro h
    rw [hopBase_c t h]
    nlinarith [mul_nonneg hn0 (sub_nonneg.2 hn)]

theorem hopY_last : hopY 724 = 199 ∧ hopY 723 = 192 := by
  simp only [hopY, hopBase_c 724 (by decide), hopBase_c 723 (by decide),
    hopPhase_d 724 (by decide), hopPhase_d 723 (by decide)]
  norm_num

theorem gains_sum (cur : LevelData) (inp : Input) (s : Game) (n : Nat) :
    ((List.range n).map (slotGain cur inp s)).sum
      = 5 * (countTrue (orbNow cur inp s) n : Int) + (countTrue (passNow cur inp s) n : Int) := by
  induction n with
  | zero => rfl
  | succ n ih =>
    rw [List.range_succ, List.map_append, List.sum_append, ih, countTrue_succ, countTrue_succ]
    simp only [List.map_cons, List.map_nil, List.sum_cons, List.sum_nil, slotGain]
    by_cases h1 : orbNow cur inp s n = true <;> by_cases h2 : passNow cur inp s n = true <;>
      simp [h1, h2] <;> omega

theorem passNow_unpassed (cur : LevelData) (inp : Input) (s : Game) (i : Nat)
    (h : passNow cur inp s i = true) : s.pipePassed i = false := by
  simp only [passNow, movePipe_closed, Bool.and_eq_true, Bool.not_eq_true'] at h
  exact h.1

/-- The fields of the state after the body of `UpdateGame` that the level-clear block does not write. -/
theorem playWith_loop (cur : LevelData) (inp : Input) (s : Game) :
    (playWith cur inp s).levels
      = (pipeLoopResult cur inp cur.pipeCount.toNat (boundsCheck (updatePlayer cur inp s))).levels ∧
    (playWith cur inp s).currentLevel = s.currentLevel ∧
    (playWith cur inp s).gameStarted = s.gameStarted ∧
    (playWith cur inp s).gameOver
      = (pipeLoopResult cur inp cur.pipeCount.toNat (boundsCheck (updatePlayer cur inp s))).gameOver ∧
    (playWith cur inp s).gameVictory = s.gameVictory ∧
    (playWith cur inp s).pacmanY = (updatePlayer cur inp s).pacmanY ∧
    (playWith cur inp s).pacmanVelocityY = (updatePlayer cur inp s).pacmanVelocityY ∧
    (playWith cur inp s).pipeX
      = (pipeLoopResult cur inp cur.pipeCount.toNat (boundsCheck (updatePlayer cur inp s))).pipeX ∧
    (playWith cur inp s).pipeGapY
      = (pipeLoopResult cur inp cur.pipeCount.toNat (boundsCheck (updatePlayer cur inp s))).pipeGapY ∧
    (playWith cur inp s).pipePassed
      = (pipeLoopResult cur inp cur.pipeCount.toNat (boundsCheck (updatePlayer cur inp s))).pipePassed ∧
    (playWith cur inp s).orbRelY = s.orbRelY ∧
    (playWith cur inp s).currentScore
      = (pipeLoopResult cur inp cur.pipeCount.toNat (boundsCheck (updatePlayer cur inp s))).currentScore := by
  rw [playWith_closed]
  split <;> simp [pipeLoopResult, boundsCheck_closed, updatePlayer]

/-- The level-clear block at the end of `UpdateGame`. -/
theorem playWith_complete (cur : LevelData) (inp : Input) (s : Game) :
    (playWith cur inp s).levelComplete
      = (s.levelComplete || decide ((countTrue (playWith cur inp s).pipePassed cur.pipeCount.toNat : Int)
          ≥ cur.pipeCount)) ∧
    (playWith cur inp s).totalScore
      = s.totalScore + if (countTrue (playWith cur inp s).pipePassed cur.pipeCount.toNat : Int)
          ≥ cur.pipeCount then scoreAt (playWith cur inp s).levels s.currentLevel else 0 := by
  have e := (playWith_loop cur inp s).2.2.2.2.2.2.2.2.2.1
  have e2 := (playWith_loop cur inp s).1
  have g1 : (pipeLoopResult cur inp cur.pipeCount.toNat (boundsCheck (updatePlayer cur inp s))).totalScore
      = s.totalScore := by simp [pipeLoopResult, boundsCheck_closed, updatePlayer]
  have g2 : (pipeLoopResult cur inp cur.pipeCount.toNat (boundsCheck (updatePlayer cur inp s))).currentLevel
      = s.currentLevel := by simp [pipeLoopResult, boundsCheck_closed, updatePlayer]
  have g3 : (pipeLoopResult cur inp cur.pipeCount.toNat (boundsCheck (updatePlayer cur inp s))).levelComplete
      = s.levelComplete := by simp [pipeLoopResult, boundsCheck_closed, updatePlayer]
  rw [e, e2]
  rw [playWith_closed]
  by_cases hc : (countTrue (pipeLoopResult cur inp cur.pipeCount.toNat
      (boundsCheck (updatePlayer cur inp s))).pipePassed cur.pipeCount.toNat : Int) ≥ cur.pipeCount
  · rw [if_pos hc, if_pos hc, decide_eq_true hc, Bool.or_true]
    refine ⟨rfl, ?_⟩
    show _ + scoreAt _ _ = _
    rw [g1, g2]
  · rw [if_neg hc, if_neg hc, decide_eq_false hc, Bool.or_false]
    exact ⟨g3, by rw [g1]; simp⟩

/-- The slots after the pipe loop of the body of `UpdateGame`, off level index 1. -/
theorem playWith_slots (cur : LevelData) (inp : Input) (s : Game) (hl : s.currentLevel ≠ 1) (i : Nat)
    (hi : i < cur.pipeCount.toNat) :
    (playWith cur inp s).pipeX i = s.pipeX i - cur.speed ∧
    (playWith cur inp s).pipeGapY i = s.pipeGapY i ∧
    (playWith cur inp s).pipePassed i
      = (s.pipePassed i || decide (s.pipeX i - cur.speed + (PIPE_WIDTH : ℚ) < PACMAN_X_POS)) := by
  obtain ⟨_, _, _, _, _, _, _, e1, e2, e3, _, _⟩ := playWith_loop cur inp s
  rw [e1, e2, e3]
  simp only [pipeLoopResult, hi, if_true, passNow, movePipe_closed, boundsCheck_closed, updatePlayer,
    Function.update_same, hl, if_false, true_and]
  cases s.pipePassed i <;> simp

/-- The tests of iteration `i` of the pipe loop, off level index 1, in terms
of the position of the slot after its scroll step. -/
theorem slot_tests (cur : LevelData) (inp : Input) (s : Game) (i : Nat) (hl : s.currentLevel ≠ 1) :
    (s.pipeGapY i ≤ s.pacmanY - 15 → s.pacmanY + 15 ≤ s.pipeGapY i + cur.gapSize →
      hitNow cur inp s i = false) ∧
    (215 ≤ s.pipeX i - cur.speed → hitNow cur inp s i = false) ∧
    (s.pipeGapY i + s.orbRelY i + 5 ≤ s.pacmanY - 15 → orbNow cur inp s i = false) ∧
    (s.pipeX i - cur.speed < 215 → 115 < s.pipeX i - cur.speed →
      s.pipeGapY i + cur.gapSize < s.pacmanY + 15 → s.pacmanY - 15 < s.pipeGapY i + cur.gapSize + 450 →
      hitNow cur inp s i = true) ∧
    passNow cur inp s i
      = (!s.pipePassed i && decide (s.pipeX i - cur.speed + (PIPE_WIDTH : ℚ) < PACMAN_X_POS)) := by
  simp only [hitNow, orbNow, passNow, movePipe_closed, hl, if_false, topPipe, botPipe, playerRect,
    orbHitbox, CheckCollisionRecs, PACMAN_X_POS, PACMAN_RADIUS, SCREEN_WIDTH, PIPE_WIDTH,
    SCREEN_HEIGHT, Function.update_same]
  refine ⟨fun h1 h2 => ?_, fun h1 => ?_, fun h1 => ?_, fun h1 h2 h3 h4 => ?_, trivial⟩
  · simp only [Bool.or_eq_false_iff, decide_eq_false_iff_not, not_and]
    constructor
    · intro _ _ h
      exfalso
      linarith
    · intro _ h
      exfalso
      linarith
  · simp only [Bool.or_eq_false_iff, decide_eq_false_iff_not, not_and]
    constructor <;> intro h <;> exfalso <;> norm_num at h <;> linarith [h.1]
  · simp only [Bool.and_eq_false_iff, decide_eq_false_iff_not, not_and]
    right
    intro _ h
    exfalso
    linarith
  · simp only [Bool.or_eq_true, decide_eq_true_eq]
    right
    push_cast
    refine ⟨⟨by linarith, by linarith⟩, by linarith, by linarith⟩

/-- A frame of the demo flight, run on a state in which the game is on. -/
theorem hop_play (t : Nat) (u : Game) (inp : Input) (cur : LevelData) (ht : t ≤ 723)
    (hcur : cur = ⟨5, u.currentScore, 3, 160, 2 / 5⟩)
    (hl : u.currentLevel = 0) (hs : u.gameStarted = true) (ho : u.gameOver = false)
    (hc : u.levelComplete = false) (hv : u.gameVictory = false)
    (htab : levelAt u.levels 0 = some cur) (htot : u.totalScore = 0)
    (hsc : u.currentScore = (countTrue u.pipePassed 5 : Int))
    (hp : ∀ i : Nat, i < 5 → u.pipeX i = 1100 + 300 * (i : ℚ) - 3 * (t : ℚ) ∧ u.pipeGapY i = 50 ∧
      u.orbRelY i = 20)
    (h4 : u.pipePassed 4 = false)
    (hy : (updatePlayer cur inp u).pacmanY = hopY (t + 1))
    (hvel : (updatePlayer cur inp u).pacmanVelocityY = hopV (t + 1)) :
    HopInv (t + 1) (playWith cur inp u) := by
  have htq : (t : ℚ) ≤ 723 := by exact_mod_cast ht
  have hn : cur.pipeCount.toNat = 5 := by rw [hcur]; rfl
  have hsp : cur.speed = 3 := by rw [hcur]
  have hgs : cur.gapSize = 160 := by rw [hcur]
  have hpc : cur.pipeCount = 5 := by rw [hcur]
  have hl1 : u.currentLevel ≠ 1 := by rw [hl]; decide
  obtain ⟨e1, e2, e3, e4, e5, e6, e7, _, _, e10, e11, e12⟩ := playWith_loop cur inp u
  obtain ⟨c1, c2⟩ := playWith_complete cur inp u
  -- the state on which the pipe loop runs
  have s0l : (boundsCheck (updatePlayer cur inp u)).currentLevel ≠ 1 := by
    simpa [boundsCheck_closed, updatePlayer] using hl1
  have s0x : (boundsCheck (updatePlayer cur inp u)).pipeX = u.pipeX := by
    simp [boundsCheck_closed, updatePlayer]
  have s0g : (boundsCheck (updatePlayer cur inp u)).pipeGapY = u.pipeGapY := by
    simp [boundsCheck_closed, updatePlayer]
  have s0o : (boundsCheck (updatePlayer cur inp u)).orbRelY = u.orbRelY := by
    simp [boundsCheck_closed, updatePlayer]
  have s0p : (boundsCheck (updatePlayer cur inp u)).pipePassed = u.pipePassed := by
    simp [boundsCheck_closed, updatePlayer]
  have s0y : (boundsCheck (updatePlayer cur inp u)).pacmanY = hopY (t + 1) := by
    rw [← hy]
    simp [boundsCheck_closed]
  have ybound : 134 ≤ hopY (t + 1) ∧ hopY (t + 1) ≤ 220 := by
    by_cases h : t + 1 ≤ 723
    · exact ⟨(hopY_bounds (t + 1) h).1, (hopY_bounds (t + 1) h).2.1⟩
    · have : t + 1 = 724 := by omega
      rw [this, hopY_last.1]
      norm_num
  -- the slots after the frame
  have hslot : ∀ i : Nat, i < 5 →
      (playWith cur inp u).pipeX i = 1100 + 300 * (i : ℚ) - 3 * ((t + 1 : Nat) : ℚ) ∧
      (playWith cur inp u).pipeGapY i = 50 ∧
      (playWith cur inp u).pipePassed i = (u.pipePassed i || decide (300 * (i : ℚ) + 970 < 3 * ((t : ℚ) + 1))) := by
    intro i hi
    obtain ⟨a1, a2, a3⟩ := playWith_slots cur inp u hl1 i (by rw [hn]; exact hi)
    have hiff : (1100 + 300 * (i : ℚ) - 3 * (t : ℚ) - (3 : ℚ) + (PIPE_WIDTH : ℚ) < PACMAN_X_POS)
        ↔ (300 * (i : ℚ) + 970 < 3 * ((t : ℚ) + 1)) := by
      simp only [PIPE_WIDTH, PACMAN_X_POS, SCREEN_WIDTH]
      push_cast
      constructor <;> intro h <;> linarith
    refine ⟨?_, by rw [a2]; exact (hp i hi).2.1, ?_⟩
    · rw [a1, (hp i hi).1, hsp]
      push_cast
      ring
    · rw [a3, (hp i hi).1, hsp]
      simp only [hiff]
  -- no orb is collected
  have horb : ∀ i : Nat, i < 5 → orbNow cur inp (boundsCheck (updatePlayer cur inp u)) i = false := by
    intro i hi
    apply (slot_tests cur inp _ i s0l).2.2.1
    rw [s0g, s0o, s0y, (hp i hi).2.1, (hp i hi).2.2]
    linarith [ybound.1]
  have hpassnow : ∀ i : Nat, i < 5 →
      passNow cur inp (boundsCheck (updatePlayer cur inp u)) i = true → u.pipePassed i = false := by
    intro i _ h
    have := passNow_unpassed cur inp _ i h
    rw [s0p] at this
    exact this
  have hgain : ((List.range 5).map (slotGain cur inp (boundsCheck (updatePlayer cur inp u)))).sum
      = (countTrue (passNow cur inp (boundsCheck (updatePlayer cur inp u))) 5 : Int) := by
    rw [gains_sum, countTrue_eq_zero _ _ horb]
    simp
  have hcount : (countTrue (playWith cur inp u).pipePassed 5 : Int)
      = u.currentScore + ((List.range 5).map (slotGain cur inp (boundsCheck (updatePlayer cur inp u)))).sum := by
    rw [hgain, hsc, e10]
    have h1 : countTrue (pipeLoopResult cur inp cur.pipeCount.toNat
        (boundsCheck (updatePlayer cur inp u))).pipePassed 5
        = countTrue (fun j => u.pipePassed j ||
            passNow cur inp (boundsCheck (updatePlayer cur inp u)) j) 5 :=
      countTrue_congr _ _ _ (fun i hi => by simp [pipeLoopResult, hn, hi, s0p])
    rw [h1, countTrue_or _ _ _ hpassnow]
    push_cast
    rfl
  have hscore : (playWith cur inp u).currentScore = (countTrue (playWith cur inp u).pipePassed 5 : Int) := by
    rw [hcount, e12]
    simp [pipeLoopResult, hn, boundsCheck_closed, updatePlayer]
  have hlev : levelAt (playWith cur inp u).levels 0
      = some ⟨5, (playWith cur inp u).currentScore, 3, 160, 2 / 5⟩ := by
    rw [e1, hscore, hcount]
    have : (pipeLoopResult cur inp cur.pipeCount.toNat (boundsCheck (updatePlayer cur inp u))).levels
        = setScore 0 (fun x => x + ((List.range 5).map
            (slotGain cur inp (boundsCheck (updatePlayer cur inp u)))).sum) u.levels := by
      simp [pipeLoopResult, hn, boundsCheck_closed, updatePlayer, hl]
    rw [this, levelAt_setScore, htab, hcur]
    rfl
  -- the flags
  have hcomplete : (playWith cur inp u).levelComplete = decide (724 ≤ t + 1) ∧
      (724 ≤ t + 1 → ∀ i : Nat, i < 5 → (playWith cur inp u).pipePassed i = true) ∧
      (t + 1 ≤ 723 → (playWith cur inp u).pipePassed 4 = false) ∧
      (playWith cur inp u).totalScore = if 724 ≤ t + 1 then (playWith cur inp u).currentScore else 0 := by
    rw [c1, c2, hc, htot, hn, hpc, hl]
    by_cases hlast : 724 ≤ t + 1
    · have ht723 : (t : ℚ) = 723 := by exact_mod_cast (by omega : t = 723)
      have hall : ∀ i : Nat, i < 5 → (playWith cur inp u).pipePassed i = true := by
        intro i hi
        rw [(hslot i hi).2.2]
        have : (i : ℚ) ≤ 4 := by exact_mod_cast (by omega : i ≤ 4)
        simp only [Bool.or_eq_true, decide_eq_true_eq]
        right
        rw [ht723]
        linarith
      have h5 : countTrue (playWith cur inp u).pipePassed 5 = 5 := (countTrue_eq_iff _ _).2 hall
      rw [h5]
      refine ⟨by simp [hlast], fun _ => hall, fun h => by omega, ?_⟩
      simp only [hlast, if_true, ge_iff_le, Nat.cast_ofNat, le_refl, zero_add]
      simp only [scoreAt, hlev]
    · have hlt : (t : ℚ) + 1 ≤ 723 := by exact_mod_cast (by omega : t + 1 ≤ 723)
      have hf4 : (playWith cur inp u).pipePassed 4 = false := by
        rw [(hslot 4 (by decide)).2.2, h4]
        simp only [Bool.false_or, decide_eq_false_iff_not, not_lt]
        push_cast
        linarith
      have hlt5 : countTrue (playWith cur inp u).pipePassed 5 < 5 :=
        countTrue_lt_of_false _ 5 4 (by decide) hf4
      have hneg : ¬ ((countTrue (playWith cur inp u).pipePassed 5 : Int) ≥ 5) := by omega
      refine ⟨by simp [hlast, hneg], fun h => absurd h hlast, fun _ => hf4, ?_⟩
      simp [hlast, hneg]
  have hover : (playWith cur inp u).gameOver = decide (724 ≤ t + 1) := by
    rw [e4]
    have hb : outOfBounds (updatePlayer cur inp u) = false := by
      simp only [outOfBounds, hy, PACMAN_RADIUS, SCREEN_HEIGHT, decide_eq_false_iff_not, not_or, not_le]
      push_cast
      constructor <;> linarith [ybound.1, ybound.2]
    have hg0 : (pipeLoopResult cur inp cur.pipeCount.toNat (boundsCheck (updatePlayer cur inp u))).gameOver
        = (List.range 5).any (hitNow cur inp (boundsCheck (updatePlayer cur inp u))) := by
      have hug : (updatePlayer cur inp u).gameOver = false := ho
      simp [pipeLoopResult, hn, boundsCheck_closed, hug, hb]
    rw [hg0]
    by_cases hlast : 724 ≤ t + 1
    · have ht723 : (t : ℚ) = 723 := by exact_mod_cast (by omega : t = 723)
      have h724 : t + 1 = 724 := by omega
      have hhit : hitNow cur inp (boundsCheck (updatePlayer cur inp u)) 4 = true := by
        apply (slot_tests cur inp _ 4 s0l).2.2.2.1
        · rw [s0x, (hp 4 (by decide)).1, hsp, ht723]
          norm_num
        · rw [s0x, (hp 4 (by decide)).1, hsp, ht723]
          norm_num
        · rw [s0g, s0y, (hp 4 (by decide)).2.1, hgs, h724, hopY_last.1]
          norm_num
        · rw [s0g, s0y, (hp 4 (by decide)).2.1, hgs, h724, hopY_last.1]
          norm_num
      rw [decide_eq_true hlast, List.any_eq_true]
      exact ⟨4, by simp, hhit⟩
    · rw [decide_eq_false hlast, List.any_eq_false]
      intro i hi
      have hi5 : i < 5 := List.mem_range.1 hi
      have hnot : hitNow cur inp (boundsCheck (updatePlayer cur inp u)) i = false := by
        by_cases h18 : t + 1 < 18
        · apply (slot_tests cur inp _ i s0l).2.1
          rw [s0x, (hp i hi5).1, hsp]
          have : (t : ℚ) ≤ 16 := by exact_mod_cast (by omega : t ≤ 16)
          have : (0 : ℚ) ≤ (i : ℚ) := Nat.cast_nonneg i
          linarith
        · have hle := (hopY_bounds (t + 1) (by omega)).2.2 (by omega)
          apply (slot_tests cur inp _ i s0l).1
          · rw [s0g, s0y, (hp i hi5).2.1]
            linarith [ybound.1]
          · rw [s0g, s0y, (hp i hi5).2.1, hgs]
            linarith
      simp [hnot]
  obtain ⟨k1, k2, k3, k4⟩ := hcomplete
  refine ⟨by rw [e2]; exact hl, by rw [e3, hs]; simp, hover, k1, by rw [e5]; exact hv, hlev, k4,
    hscore, fun i hi => ⟨(hslot i hi).1, (hslot i hi).2.1, by rw [e11]; exact (hp i hi).2.2⟩, k3, k2,
    ?_, ?_⟩
  · rw [e6, hy]
    simp
  · rw [e7, hvel]
    simp

theorem levelTable_zero : levelAt levelTable 0 = some ⟨5, 0, 3, 160, 2 / 5⟩ := rfl

theorem maxGapOf_160 (cur : LevelData) (h : cur.gapSize = 160) : maxGapOf cur - 50 ≠ 0 := by
  simp [maxGapOf, SCREEN_HEIGHT, h, cTrunc_160]

/-- `ChangeState(k)` for a level index `k` whose table entry has gap size 160. -/
theorem ChangeState_load (rand : Nat → Int) (k : Int) (s : Game) (cur : LevelData)
    (hk : k < MAX_LEVELS) (hc : levelAt s.levels k = some cur) (hg : cur.gapSize = 160) :
    ChangeState rand k s = some (resetResult cur rand cur.pipeCount.toNat
      { s with currentLevel := k, gameStarted := false, gameOver := false, levelComplete := false }) := by
  have hk2 : ¬ k ≥ MAX_LEVELS := by omega
  simp only [ChangeState, hk2, if_false, ResetEntityPositions, hc, Option.bind_eq_bind,
    Option.some_bind]
  exact resetWith_closed cur rand _ (maxGapOf_160 cur hg)

theorem title0_eq : title0 = resetResult ⟨5, 0, 3, 160, 2 / 5⟩ (fun _ => 0) 5
    { zeroGame with currentLevel := 0, gameStarted := false, gameOver := false,
                    levelComplete := false } := by
  have h := ChangeState_load (fun _ => 0) 0 zeroGame ⟨5, 0, 3, 160, 2 / 5⟩ (by decide) rfl rfl
  simp only [title0, h, Option.getD_some]
  rfl

theorem title0_reachable : Reachable title0 := by
  have h := ChangeState_load (fun _ => 0) 0 zeroGame ⟨5, 0, 3, 160, 2 / 5⟩ (by decide) rfl rfl
  have e : title0 = _ := title0_eq
  rw [e]
  exact Reachable.init (fun _ => 0) h

theorem title0_inv : HopInv 0 title0 := by
  rw [title0_eq]
  refine ⟨rfl, rfl, rfl, rfl, rfl, rfl, rfl, ?_, fun i hi => ?_, fun _ => by simp [resetResult],
    fun h => by omega, by simp [resetResult, SCREEN_HEIGHT]; norm_num, by simp [resetResult]⟩
  · have : countTrue (resetResult ⟨5, 0, 3, 160, 2 / 5⟩ (fun _ => 0) 5
        { zeroGame with currentLevel := 0, gameStarted := false, gameOver := false,
                        levelComplete := false }).pipePassed 5 = 0 :=
      countTrue_eq_zero _ _ (fun i hi => by simp [resetResult, hi])
    rw [this]
    rfl
  · have hs : safeRangeOf ⟨5, 0, 3, 160, 2 / 5⟩ > 0 := by simp [safeRangeOf, cTrunc_160]
    simp only [resetResult, hi, if_true, genGapY, genOrbRelY, hs, SCREEN_WIDTH, Int.zero_tmod]
    push_cast
    refine ⟨by ring, by norm_num, by norm_num⟩

/-- An iteration of the loop of `main` while the game is on. -/
theorem mainFrame_on (inp : Input) (s : Game) (cur : LevelData) (hs : s.gameStarted = true)
    (ho : s.gameOver = false) (hc : s.levelComplete = false) (hv : s.gameVictory = false)
    (hcur : levelAt s.levels s.currentLevel = some cur) :
    mainFrame inp s = some (playWith cur inp s) := by
  by_cases hsp : inp.space = true
  · simp [mainFrame, hsp, spaceBlock, UpdateGame, hs, ho, hc, hv, hcur]
  · simp [mainFrame, hsp, UpdateGame, hs, ho, hc, hv, hcur]

/-- The iteration of the loop of `main` that starts the game. -/
theorem mainFrame_start (inp : Input) (s : Game) (cur : LevelData) (hs : s.gameStarted = false)
    (ho : s.gameOver = false) (hc : s.levelComplete = false) (hv : s.gameVictory = false)
    (hcur : levelAt s.levels s.currentLevel = some cur) (hsp : inp.space = true) :
    mainFrame inp s = some (playWith cur inp
      { s with gameStarted := true, pacmanVelocityY := JUMP_STRENGTH }) := by
  simp [mainFrame, hsp, spaceBlock, UpdateGame, hs, ho, hc, hv, hcur]

/-- One frame of the demo flight keeps what the proof tracks. -/
theorem hop_step (t : Nat) (s : Game) (ht : t ≤ 723) (h : HopInv t s) :
    ∃ s1, mainFrame (hopInput (t + 1)) s = some s1 ∧ HopInv (t + 1) s1 := by
  obtain ⟨hl, hs, ho, hc, hv, htab, htot, hsc, hp, h4, _, hy, hvel⟩ := h
  have ho2 : s.gameOver = false := by rw [ho]; simp; omega
  have hc2 : s.levelComplete = false := by rw [hc]; simp; omega
  have htot2 : s.totalScore = 0 := by rw [htot, if_neg (by omega)]
  have hcur : levelAt s.levels s.currentLevel = some ⟨5, s.currentScore, 3, 160, 2 / 5⟩ := by
    rw [hl]
    exact htab
  by_cases h0 : t = 0
  · subst h0
    have hs2 : s.gameStarted = false := by rw [hs]; rfl
    have hsp : (hopInput 1).space = true := rfl
    refine ⟨_, mainFrame_start (hopInput 1) s _ hs2 ho2 hc2 hv hcur hsp, ?_⟩
    refine hop_play 0 _ (hopInput 1) _ ht rfl hl rfl ho2 hc2 hv htab htot2 hsc hp (h4 ht) ?_ ?_
    · simp only [updatePlayer, hsp, if_true, JUMP_STRENGTH]
      rw [hy]
      simp only [hopY, hopBase_a 1 (by decide), hopPhase_a 1 (by decide)]
      norm_num
    · simp only [updatePlayer, hsp, if_true, JUMP_STRENGTH]
      simp only [hopV, hopPhase_a 1 (by decide)]
      norm_num
  · have hs2 : s.gameStarted = true := by rw [hs]; simp; omega
    rw [if_neg h0] at hy hvel
    obtain ⟨k1, k2⟩ := hop_kinematics t (by omega) ht
    refine ⟨_, mainFrame_on (hopInput (t + 1)) s _ hs2 ho2 hc2 hv hcur, ?_⟩
    refine hop_play t s (hopInput (t + 1)) _ ht rfl hl hs2 ho2 hc2 hv htab htot2 hsc hp (h4 ht) ?_ ?_
    · simp only [updatePlayer, hopInput, hy, hvel]
      exact k2
    · simp only [updatePlayer, hopInput, hvel]
      exact k1

theorem step_eq (inp : Input) (s s1 : Game) (h : mainFrame inp s = some s1) : step inp s = s1 := by
  simp [step, h]

theorem hop_succ (t : Nat) : hop (t + 1) = step (hopInput (t + 1)) (hop t) := rfl

theorem hop_zero : hop 0 = title0 := rfl

/-- Every state of the demo flight is reachable and is as tracked. -/
theorem hop_inv (t : Nat) (ht : t ≤ 724) : Reachable (hop t) ∧ HopInv t (hop t) := by
  induction t with
  | zero =>
    rw [hop_zero]
    exact ⟨title0_reachable, title0_inv⟩
  | succ n ih =>
    obtain ⟨hr, hi⟩ := ih (by omega)
    obtain ⟨s1, h1, h2⟩ := hop_step n (hop n) (by omega) hi
    rw [hop_succ, step_eq _ _ _ h1]
    exact ⟨Reachable.step _ hr h1, h2⟩

/-- SPACE after a crash: the level is loaded again and `currentScore` becomes `totalScore`. -/
theorem retry_frame (s : Game) (inp : Input) (cur : LevelData) (ho : s.gameOver = true)
    (hsp : inp.space = true) (hk : s.currentLevel < MAX_LEVELS)
    (hc : levelAt s.levels s.currentLevel = some cur) (hg : cur.gapSize = 160) :
    ∃ s1, mainFrame inp s = some s1 ∧ s1.currentLevel = s.currentLevel ∧ s1.gameStarted = false ∧
      s1.gameOver = false ∧ s1.levelComplete = false ∧ s1.currentScore = s.totalScore ∧
      s1.totalScore = s.totalScore ∧ scoreAt s1.levels s1.currentLevel = 0 ∧
      ∀ i : Nat, (i : Int) < cur.pipeCount → s1.pipePassed i = false ∧ s1.orbCollected i = false := by
  have hload := ChangeState_load inp.rand s.currentLevel s cur hk hc hg
  refine ⟨{ resetResult cur inp.rand cur.pipeCount.toNat
      { s with currentLevel := s.currentLevel, gameStarted := false, gameOver := false,
               levelComplete := false } with
      currentScore := s.totalScore,
      levels := setScore s.currentLevel (fun _ => 0) s.levels }, ?_, ?_⟩
  · simp only [mainFrame, hsp, if_true, spaceBlock, ho, Bool.not_true, Bool.and_false, Bool.false_and,
      Bool.false_eq_true, if_false, hload, Option.bind_eq_bind, Option.some_bind, Option.pure_def,
      UpdateGame]
    simp [resetResult]
  · refine ⟨rfl, rfl, rfl, rfl, rfl, rfl, ?_, fun i hi => ?_⟩
    · have hsome : (levelAt s.levels s.currentLevel).isSome := by rw [hc]; rfl
      exact scoreAt_setScore s.currentLevel (fun _ => 0) s.levels hsome
    · have hi2 : i < cur.pipeCount.toNat := by omega
      simp only [resetResult, hi2, if_true, and_self]

/-! ## The simpler variant: a run to the victory screen -/

theorem params_setScore (k : Int) (f : Int → Int) (tbl : List LevelData) :
    (setScore k f tbl).map params = tbl.map params := by
  simp only [setScore]
  cases h : levelAt tbl k with
  | none => rfl
  | some l =>
    simp only [List.map_set]
    apply set_of_getElem?
    simp only [levelAt] at h
    split at h
    · simp [List.getElem?_map, h, params]
    · cases h

theorem levelAt_of_params (tbl : List LevelData) (h : tbl.map params = levelTable.map params) :
    (∃ c, levelAt tbl 0 = some ⟨5, c, 3, 160, 2 / 5⟩) ∧
    (∃ c, levelAt tbl 1 = some ⟨10, c, 7 / 2, 160, 9 / 20⟩) := by
  have key : ∀ (n : Nat) (p : Int × ℚ × ℚ × ℚ), (levelTable.map params)[n]? = some p →
      ∃ c, tbl[n]? = some ⟨p.1, c, p.2.1, p.2.2.1, p.2.2.2⟩ := by
    intro n p hp
    rw [← h, List.getElem?_map] at hp
    cases ht : tbl[n]? with
    | none => simp [ht] at hp
    | some a =>
      simp only [ht, Option.map_some', Option.some.injEq] at hp
      refine ⟨a.score, ?_⟩
      rw [← hp]
      rfl
  obtain ⟨c0, h0⟩ := key 0 (5, 3, 160, 2 / 5) rfl
  obtain ⟨c1, h1⟩ := key 1 (10, 7 / 2, 160, 9 / 20) rfl
  exact ⟨⟨c0, by simp [levelAt, h0]⟩, ⟨c1, by simp [levelAt, h1]⟩⟩

/-- The iteration of the loop of `main` keeps the level parameters. -/
theorem mainFrame_params (inp : Input) (s s1 : Game) (h : mainFrame inp s = some s1) :
    s1.levels.map params = s.levels.map params := by
  have hcs : ∀ (k : Int) (t u : Game), ChangeState inp.rand k t = some u → u.levels = t.levels := by
    intro k t u hc
    simp only [ChangeState] at hc
    split at hc
    · cases hc
      rfl
    · have := reset_ledger inp.rand _ u hc
      simp only [ledger, Prod.mk.injEq] at this
      exact this.1
  have hsb : ∀ t, spaceBlock inp s = some t → t.levels.map params = s.levels.map params := by
    intro t hb
    simp only [spaceBlock, Option.bind_eq_bind, Option.pure_def] at hb
    split at hb
    · cases hb
      rfl
    · split at hb
      · cases hc : ChangeState inp.rand s.currentLevel s with
        | none => simp [hc] at hb
        | some u =>
          simp only [hc, Option.some_bind, Option.some.injEq] at hb
          rw [← hb]
          simp only [params_setScore, hcs _ _ _ hc]
      · split at hb
        · cases hc : ChangeState inp.rand (s.currentLevel + 1) s with
          | none => simp [hc] at hb
          | some u =>
            simp only [hc, Option.some_bind, Option.some.injEq] at hb
            rw [← hb]
            simp only [hcs _ _ _ hc]
        · split at hb
          · cases hc : ChangeState inp.rand (s.currentLevel + 1) s with
            | none => simp [hc] at hb
            | some u =>
              simp only [hc, Option.some_bind, Option.some.injEq] at hb
              rw [← hb]
              simp only [hcs _ _ _ hc]
          · cases hb
            rfl
  have hug : ∀ t, UpdateGame inp t = some s1 → s1.levels.map params = t.levels.map params := by
    intro t hu
    simp only [UpdateGame, Option.bind_eq_bind, Option.pure_def] at hu
    split at hu
    · cases hu
      rfl
    · cases hc : levelAt t.levels t.currentLevel with
      | none => simp [hc] at hu
      | some cur =>
        simp only [hc, Option.some_bind, Option.some.injEq] at hu
        rw [← hu, (playWith_loop cur inp t).1]
        simp only [pipeLoopResult, params_setScore, boundsCheck_closed, updatePlayer]
  simp only [mainFrame, Option.bind_eq_bind] at h
  by_cases hsp : inp.space = true
  · simp only [hsp, if_true] at h
    cases hb : spaceBlock inp s with
    | none => simp [hb] at h
    | some t =>
      simp only [hb, Option.some_bind] at h
      rw [hug t h, hsb t hb]
  · simp only [hsp] at h
    exact hug s h

/-- Every reachable state holds the level parameters that `SetupLevels` wrote. -/
theorem reachable_params (s : Game) (h : Reachable s) : s.levels.map params = levelTable.map params := by
  induction h with
  | init rand h0 =>
    simp only [ChangeState] at h0
    split at h0
    · rename_i hk
      exact absurd hk (by decide)
    · have := reset_ledger rand _ _ h0
      simp only [ledger, Prod.mk.injEq] at this
      rw [this.1]
      rfl
  | step inp _ h1 ih => rw [mainFrame_params inp _ _ h1, ih]

/-- The tests of iteration `i` of the pipe loop when the sine wave leaves the
gap of the slot where it is. -/
theorem slot_clear (cur : LevelData) (inp : Input) (s : Game) (i : Nat)
    (hg : s.currentLevel = 1 → s.initialPipeGapY i + inp.sinOsc i * 50 = s.pipeGapY i) :
    (movePipe cur inp i s).pipeGapY i = s.pipeGapY i ∧
    (s.pipeGapY i ≤ s.pacmanY - 15 → s.pacmanY + 15 ≤ s.pipeGapY i + cur.gapSize →
      hitNow cur inp s i = false) ∧
    (215 ≤ s.pipeX i - cur.speed → hitNow cur inp s i = false) ∧
    passNow cur inp s i
      = (!s.pipePassed i && decide (s.pipeX i - cur.speed + (PIPE_WIDTH : ℚ) < PACMAN_X_POS)) := by
  have hm : (movePipe cur inp i s).pipeGapY i = s.pipeGapY i := by
    simp only [movePipe_closed]
    split
    · rename_i h
      simp [hg h]
    · rfl
  have hx : (movePipe cur inp i s).pipeX i = s.pipeX i - cur.speed := by simp [movePipe_closed]
  have hy : (movePipe cur inp i s).pacmanY = s.pacmanY := by simp [movePipe_closed]
  have hp : (movePipe cur inp i s).pipePassed = s.pipePassed := by simp [movePipe_closed]
  refine ⟨hm, fun h1 h2 => ?_, fun h1 => ?_, ?_⟩
  · simp only [hitNow, topPipe, botPipe, playerRect, CheckCollisionRecs, hm, hx, hy, PACMAN_X_POS,
      PACMAN_RADIUS, SCREEN_WIDTH, PIPE_WIDTH, SCREEN_HEIGHT, Bool.or_eq_false_iff,
      decide_eq_false_iff_not, not_and]
    constructor
    · intro _ _ h
      exfalso
      linarith
    · intro _ h
      exfalso
      linarith
  · simp only [hitNow, topPipe, botPipe, playerRect, CheckCollisionRecs, hm, hx, hy, PACMAN_X_POS,
      PACMAN_RADIUS, SCREEN_WIDTH, PIPE_WIDTH, SCREEN_HEIGHT, Bool.or_eq_false_iff,
      decide_eq_false_iff_not, not_and]
    constructor <;> intro h <;> exfalso <;> norm_num at h <;> linarith [h.1]
  · simp only [passNow, hx, hp]

/-- A frame in play with every gap at 50 and the sine wave at 0, in which the
avatar ends clear of the pipes and of the screen edges. -/
theorem glide_frame (u : Game) (inp : Input) (cur : LevelData)
    (hw : ∀ i, inp.sinOsc i = 0) (hgs : cur.gapSize = 160) (ho : u.gameOver = false)
    (hp : ∀ i : Nat, i < cur.pipeCount.toNat → u.pipeGapY i = 50)
    (hq : u.currentLevel = 1 → ∀ i : Nat, i < cur.pipeCount.toNat → u.initialPipeGapY i = 50)
    (hy : 20 < (updatePlayer cur inp u).pacmanY ∧ (updatePlayer cur inp u).pacmanY < 430)
    (hsafe : ∀ i : Nat, i < cur.pipeCount.toNat → 215 ≤ u.pipeX i - cur.speed ∨
      (65 ≤ (updatePlayer cur inp u).pacmanY ∧ (updatePlayer cur inp u).pacmanY ≤ 195)) :
    (playWith cur inp u).currentLevel = u.currentLevel ∧
    (playWith cur inp u).gameStarted = u.gameStarted ∧
    (playWith cur inp u).gameOver = false ∧
    (playWith cur inp u).gameVictory = u.gameVictory ∧
    (playWith cur inp u).pacmanY = (updatePlayer cur inp u).pacmanY ∧
    (playWith cur inp u).pacmanVelocityY = (updatePlayer cur inp u).pacmanVelocityY ∧
    (playWith cur inp u).levels.map params = u.levels.map params ∧
    (playWith cur inp u).initialPipeGapY = u.initialPipeGapY ∧
    (∀ i : Nat, i < cur.pipeCount.toNat →
      (playWith cur inp u).pipeX i = u.pipeX i - cur.speed ∧
      (playWith cur inp u).pipeGapY i = 50 ∧
      (playWith cur inp u).pipePassed i
        = (u.pipePassed i || decide (u.pipeX i - cur.speed + (PIPE_WIDTH : ℚ) < PACMAN_X_POS))) ∧
    (playWith cur inp u).levelComplete
      = (u.levelComplete || decide ((countTrue (playWith cur inp u).pipePassed cur.pipeCount.toNat : Int)
          ≥ cur.pipeCount)) := by
  obtain ⟨e1, e2, e3, e4, e5, e6, e7, e8, e9, e10, _, _⟩ := playWith_loop cur inp u
  have s0x : (boundsCheck (updatePlayer cur inp u)).pipeX = u.pipeX := by
    simp [boundsCheck_closed, updatePlayer]
  have s0g : (boundsCheck (updatePlayer cur inp u)).pipeGapY = u.pipeGapY := by
    simp [boundsCheck_closed, updatePlayer]
  have s0i : (boundsCheck (updatePlayer cur inp u)).initialPipeGapY = u.initialPipeGapY := by
    simp [boundsCheck_closed, updatePlayer]
  have s0p : (boundsCheck (updatePlayer cur inp u)).pipePassed = u.pipePassed := by
    simp [boundsCheck_closed, updatePlayer]
  have s0y : (boundsCheck (updatePlayer cur inp u)).pacmanY = (updatePlayer cur inp u).pacmanY := by
    simp [boundsCheck_closed]
  have s0l : (boundsCheck (updatePlayer cur inp u)).levels = u.levels := by
    simp [boundsCheck_closed, updatePlayer]
  have hclear : ∀ i : Nat, i < cur.pipeCount.toNat →
      (boundsCheck (updatePlayer cur inp u)).currentLevel = 1 →
      (boundsCheck (updatePlayer cur inp u)).initialPipeGapY i + inp.sinOsc i * 50
        = (boundsCheck (updatePlayer cur inp u)).pipeGapY i := by
    intro i hi h1
    have h2 : u.currentLevel = 1 := by
      simpa [boundsCheck_closed, updatePlayer] using h1
    rw [s0i, s0g, hp i hi, hq h2 i hi, hw i]
    norm_num
  have hinit : (playWith cur inp u).initialPipeGapY = u.initialPipeGapY := by
    rw [playWith_closed]
    split <;> simp [pipeLoopResult, boundsCheck_closed, updatePlayer]
  have hb : outOfBounds (updatePlayer cur inp u) = false := by
    simp only [outOfBounds, PACMAN_RADIUS, SCREEN_HEIGHT, decide_eq_false_iff_not, not_or, not_le]
    push_cast
    constructor <;> linarith [hy.1, hy.2]
  have hover : (playWith cur inp u).gameOver = false := by
    rw [e4]
    have hug : (updatePlayer cur inp u).gameOver = false := ho
    have hg0 : (pipeLoopResult cur inp cur.pipeCount.toNat (boundsCheck (updatePlayer cur inp u))).gameOver
        = (List.range cur.pipeCount.toNat).any (hitNow cur inp (boundsCheck (updatePlayer cur inp u))) := by
      simp [pipeLoopResult, boundsCheck_closed, hug, hb]
    rw [hg0, List.any_eq_false]
    intro i hi
    have hi2 : i < cur.pipeCount.toNat := List.mem_range.1 hi
    obtain ⟨_, t1, t2, _⟩ := slot_clear cur inp (boundsCheck (updatePlayer cur inp u)) i (hclear i hi2)
    have hnot : hitNow cur inp (boundsCheck (updatePlayer cur inp u)) i = false := by
      rcases hsafe i hi2 with h | ⟨h1, h2⟩
      · apply t2
        rw [s0x]
        exact h
      · apply t1
        · rw [s0g, s0y, hp i hi2]
          linarith
        · rw [s0g, s0y, hp i hi2, hgs]
          linarith
    simp [hnot]
  refine ⟨e2, e3, hover, e5, e6, e7, ?_, hinit, fun i hi => ?_, (playWith_complete cur inp u).1⟩
  · rw [e1]
    simp only [pipeLoopResult, params_setScore, s0l]
  · obtain ⟨t0, _, _, t3⟩ := slot_clear cur inp (boundsCheck (updatePlayer cur inp u)) i (hclear i hi)
    refine ⟨?_, ?_, ?_⟩
    · rw [e8]
      simp only [pipeLoopResult, hi, if_true, s0x]
    · rw [e9]
      simp only [pipeLoopResult, hi, if_true, t0, s0g]
      exact hp i hi
    · rw [e10]
      simp only [pipeLoopResult, hi, if_true, t3, s0p, s0x]
      cases u.pipePassed i <;> simp

/-- SPACE on a cleared level that is not the last one: the next level is loaded. -/
theorem mainFrame_advance (inp : Input) (s : Game) (cur : LevelData) (ho : s.gameOver = false)
    (hc : s.levelComplete = true) (hv : s.gameVictory = false) (hsp : inp.space = true)
    (hk : s.currentLevel + 1 < MAX_LEVELS) (hcur : levelAt s.levels (s.currentLevel + 1) = some cur)
    (hg : cur.gapSize = 160) :
    mainFrame inp s = some
      { resetResult cur inp.rand cur.pipeCount.toNat
          { s with currentLevel := s.currentLevel + 1, gameStarted := false, gameOver := false,
                   levelComplete := false } with
        totalScore := s.totalScore + (s.currentScore - s.totalScore) } := by
  have hload := ChangeState_load inp.rand (s.currentLevel + 1) s cur hk hcur hg
  simp only [mainFrame, hsp, if_true, spaceBlock, ho, hc, hv, Bool.not_true, Bool.not_false,
    Bool.and_false, Bool.false_and, Bool.false_eq_true, if_false, hload, Option.bind_eq_bind,
    Option.some_bind, Option.pure_def, UpdateGame]
  simp [resetResult]

/-- SPACE on the cleared last level: the victory flag is set. -/
theorem mainFrame_win (inp : Input) (s : Game) (ho : s.gameOver = false)
    (hc : s.levelComplete = true) (hv : s.gameVictory = false) (hsp : inp.space = true)
    (hk : s.currentLevel + 1 ≥ MAX_LEVELS) :
    mainFrame inp s = some
      { s with gameVictory := true, totalScore := s.totalScore + (s.currentScore - s.totalScore) } := by
  simp [mainFrame, hsp, spaceBlock, ho, hc, hv, ChangeState, hk, UpdateGame]

theorem cruise_start (y v : ℚ) (h : Cruise 0 y v) :
    180 < y + v + 9 / 20 ∧ Cruise 1 (y + -5) (-5) := by
  simp only [Cruise, if_true] at h
  obtain ⟨hy, hv⟩ := h
  subst hy hv
  refine ⟨by norm_num, ?_⟩
  simp only [Cruise]
  norm_num

theorem cruise_step (t : Nat) (y v : ℚ) (ht : 1 ≤ t) (h : Cruise t y v) :
    Cruise (t + 1) (y + (if 180 < y + v + 9 / 20 then -5 else v + 9 / 20))
      (if 180 < y + v + 9 / 20 then -5 else v + 9 / 20) := by
  have ht0 : ¬ t = 0 := by omega
  simp only [Cruise, ht0, if_false, Nat.succ_ne_zero] at h ⊢
  rcases h with ⟨h9, hy, hv⟩ | ⟨hy, hv1, hv2, he⟩
  · subst hy hv
    have htq : (t : ℚ) ≤ 9 := by exact_mod_cast h9
    have ht1 : (1 : ℚ) ≤ (t : ℚ) := by exact_mod_cast ht
    by_cases h8 : t + 1 ≤ 9
    · have : (t : ℚ) ≤ 8 := by exact_mod_cast (by omega : t ≤ 8)
      rw [if_pos (by linarith)]
      left
      refine ⟨h8, ?_, rfl⟩
      push_cast
      ring
    · right
      have : t = 9 := by omega
      subst this
      norm_num
  · right
    by_cases hj : 180 < y + v + 9 / 20
    · rw [if_pos hj]
      refine ⟨by linarith, le_refl _, by norm_num, ?_⟩
      nlinarith
    · rw [if_neg hj]
      have hy2 : y + (v + 9 / 20) ≤ 180 := by linarith
      have he2 : (v + 9 / 20) * (v + 9 / 20 + 9 / 20) ≤ 9 / 10 * (y + (v + 9 / 20) - 129) := by
        nlinarith
      refine ⟨by linarith, by linarith, ?_, he2⟩
      by_contra hc
      have hc2 : 33 / 5 < v + 9 / 20 := lt_of_not_le hc
      nlinarith

theorem cruise_safe (t : Nat) (y v : ℚ) (ht : 1 ≤ t) (h : Cruise t y v) :
    (t ≤ 9 ∧ 20 < y ∧ y < 430) ∨ (65 ≤ y ∧ y ≤ 185) := by
  have ht0 : ¬ t = 0 := by omega
  simp only [Cruise, ht0, if_false] at h
  rcases h with ⟨h9, hy, _⟩ | ⟨hy, _, _, he⟩
  · left
    have htq : (t : ℚ) ≤ 9 := by exact_mod_cast h9
    have ht1 : (1 : ℚ) ≤ (t : ℚ) := by exact_mod_cast ht
    subst hy
    exact ⟨h9, by linarith, by linarith⟩
  · right
    refine ⟨?_, by linarith⟩
    nlinarith [sq_nonneg (v + 9 / 40)]

/-- Frame 724 of the demo flight with SPACE pressed: level 0 is cleared and the game goes on. -/
theorem hopWin_state : Reachable hopWin ∧ hopWin.currentLevel = 0 ∧ hopWin.gameOver = false ∧
    hopWin.levelComplete = true ∧ hopWin.gameVictory = false := by
  obtain ⟨hr, hl, hs, ho, hc, hv, htab, _, _, hp, _, _, hy, _⟩ := hop_inv 723 (by decide)
  have hs2 : (hop 723).gameStarted = true := by rw [hs]; rfl
  have ho2 : (hop 723).gameOver = false := by rw [ho]; rfl
  have hc2 : (hop 723).levelComplete = false := by rw [hc]; rfl
  have hcur : levelAt (hop 723).levels (hop 723).currentLevel
      = some ⟨5, (hop 723).currentScore, 3, 160, 2 / 5⟩ := by
    rw [hl]
    exact htab
  have hf := mainFrame_on spaceInput (hop 723) _ hs2 ho2 hc2 hv hcur
  have hY : (updatePlayer ⟨5, (hop 723).currentScore, 3, 160, 2 / 5⟩ spaceInput (hop 723)).pacmanY
      = 187 := by
    have e : (updatePlayer ⟨5, (hop 723).currentScore, 3, 160, 2 / 5⟩ spaceInput (hop 723)).pacmanY
        = (hop 723).pacmanY + JUMP_STRENGTH := rfl
    rw [e, hy, if_neg (by decide), hopY_last.2]
    norm_num [JUMP_STRENGTH]
  obtain ⟨g1, _, g3, g4, _, _, _, _, g8, g9⟩ := glide_frame (hop 723) spaceInput
    ⟨5, (hop 723).currentScore, 3, 160, 2 / 5⟩ (fun _ => rfl) rfl ho2
    (fun i hi => (hp i hi).2.1) (fun h1 => absurd (hl.symm.trans h1) (by decide))
    (by rw [hY]; norm_num) (fun i _ => Or.inr (by rw [hY]; norm_num))
  have e : hopWin = playWith ⟨5, (hop 723).currentScore, 3, 160, 2 / 5⟩ spaceInput (hop 723) :=
    step_eq _ _ _ hf
  have hall : ∀ i : Nat, i < 5 →
      (playWith ⟨5, (hop 723).currentScore, 3, 160, 2 / 5⟩ spaceInput (hop 723)).pipePassed i = true := by
    intro i hi
    rw [(g8 i hi).2.2, (hp i hi).1]
    have : (i : ℚ) ≤ 4 := by exact_mod_cast (by omega : i ≤ 4)
    simp only [Bool.or_eq_true, decide_eq_true_eq, PIPE_WIDTH, PACMAN_X_POS, SCREEN_WIDTH]
    right
    push_cast
    linarith
  rw [e]
  refine ⟨Reachable.step _ hr hf, by rw [g1, hl], g3, ?_, by rw [g4, hv]⟩
  rw [g9]
  have h5 : countTrue (playWith ⟨5, (hop 723).currentScore, 3, 160, 2 / 5⟩ spaceInput
      (hop 723)).pipePassed 5 = 5 := (countTrue_eq_iff _ _).2 hall
  show (_ || decide ((countTrue _ 5 : Int) ≥ 5)) = true
  rw [h5]
  simp

/-- SPACE on a cleared level 0, `rand()` returning 0: level index 1 is loaded. -/
theorem advance_lap (s : Game) (hl : s.currentLevel = 0) (ho : s.gameOver = false)
    (hc : s.levelComplete = true) (hv : s.gameVictory = false)
    (hpar : s.levels.map params = levelTable.map params) :
    ∃ s1, mainFrame spaceInput s = some s1 ∧ LapInv 0 s1 := by
  obtain ⟨c, hc1⟩ := (levelAt_of_params _ hpar).2
  have hcur : levelAt s.levels (s.currentLevel + 1) = some ⟨10, c, 7 / 2, 160, 9 / 20⟩ := by
    rw [hl]
    exact hc1
  refine ⟨_, mainFrame_advance spaceInput s _ ho hc hv rfl (by rw [hl]; decide) hcur rfl, ?_⟩
  refine ⟨?_, rfl, rfl, rfl, hv, hpar, fun i hi => ?_, fun _ => ?_, ?_⟩
  · show s.currentLevel + 1 = 1
    rw [hl]
    rfl
  · have hi2 : i < (10 : Int).toNat := hi
    simp only [resetResult, hi2, if_true, genGapY, SCREEN_WIDTH, Int.zero_tmod, spaceInput, idleInput]
    push_cast
    refine ⟨by ring, by norm_num, by norm_num⟩
  · have hi2 : 9 < (10 : Int).toNat := by decide
    simp only [resetResult, hi2, if_true]
  · simp only [Cruise, if_true, resetResult, SCREEN_HEIGHT]
    norm_num

/-- The level loaded by SPACE on the cleared level 0 of the demo run. -/
theorem title1_state : Reachable title1 ∧ LapInv 0 title1 := by
  obtain ⟨hr, hl, ho, hc, hv⟩ := hopWin_state
  obtain ⟨s1, h1, h2⟩ := advance_lap hopWin hl ho hc hv (reachable_params hopWin hr)
  have e : title1 = s1 := step_eq _ _ _ h1
  rw [e]
  exact ⟨Reachable.step _ hr h1, h2⟩

/-- A frame of the demo lap, run on a state in which the game is on. -/
theorem lap_play (t : Nat) (u : Game) (inp : Input) (c : Int) (ht : t ≤ 1048)
    (hl : u.currentLevel = 1) (hs : u.gameStarted = true) (ho : u.gameOver = false)
    (hc : u.levelComplete = false) (hv : u.gameVictory = false)
    (hpar : u.levels.map params = levelTable.map params)
    (hp : ∀ i : Nat, i < 10 → u.pipeX i = 1100 + 300 * (i : ℚ) - 7 / 2 * (t : ℚ) ∧
      u.pipeGapY i = 50 ∧ u.initialPipeGapY i = 50)
    (h9 : u.pipePassed 9 = false) (hw : ∀ i, inp.sinOsc i = 0)
    (henv : Cruise (t + 1) (updatePlayer ⟨10, c, 7 / 2, 160, 9 / 20⟩ inp u).pacmanY
      (updatePlayer ⟨10, c, 7 / 2, 160, 9 / 20⟩ inp u).pacmanVelocityY) :
    LapInv (t + 1) (playWith ⟨10, c, 7 / 2, 160, 9 / 20⟩ inp u) := by
  have htq : (t : ℚ) ≤ 1048 := by exact_mod_cast ht
  have hsafe := cruise_safe (t + 1) _ _ (by omega) henv
  obtain ⟨g1, g2, g3, g4, g5, g6, g7, g8, g9, g10⟩ := glide_frame u inp ⟨10, c, 7 / 2, 160, 9 / 20⟩
    hw rfl ho (fun i hi => (hp i hi).2.1) (fun _ i hi => (hp i hi).2.2)
    (by rcases hsafe with ⟨_, h1, h2⟩ | ⟨h1, h2⟩ <;> constructor <;> linarith)
    (fun i hi => by
      rcases hsafe with ⟨h9, _, _⟩ | ⟨h1, h2⟩
      · left
        rw [(hp i hi).1]
        have : (t : ℚ) ≤ 8 := by exact_mod_cast (by omega : t ≤ 8)
        have : (0 : ℚ) ≤ (i : ℚ) := Nat.cast_nonneg i
        show (215 : ℚ) ≤ 1100 + 300 * (i : ℚ) - 7 / 2 * (t : ℚ) - 7 / 2
        linarith
      · right
        exact ⟨h1, by linarith⟩)
  have hpass : ∀ i : Nat, i < 10 →
      (playWith ⟨10, c, 7 / 2, 160, 9 / 20⟩ inp u).pipePassed i =
        (u.pipePassed i || decide (300 * (i : ℚ) + 970 < 7 / 2 * ((t : ℚ) + 1))) := by
    intro i hi
    have hiff : (1100 + 300 * (i : ℚ) - 7 / 2 * (t : ℚ) - (7 / 2 : ℚ) + (PIPE_WIDTH : ℚ) < PACMAN_X_POS)
        ↔ (300 * (i : ℚ) + 970 < 7 / 2 * ((t : ℚ) + 1)) := by
      simp only [PIPE_WIDTH, PACMAN_X_POS, SCREEN_WIDTH]
      push_cast
      constructor <;> intro h <;> linarith
    rw [(g9 i hi).2.2, (hp i hi).1]
    simp only [hiff]
  refine ⟨by rw [g1, hl], by rw [g2, hs]; simp, g3, ?_, by rw [g4, hv], by rw [g7, hpar],
    fun i hi => ⟨?_, (g9 i hi).2.1, by rw [g8]; exact (hp i hi).2.2⟩, fun h1048 => ?_,
    by rw [g5, g6]; exact henv⟩
  · rw [g10, hc]
    show (false || decide ((countTrue _ 10 : Int) ≥ 10)) = _
    by_cases h1048 : t + 1 ≤ 1048
    · have hlt : countTrue (playWith ⟨10, c, 7 / 2, 160, 9 / 20⟩ inp u).pipePassed 10 < 10 := by
        apply countTrue_lt_of_false _ 10 9 (by decide)
        rw [hpass 9 (by decide), h9]
        have : (t : ℚ) + 1 ≤ 1048 := by exact_mod_cast h1048
        simp only [Bool.false_or, decide_eq_false_iff_not, not_lt]
        push_cast
        linarith
      have hneg : ¬ ((countTrue (playWith ⟨10, c, 7 / 2, 160, 9 / 20⟩ inp u).pipePassed 10 : Int) ≥ 10) := by
        omega
      have hneg2 : ¬ 1049 ≤ t + 1 := by omega
      simp [hneg, hneg2]
    · have h49 : t = 1048 := by omega
      subst h49
      have hall : countTrue (playWith ⟨10, c, 7 / 2, 160, 9 / 20⟩ inp u).pipePassed 10 = 10 := by
        rw [countTrue_eq_iff]
        intro i hi
        rw [hpass i hi]
        have : (i : ℚ) ≤ 9 := by exact_mod_cast (by omega : i ≤ 9)
        simp only [Bool.or_eq_true, decide_eq_true_eq]
        right
        push_cast
        linarith
      rw [hall]
      simp
  · rw [(g9 i hi).1, (hp i hi).1]
    show (1100 : ℚ) + 300 * (i : ℚ) - 7 / 2 * (t : ℚ) - 7 / 2 = _
    push_cast
    ring
  · rw [hpass 9 (by decide), h9]
    have : ((t + 1 : Nat) : ℚ) ≤ 1048 := by exact_mod_cast h1048
    simp only [Bool.false_or, decide_eq_false_iff_not, not_lt]
    push_cast at this ⊢
    linarith

/-- One frame of the demo lap keeps what the proof tracks. -/
theorem lap_step (t : Nat) (s : Game) (ht : t ≤ 1048) (h : LapInv t s) :
    ∃ s1, mainFrame (lapPilot s) s = some s1 ∧ LapInv (t + 1) s1 := by
  obtain ⟨hl, hs, ho, hc, hv, hpar, hp, h9, henv⟩ := h
  obtain ⟨c, hc1⟩ := (levelAt_of_params _ hpar).2
  have hcur : levelAt s.levels s.currentLevel = some ⟨10, c, 7 / 2, 160, 9 / 20⟩ := by
    rw [hl]
    exact hc1
  have hc2 : s.levelComplete = false := by rw [hc]; simp; omega
  by_cases h0 : t = 0
  · subst h0
    obtain ⟨e1, e2⟩ := cruise_start _ _ henv
    have hsp : (lapPilot s).space = true := by simp [lapPilot, e1]
    have hs2 : s.gameStarted = false := by rw [hs]; rfl
    refine ⟨_, mainFrame_start (lapPilot s) s _ hs2 ho hc2 hv hcur hsp, ?_⟩
    refine lap_play 0 _ (lapPilot s) c ht hl rfl ho hc2 hv hpar hp (h9 ht) (fun _ => rfl) ?_
    simp only [updatePlayer, hsp, if_true, JUMP_STRENGTH]
    exact e2
  · have hs2 : s.gameStarted = true := by rw [hs]; simp; omega
    refine ⟨_, mainFrame_on (lapPilot s) s _ hs2 ho hc2 hv hcur, ?_⟩
    refine lap_play t s (lapPilot s) c ht hl hs2 ho hc2 hv hpar hp (h9 ht) (fun _ => rfl) ?_
    have e := cruise_step t _ _ (by omega) henv
    simp only [updatePlayer, lapPilot, JUMP_STRENGTH]
    by_cases hj : 180 < s.pacmanY + s.pacmanVelocityY + 9 / 20
    · simp only [hj, if_true, decide_True] at e ⊢
      exact e
    · simp only [hj, if_false, decide_False] at e ⊢
      exact e

theorem lap_succ (t : Nat) : lap (t + 1) = step (lapPilot (lap t)) (lap t) := rfl

theorem lap_zero : lap 0 = title1 := rfl

/-- Every state of the demo lap is reachable and is as tracked. -/
theorem lap_inv (t : Nat) (ht : t ≤ 1049) : Reachable (lap t) ∧ LapInv t (lap t) := by
  induction t with
  | zero =>
    rw [lap_zero]
    exact title1_state
  | succ n ih =>
    obtain ⟨hr, hi⟩ := ih (by omega)
    obtain ⟨s1, h1, h2⟩ := lap_step n (lap n) (by omega) hi
    rw [lap_succ, step_eq _ _ _ h1]
    exact ⟨Reachable.step _ hr h1, h2⟩

/-- SPACE on the cleared last level: the victory flag is set and nothing else of the game changes. -/
theorem win_frame (s : Game) (inp : Input) (ho : s.gameOver = false) (hc : s.levelComplete = true)
    (hv : s.gameVictory = false) (hsp : inp.space = true) (hk : s.currentLevel + 1 ≥ MAX_LEVELS) :
    ∃ s1, mainFrame inp s = some s1 ∧ s1.gameVictory = true ∧ s1.currentLevel = s.currentLevel ∧
      s1.gameStarted = s.gameStarted ∧ s1.gameOver = false ∧ s1.levelComplete = true :=
  ⟨_, mainFrame_win inp s ho hc hv hsp hk, rfl, rfl, rfl, ho, hc⟩

/-- The victory screen of the demo run. -/
theorem wonGame_state : Reachable wonGame ∧ wonGame.gameVictory = true ∧ wonGame.currentLevel = 1 ∧
    wonGame.gameStarted = true ∧ wonGame.gameOver = false ∧ wonGame.levelComplete = true := by
  obtain ⟨hr, hl, hs, ho, hc, hv, _⟩ := lap_inv 1049 (le_refl _)
  have hc2 : (lap 1049).levelComplete = true := by rw [hc]; rfl
  have hs2 : (lap 1049).gameStarted = true := by rw [hs]; rfl
  obtain ⟨s1, h1, a1, a2, a3, a4, a5⟩ := win_frame (lap 1049) spaceInput ho hc2 hv rfl
    (by rw [hl]; decide)
  have e : wonGame = s1 := step_eq _ _ _ h1
  rw [e]
  exact ⟨Reachable.step _ hr h1, a1, by rw [a2, hl], by rw [a3, hs2], a4, a5⟩

/-- No iteration of the loop of `main` clears the victory flag. -/
theorem victory_kept (s s1 : Game) (inp : Input) (hv : s.gameVictory = true)
    (h : mainFrame inp s = some s1) : s1.gameVictory = true := by
  simp only [mainFrame, Option.bind_eq_bind] at h
  have key : ∀ t : Game, t.gameVictory = true → UpdateGame inp t = some s1 →
      s1.gameVictory = true := by
    intro t ht hu
    rw [UpdateGame_victory inp t ht] at hu
    cases hu
    exact ht
  by_cases hsp : inp.space = true
  · simp only [hsp, if_true] at h
    cases hb : spaceBlock inp s with
    | none => simp [hb] at h
    | some t =>
      simp only [hb, Option.some_bind] at h
      refine key t ?_ h
      simp only [spaceBlock, hv, Bool.not_true, Bool.and_false, Bool.false_eq_true, if_false,
        Option.bind_eq_bind, Option.pure_def] at hb
      split at hb
      · cases hc : ChangeState inp.rand s.currentLevel s with
        | none => simp [hc] at hb
        | some u =>
          simp only [hc, Option.some_bind, Option.some.injEq] at hb
          rw [← hb]
          exact ChangeState_victory _ _ _ u hc hv
      · simp only [if_true] at hb
        cases hc : ChangeState inp.rand (s.currentLevel + 1) s with
        | none => simp [hc] at hb
        | some u =>
          simp only [hc, Option.some_bind, Option.some.injEq] at hb
          rw [← hb]
          exact ChangeState_victory _ _ _ u hc hv
  · simp only [hsp] at h
    exact key s hv h

/-- SPACE on a victory screen after the last level: only `totalScore` changes. -/
theorem victory_space (s : Game) (inp : Input) (hv : s.gameVictory = true) (hg : s.gameOver = false)
    (hl : s.currentLevel + 1 ≥ MAX_LEVELS) (hsp : inp.space = true) :
    mainFrame inp s = some
      { s with totalScore := s.totalScore + (s.currentScore + s.totalScore) } := by
  have hc : ChangeState inp.rand (s.currentLevel + 1) s = some s := by
    simp only [ChangeState, hl, if_true]
    congr 1
    apply Game.ext <;> first | rfl | exact hv.symm
  simp [mainFrame, hsp, spaceBlock, hv, hg, hc, UpdateGame]

/-- A frame without SPACE on a victory screen changes nothing. -/
theorem victory_idle (s : Game) (inp : Input) (hv : s.gameVictory = true) (hsp : inp.space = false) :
    mainFrame inp s = some s := by
  simp [mainFrame, hsp, UpdateGame_victory inp s hv]

/-! ## C19: SPACE on the victory screen of the simpler variant -/

/-- C19 (evaluation of the code at the failing input): in the simpler variant
no iteration of the loop of `main` clears `gameVictory`. The demo run (level 0
cleared by the demo flight with a last jump, level index 1 by the demo lap,
then SPACE) reaches a victory screen: `gameVictory` set, level index 1,
`gameStarted` set. On it an iteration with SPACE pressed changes nothing but
`totalScore`, so that the level index, the flag `gameStarted` and the field
stay as they are, and an iteration without SPACE changes nothing at all. -/
theorem victory_is_terminal :
    (∀ (s s1 : Game) (inp : Input), s.gameVictory = true → mainFrame inp s = some s1 →
      s1.gameVictory = true) ∧
    (Reachable wonGame ∧ wonGame.gameVictory = true ∧ wonGame.currentLevel = 1 ∧
      wonGame.gameStarted = true ∧ wonGame.gameOver = false ∧ wonGame.levelComplete = true) ∧
    (∀ inp : Input, inp.space = true → mainFrame inp wonGame = some
      { wonGame with
        totalScore := wonGame.totalScore + (wonGame.currentScore + wonGame.totalScore) }) ∧
    (∀ inp : Input, inp.space = false → mainFrame inp wonGame = some wonGame) := by
  obtain ⟨hr, hv, hl, hs, ho, hc⟩ := wonGame_state
  exact ⟨victory_kept, ⟨hr, hv, hl, hs, ho, hc⟩,
    fun inp hsp => victory_space wonGame inp hv ho (by rw [hl]; decide) hsp,
    fun inp hsp => victory_idle wonGame inp hv hsp⟩

/-! ## C20: retry after a crash in the simpler variant -/

/-- C20 (evaluation of the code at the failing input): in the simpler variant
SPACE after a crash sets `currentScore` to `totalScore`. The demo flight starts
level 0 with `currentScore = totalScore = 0`, is in play for 723 frames, and
crashes into the bottom pipe of slot 4 in frame 724, the frame that marks the
slot passed: `gameOver` and `levelComplete` are both set and `totalScore` has
been raised to the 5 points of the attempt. Every state of the flight is
reachable. SPACE then loads level 0 again with `currentScore = 5`, not with
the 0 points the player had when the level started. -/
theorem retry_keeps_points :
    (∀ (s s1 : Game) (inp : Input), s.gameOver = true → inp.space = true →
      mainFrame inp s = some s1 → s1.currentScore = s.totalScore) ∧
    (Reachable (hop 0) ∧ (hop 0).gameStarted = false ∧ (hop 0).currentScore = 0 ∧
      (hop 0).totalScore = 0) ∧
    (∀ t : Nat, 1 ≤ t → t ≤ 723 → Reachable (hop t) ∧ (hop t).gameStarted = true ∧
      (hop t).gameOver = false ∧ (hop t).levelComplete = false ∧ (hop t).totalScore = 0) ∧
    (Reachable (hop 724) ∧ (hop 724).currentLevel = 0 ∧ (hop 724).gameOver = true ∧
      (hop 724).levelComplete = true ∧ (hop 724).currentScore = 5 ∧ (hop 724).totalScore = 5) ∧
    (∀ inp : Input, inp.space = true → ∃ s1, mainFrame inp (hop 724) = some s1 ∧
      s1.currentLevel = 0 ∧ s1.gameStarted = false ∧ s1.gameOver = false ∧
      s1.levelComplete = false ∧ s1.currentScore = 5) := by
  have hend : Reachable (hop 724) ∧ (hop 724).currentLevel = 0 ∧ (hop 724).gameOver = true ∧
      (hop 724).levelComplete = true ∧ (hop 724).currentScore = 5 ∧ (hop 724).totalScore = 5 ∧
      levelAt (hop 724).levels 0 = some ⟨5, 5, 3, 160, 2 / 5⟩ := by
    obtain ⟨hr, hl, _, ho, hc, _, htab, htot, hsc, _, _, hall, _, _⟩ := hop_inv 724 (le_refl _)
    have h5 : (hop 724).currentScore = 5 := by
      rw [hsc, (countTrue_eq_iff _ _).2 (hall (le_refl _))]
      rfl
    refine ⟨hr, hl, by rw [ho]; rfl, by rw [hc]; rfl, h5, ?_, by rw [htab, h5]⟩
    rw [htot, if_pos (le_refl _), h5]
  refine ⟨fun s s1 inp ho hsp h => ?_, ?_, fun t h1 h2 => ?_,
    ⟨hend.1, hend.2.1, hend.2.2.1, hend.2.2.2.1, hend.2.2.2.2.1, hend.2.2.2.2.2.1⟩, fun inp hsp => ?_⟩
  · simp only [mainFrame, hsp, if_true, spaceBlock, ho, Bool.not_true, Bool.and_false, Bool.false_and,
      Bool.false_eq_true, if_false, Option.bind_eq_bind, Option.pure_def] at h
    cases hc : ChangeState inp.rand s.currentLevel s with
    | none => simp [hc] at h
    | some u =>
      simp only [hc, Option.some_bind] at h
      have hu : u.totalScore = s.totalScore := by
        simp only [ChangeState] at hc
        split at hc
        · cases hc
          rfl
        · have := reset_ledger inp.rand _ u hc
          simp only [ledger, Prod.mk.injEq] at this
          exact this.2.2.2.2.2.2.2
      simp only [UpdateGame] at h
      split at h
      · cases h
        exact hu
      · rename_i hflags
        exfalso
        apply hflags
        simp only [ChangeState] at hc
        split at hc
        · cases hc
          simp [ho]
        · have := reset_ledger inp.rand _ u hc
          simp only [ledger, Prod.mk.injEq] at this
          simp [this.2.2.1]
  · obtain ⟨hr, _, hs, _, _, _, _, htot, hsc, _, h4, _, _, _⟩ := hop_inv 0 (by decide)
    have hz : (hop 0).totalScore = 0 := by rw [htot, if_neg (by decide)]
    refine ⟨hr, by rw [hs]; rfl, ?_, hz⟩
    rw [hsc]
    have : countTrue (hop 0).pipePassed 5 = 0 := by
      rw [hop_zero, title0_eq]
      exact countTrue_eq_zero _ _ (fun i hi => by simp [resetResult, hi])
    rw [this]
    rfl
  · obtain ⟨hr, _, hs, ho, hc, _, _, htot, _⟩ := hop_inv t (by omega)
    refine ⟨hr, by rw [hs]; simp; omega, by rw [ho]; simp; omega, by rw [hc]; simp; omega, ?_⟩
    rw [htot, if_neg (by omega)]
  · obtain ⟨_, hl, ho, _, _, htot, htab⟩ := hend
    obtain ⟨s1, h1, a1, a2, a3, a4, a5, _⟩ := retry_frame (hop 724) inp ⟨5, 5, 3, 160, 2 / 5⟩ ho hsp
      (by rw [hl]; decide) (by rw [hl]; exact htab) rfl
    exact ⟨s1, h1, by rw [a1, hl], a2, a3, a4, by rw [a5, htot]⟩

end Simple

/-! ## C21: the bottom pipe rectangle of the collision test -/

/-- C21 (the claim fails at a reachable frame): in the playing frame with SPACE
run on the reachable state `climb 0` of level 0, the bottom pipe rectangle of
slot 0 that the collision test uses is `[1094, 210, 70, 450]`; it ends at 660,
not at the bottom edge 450 of the screen, and is not the rectangle of height
`450 - (pipeGapY + gapSize) = 240`. -/
theorem bottom_rectangle_not_clipped :
    Reachable (climb 0) ∧ (climb 0).currentState = STATE_PLAYING ∧
    levelAt (climb 0).currentLevel = some ⟨5, 3, 160, 2 / 5⟩ ∧
    botPipe ⟨5, 3, 160, 2 / 5⟩
      (movePipe ⟨5, 3, 160, 2 / 5⟩ spaceInput 0 (updatePlayer ⟨5, 3, 160, 2 / 5⟩ spaceInput (climb 0))) 0
      = ⟨1094, 210, 70, 450⟩ ∧
    (movePipe ⟨5, 3, 160, 2 / 5⟩ spaceInput 0
      (updatePlayer ⟨5, 3, 160, 2 / 5⟩ spaceInput (climb 0))).pipeGapY 0 + 160 = 210 ∧
    botPipe ⟨5, 3, 160, 2 / 5⟩
      (movePipe ⟨5, 3, 160, 2 / 5⟩ spaceInput 0 (updatePlayer ⟨5, 3, 160, 2 / 5⟩ spaceInput (climb 0))) 0
      ≠ ⟨1094, 210, 70, 450 - 210⟩ := by
  have hb : botPipe ⟨5, 3, 160, 2 / 5⟩
      (movePipe ⟨5, 3, 160, 2 / 5⟩ spaceInput 0 (updatePlayer ⟨5, 3, 160, 2 / 5⟩ spaceInput (climb 0))) 0
      = ⟨1094, 210, 70, 450⟩ := by
    simp only [botPipe, movePipe_eq, updatePlayer, climb, demoTitle, initGame, Function.update_same,
      PIPE_WIDTH, SCREEN_HEIGHT]
    norm_num
  refine ⟨climb_reachable 0 (by decide), by simp [climb], rfl, hb, ?_, ?_⟩
  · simp only [movePipe_eq, updatePlayer, climb, demoTitle, initGame]
    norm_num
  · rw [hb]
    intro h
    have h2 := congrArg Rectangle.height h
    norm_num at h2

/-- C21, amended: the bottom pipe rectangle that the collision test of slot `i`
uses is `[pipeX, pipeGapY + gapSize, 70, 450]`; its height is the screen
height, so that it ends `pipeGapY + gapSize` below the bottom edge of the
screen, while the rectangle that `DrawGame` draws has the height
`450 - (pipeGapY + gapSize)` and ends at the edge. When `pipeGapY + gapSize`
is not negative, the two rectangles give the same collision result against
every rectangle whose top is above the bottom edge, and so against the player
hitbox whenever the bounds condition is false. -/
theorem bottom_rectangle (cur : LevelData) (s : Game) (i : Nat) :
    hitPipe cur i s = (if CheckCollisionRecs (topPipe s i) (playerRect s) ||
        CheckCollisionRecs (botPipe cur s i) (playerRect s)
      then { s with currentState := STATE_GAMEOVER } else s) ∧
    botPipe cur s i = ⟨s.pipeX i, s.pipeGapY i + cur.gapSize, 70, 450⟩ ∧
    (botPipe cur s i).y + (botPipe cur s i).height = 450 + (s.pipeGapY i + cur.gapSize) ∧
    drawnBotPipe cur s i
      = ⟨s.pipeX i, s.pipeGapY i + cur.gapSize, 70, 450 - (s.pipeGapY i + cur.gapSize)⟩ ∧
    (drawnBotPipe cur s i).y + (drawnBotPipe cur s i).height = 450 ∧
    (∀ p : Rectangle, 0 ≤ s.pipeGapY i + cur.gapSize → p.y < 450 →
      CheckCollisionRecs (botPipe cur s i) p = CheckCollisionRecs (drawnBotPipe cur s i) p) ∧
    (0 ≤ s.pipeGapY i + cur.gapSize → outOfBounds s = false →
      CheckCollisionRecs (botPipe cur s i) (playerRect s)
        = CheckCollisionRecs (drawnBotPipe cur s i) (playerRect s)) := by
  have key : ∀ p : Rectangle, 0 ≤ s.pipeGapY i + cur.gapSize → p.y < 450 →
      CheckCollisionRecs (botPipe cur s i) p = CheckCollisionRecs (drawnBotPipe cur s i) p := by
    intro p h0 hp
    simp only [CheckCollisionRecs, botPipe, drawnBotPipe, SCREEN_HEIGHT, PIPE_WIDTH]
    congr 1
    apply propext
    push_cast
    constructor
    · rintro ⟨hx, h1, _⟩
      exact ⟨hx, h1, by linarith⟩
    · rintro ⟨hx, h1, _⟩
      exact ⟨hx, h1, by linarith⟩
  refine ⟨rfl, ?_, ?_, ?_, ?_, key, fun h0 hb => key _ h0 ?_⟩
  · simp only [botPipe, PIPE_WIDTH, SCREEN_HEIGHT]
    norm_num
  · simp only [botPipe, SCREEN_HEIGHT]
    push_cast
    ring
  · simp only [drawnBotPipe, PIPE_WIDTH, SCREEN_HEIGHT]
    norm_num
  · simp only [drawnBotPipe, SCREEN_HEIGHT]
    push_cast
    ring
  · simp only [outOfBounds, PACMAN_RADIUS, SCREEN_HEIGHT, decide_eq_false_iff_not, not_or, not_le] at hb
    simp only [playerRect, PACMAN_RADIUS]
    push_cast at hb
    linarith [hb.2]

/-! ## C22: the oscillating gap stays on the screen -/

/-- The gap position that the reset draws for a slot of level 1, with non-negative `rand()`. -/
theorem genGapY_level1 (rand : Nat → Int) (i : Nat) (hr : ∀ k, 0 ≤ rand k) :
    50 ≤ genGapY ⟨10, 7 / 2, 150, 9 / 20⟩ rand i ∧ genGapY ⟨10, 7 / 2, 150, 9 / 20⟩ rand i ≤ 249 := by
  have hm : maxGapOf ⟨10, 7 / 2, 150, 9 / 20⟩ - 50 = 200 := by
    simp [maxGapOf, SCREEN_HEIGHT, cTrunc_150]
  obtain ⟨m1, m2⟩ := tmod_bounds (rand (randsPerSlot ⟨10, 7 / 2, 150, 9 / 20⟩ * i)) 200 (hr _)
    (by decide)
  simp only [genGapY, hm]
  have c1 : (0 : ℚ) ≤ ((Int.tmod (rand (randsPerSlot ⟨10, 7 / 2, 150, 9 / 20⟩ * i)) 200 : Int) : ℚ) := by
    exact_mod_cast m1
  have c2 : ((Int.tmod (rand (randsPerSlot ⟨10, 7 / 2, 150, 9 / 20⟩ * i)) 200 : Int) : ℚ) ≤ 199 := by
    exact_mod_cast (by omega : Int.tmod (rand (randsPerSlot ⟨10, 7 / 2, 150, 9 / 20⟩ * i)) 200 ≤ 199)
  push_cast
  constructor <;> linarith

/-- C22: level index 1 is the level with gap size 150; for non-negative values
of `rand()` the reset of that level returns and gives every slot below
`pipeCount = 10` an `initialPipeGapY` in `[50, 249]`; and when the pipe loop
moves such a slot on level 1 with a sine value in `[-1, 1]`, the new
`pipeGapY = initialPipeGapY + 50 * sine` is not negative and
`pipeGapY + gapSize ≤ 450`, so that the top pipe rectangle has a height that
is not negative and the bottom pipe rectangle starts on the screen. -/
theorem gap_stays_on_screen (rand : Nat → Int) (s : Game) (inp : Input) (i : Nat)
    (hr : ∀ k, 0 ≤ rand k) (hi : i < 10) (hs1 : -1 ≤ inp.sinOsc i) (hs2 : inp.sinOsc i ≤ 1) :
    levelAt 1 = some ⟨10, 7 / 2, 150, 9 / 20⟩ ∧
    (s.currentLevel = 1 →
      ResetEntityPositions rand s = resetWith ⟨10, 7 / 2, 150, 9 / 20⟩ rand s) ∧
    ∃ s1, resetWith ⟨10, 7 / 2, 150, 9 / 20⟩ rand s = some s1 ∧
      s1.pipeGapY i = s1.initialPipeGapY i ∧
      50 ≤ s1.initialPipeGapY i ∧ s1.initialPipeGapY i ≤ 249 ∧
      ∀ t : Game, t.currentLevel = 1 → t.initialPipeGapY i = s1.initialPipeGapY i →
        (movePipe ⟨10, 7 / 2, 150, 9 / 20⟩ inp i t).pipeGapY i
          = t.initialPipeGapY i + inp.sinOsc i * 50 ∧
        0 ≤ (movePipe ⟨10, 7 / 2, 150, 9 / 20⟩ inp i t).pipeGapY i ∧
        (movePipe ⟨10, 7 / 2, 150, 9 / 20⟩ inp i t).pipeGapY i + 150 ≤ 450 ∧
        0 ≤ (topPipe (movePipe ⟨10, 7 / 2, 150, 9 / 20⟩ inp i t) i).height ∧
        (botPipe ⟨10, 7 / 2, 150, 9 / 20⟩ (movePipe ⟨10, 7 / 2, 150, 9 / 20⟩ inp i t) i).y ≤ 450 := by
  have hm : maxGapOf ⟨10, 7 / 2, 150, 9 / 20⟩ - 50 ≠ 0 := by
    simp [maxGapOf, SCREEN_HEIGHT, cTrunc_150]
  obtain ⟨g1, g2⟩ := genGapY_level1 rand i hr
  have hi2 : i < (10 : Int).toNat := hi
  refine ⟨rfl, fun hl => ?_, _, resetWith_eq _ rand s hm, ?_, ?_, ?_, fun t hl ht => ?_⟩
  · simp [ResetEntityPositions, hl, levelAt_one]
  · simp only [resetResult, hi2, if_true]
  · simp only [resetResult, hi2, if_true]
    exact g1
  · simp only [resetResult, hi2, if_true]
    exact g2
  · have e0 : (resetResult ⟨10, 7 / 2, 150, 9 / 20⟩ rand (10 : Int).toNat s).initialPipeGapY i
        = genGapY ⟨10, 7 / 2, 150, 9 / 20⟩ rand i := by
      simp only [resetResult, hi2, if_true]
    have e0b : t.initialPipeGapY i = genGapY ⟨10, 7 / 2, 150, 9 / 20⟩ rand i := by
      rw [ht]
      exact e0
    have e : (movePipe ⟨10, 7 / 2, 150, 9 / 20⟩ inp i t).pipeGapY i
        = t.initialPipeGapY i + inp.sinOsc i * 50 := by
      simp [movePipe_eq, hl]
    have b1 : 0 ≤ t.initialPipeGapY i + inp.sinOsc i * 50 := by
      rw [e0b]
      linarith
    have b2 : t.initialPipeGapY i + inp.sinOsc i * 50 + 150 ≤ 450 := by
      rw [e0b]
      linarith
    refine ⟨e, by rw [e]; exact b1, by rw [e]; exact b2, ?_, ?_⟩
    · show 0 ≤ (movePipe ⟨10, 7 / 2, 150, 9 / 20⟩ inp i t).pipeGapY i
      rw [e]
      exact b1
    · show (movePipe ⟨10, 7 / 2, 150, 9 / 20⟩ inp i t).pipeGapY i + 150 ≤ 450
      rw [e]
      exact b2

theorem gap_stays_on_screen_witness :
    ∃ s1, resetWith ⟨10, 7 / 2, 150, 9 / 20⟩ (fun _ => 199) initGame = some s1 ∧
      s1.initialPipeGapY 9 ≤ 249 ∧
      (movePipe ⟨10, 7 / 2, 150, 9 / 20⟩ { idleInput with sinOsc := fun _ => 1 } 9
        { s1 with currentLevel := 1 }).pipeGapY 9 + 150 ≤ 450 := by
  obtain ⟨_, _, s1, h1, _, _, h3, h4⟩ := gap_stays_on_screen (fun _ => 199) initGame
    { idleInput with sinOsc := fun _ => 1 } 9 (fun _ => by show (0 : Int) ≤ 199; decide) (by decide)
    (by show (-1 : ℚ) ≤ 1; norm_num) (by show (1 : ℚ) ≤ 1; norm_num)
  exact ⟨s1, h1, h3, (h4 { s1 with currentLevel := 1 } rfl rfl).2.2.1⟩

namespace Simple

/-! ## C23: the assignments of `SetupLevels` in the simpler variant -/

/-- C23 (evaluation of the code at the failing input): `MAX_LEVELS` is 2 and
the array `levels` has two elements. `SetupLevels` makes 18 assignments; the
first twelve name the indices 0 and 1 and turn the zero-initialised array into
`levelTable`; the last six name index 2, which is not an index of the array:
the thirteenth assignment, `levels[2].score = 0`, is out of range, on the
zero-initialised array and on every array of two elements, so that
`SetupLevels` as a whole is undefined. -/
theorem setup_writes_past_table :
    MAX_LEVELS = 2 ∧ zeroTable.length = 2 ∧
    setupWrites.map Prod.fst = [0, 0, 0, 0, 0, 0, 1, 1, 1, 1, 1, 1, 2, 2, 2, 2, 2, 2] ∧
    setupPrefix 12 zeroTable = some levelTable ∧
    setupPrefix 13 zeroTable = none ∧
    SetupLevels zeroTable = none ∧
    (∀ (tbl : List LevelData) (f : LevelData → LevelData), tbl.length = 2 →
      writeLevel 2 f tbl = none) ∧
    (∀ tbl : List LevelData, tbl.length = 2 →
      (∃ t, setupPrefix 12 tbl = some t ∧ t.length = 2) ∧ SetupLevels tbl = none) := by
  have hw : ∀ (tbl : List LevelData) (f : LevelData → LevelData), tbl.length = 2 →
      writeLevel 2 f tbl = none := by
    intro tbl f h
    have : tbl[2]? = none := List.getElem?_eq_none (by omega)
    simp [writeLevel, this]
  have hgen : ∀ tbl : List LevelData, tbl.length = 2 →
      (∃ t, setupPrefix 12 tbl = some t ∧ t.length = 2) ∧ SetupLevels tbl = none := by
    intro tbl h
    match tbl, h with
    | [a, b], _ => exact ⟨⟨_, rfl, rfl⟩, rfl⟩
  exact ⟨rfl, rfl, rfl, rfl, rfl, rfl, hw, hgen⟩

end Simple

end FlappyPacman
